import Mathlib

/-!
Shallow embedding of the vpk-plumber VPK format engine
(directory-tree codec, header/entry codecs, content reconstruction, writer)
over byte lists, with theorems checking the specification claims.

Streams are modelled as `List Nat` of byte values; all integer reads are
little-endian, mirroring `src/util/file.rs`.  Machine integers are `Nat`
with explicit `% 2^w` where the source relies on wrapping.
-/

namespace VPK

open scoped List

/-- Model of the library error type `pak::Error` (payload strings dropped,
`util::Error` sources collapsed into `io`/`utf8`).  `noFuel` is the marker for
the step index of the loop models; the termination theorems show it never
occurs once the step budget exceeds the stream length. -/
inductive Err where
  | io
  | utf8
  | invalidSignature
  | badVersion
  | invalidEntryTerminator
  | treeNotFound
  | fileNotFound
  | badData
  | dataNotFound
  | memoryMappedFileNotFound
  | dataTooLarge
  | noFuel
  deriving DecidableEq, Repr

instance {ε α : Type} [DecidableEq ε] [DecidableEq α] : DecidableEq (Except ε α) := fun x y =>
  match x, y with
  | .ok a, .ok b =>
    match decEq a b with
    | .isTrue h => .isTrue (h ▸ rfl)
    | .isFalse h => .isFalse (fun hc => h (Except.ok.inj hc))
  | .error a, .error b =>
    match decEq a b with
    | .isTrue h => .isTrue (h ▸ rfl)
    | .isFalse h => .isFalse (fun hc => h (Except.error.inj hc))
  | .ok _, .error _ => .isFalse (fun hc => Except.noConfusion hc)
  | .error _, .ok _ => .isFalse (fun hc => Except.noConfusion hc)

/-- Little-endian value of a byte list (least significant byte first),
modelling `uNN::from_le_bytes`. -/
def leVal : List Nat → Nat
  | [] => 0
  | b :: r => b + 256 * leVal r

/-- Little-endian encoding of `v` on `n` bytes, modelling `uNN::to_le_bytes`
(the value is reduced modulo `2^(8*n)` as the machine integer would be). -/
def natLE : Nat → Nat → List Nat
  | 0, _ => []
  | n + 1, v => v % 256 :: natLE n (v / 256)

/-- Model of `Read::read_exact` into an `n`-byte buffer: fails (with an IO
error) unless `n` bytes remain. -/
def readExact? (n : Nat) (b : List Nat) : Option (List Nat × List Nat) :=
  if n ≤ b.length then some (b.take n, b.drop n) else none

/-- Shared model of `read_u8` / `read_u16` / `read_u24` / `read_u32` /
`read_u64` from `src/util/file.rs`: read exactly `n` bytes, combine
little-endian. -/
def readUN? (n : Nat) (b : List Nat) : Option (Nat × List Nat) :=
  match readExact? n b with
  | none => none
  | some (h, r) => some (leVal h, r)

def readU8? (b : List Nat) : Option (Nat × List Nat) := readUN? 1 b

def readU16? (b : List Nat) : Option (Nat × List Nat) := readUN? 2 b

def readU24? (b : List Nat) : Option (Nat × List Nat) := readUN? 3 b

def readU32? (b : List Nat) : Option (Nat × List Nat) := readUN? 4 b

def readU64? (b : List Nat) : Option (Nat × List Nat) := readUN? 8 b

/-- Model of `read_string` from `src/util/file.rs`, byte part: single-byte
reads until a NUL byte; at end of stream the read returns zero bytes so the
zero-initialised buffer terminates the loop and the partial string is
returned without error. -/
def readStringBytes : List Nat → List Nat × List Nat
  | [] => ([], [])
  | b :: r =>
    if b = 0 then ([], r)
    else (b :: (readStringBytes r).1, (readStringBytes r).2)

/-- A UTF-8 continuation byte (`0x80..=0xBF`). -/
def contByte (b : Nat) : Bool := 128 ≤ b && b ≤ 191

/-- Strict UTF-8 validity of a byte sequence, modelling
`String::from_utf8` acceptance (rejects overlong forms, surrogates and
values above `U+10FFFF`). -/
def utf8Valid : List Nat → Bool
  | [] => true
  | b :: r =>
    if b ≤ 127 then utf8Valid r
    else if 194 ≤ b && b ≤ 223 then
      match r with
      | c1 :: r' => contByte c1 && utf8Valid r'
      | [] => false
    else if b = 224 then
      match r with
      | c1 :: c2 :: r' => (160 ≤ c1 && c1 ≤ 191) && contByte c2 && utf8Valid r'
      | _ => false
    else if 225 ≤ b && b ≤ 236 then
      match r with
      | c1 :: c2 :: r' => contByte c1 && contByte c2 && utf8Valid r'
      | _ => false
    else if b = 237 then
      match r with
      | c1 :: c2 :: r' => (128 ≤ c1 && c1 ≤ 159) && contByte c2 && utf8Valid r'
      | _ => false
    else if 238 ≤ b && b ≤ 239 then
      match r with
      | c1 :: c2 :: r' => contByte c1 && contByte c2 && utf8Valid r'
      | _ => false
    else if b = 240 then
      match r with
      | c1 :: c2 :: c3 :: r' =>
          (144 ≤ c1 && c1 ≤ 191) && contByte c2 && contByte c3 && utf8Valid r'
      | _ => false
    else if 241 ≤ b && b ≤ 243 then
      match r with
      | c1 :: c2 :: c3 :: r' => contByte c1 && contByte c2 && contByte c3 && utf8Valid r'
      | _ => false
    else if b = 244 then
      match r with
      | c1 :: c2 :: c3 :: r' =>
          (128 ≤ c1 && c1 ≤ 143) && contByte c2 && contByte c3 && utf8Valid r'
      | _ => false
    else false

/-- Model of `read_string` including the `String::from_utf8` validation. -/
def vpkReadString (b : List Nat) : Except Err (List Nat × List Nat) :=
  if utf8Valid (readStringBytes b).1 then .ok (readStringBytes b) else .error .utf8

/-- Model of `read_bytes(count)`: a single `Read::read` call on a plain file
returns the available bytes, truncated at end of stream, without error. -/
def readBytesN (count : Nat) (b : List Nat) : List Nat × List Nat :=
  (b.take count, b.drop count)

/-- ASCII bytes of a literal (all strings used by the library are ASCII). -/
def strB (s : String) : List Nat := s.data.map Char.toNat

/-- One bit step of the reflected CRC-32/ISO-HDLC computation
(polynomial `0xEDB88320`), as performed by the `crc` crate. -/
def crcRound (c : Nat) : Nat := if c % 2 = 1 then (c / 2) ^^^ 0xEDB88320 else c / 2

/-- Iterated CRC bit steps. -/
def crcRounds : Nat → Nat → Nat
  | 0, c => c
  | n + 1, c => crcRounds n (crcRound c)

/-- Byte step of CRC-32/ISO-HDLC (`digest.update` on one byte). -/
def crc32Update (c b : Nat) : Nat := crcRounds 8 (c ^^^ b % 256)

/-- CRC-32/ISO-HDLC of a byte list: init `0xFFFFFFFF`, final xor
`0xFFFFFFFF`, as used by `Crc::<u32>::new(&CRC_32_ISO_HDLC)`. -/
def crc32 (l : List Nat) : Nat := (l.foldl crc32Update 0xFFFFFFFF) ^^^ 0xFFFFFFFF

/-- Lift a primitive read (`Option`) into the error monad, failures being IO
errors (`Error::Util { source: util::Error::Io(..), .. }`). -/
def liftRead : Option α → Except Err α
  | none => .error .io
  | some a => .ok a

/-- Association-list lookup, modelling `HashMap::get`. -/
def lookupKV [DecidableEq K] : List (K × V) → K → Option V
  | [], _ => none
  | (k', v) :: t, k => if k' = k then some v else lookupKV t k

/-- Association-list insert, modelling `HashMap::insert` (replaces an
existing binding, appends a new one; iteration order of the model is
insertion order, one admissible order for the source's `HashMap`). -/
def insKV [DecidableEq K] : List (K × V) → K → V → List (K × V)
  | [], k, v => [(k, v)]
  | (k', v') :: t, k, v => if k' = k then (k, v) :: t else (k', v') :: insKV t k v

/-- The terminator sequence for a `VPKDirectoryEntry` (`VPK_ENTRY_TERMINATOR`). -/
def VPK_ENTRY_TERMINATOR : Nat := 0xFFFF

/-- The shared V1/V2 signature / Respawn signature `0x55AA_1234`. -/
def VPK_SIGNATURE : Nat := 0x55AA1234

/-- Header version of VPK version 1. -/
def VPK_VERSION_V1 : Nat := 1

/-- Header version of VPK version 2. -/
def VPK_VERSION_V2 : Nat := 2

/-- Header version of Respawn VPKs (`196_610`). -/
def VPK_VERSION_REVPK : Nat := 196610

/-- The entry format used by VPK version 1 and 2 (`pak::VPKDirectoryEntry`). -/
structure VPKDirectoryEntry where
  crc : Nat
  preload_length : Nat
  archive_index : Nat
  entry_offset : Nat
  entry_length : Nat
  terminator : Nat
  deriving DecidableEq, Repr

/-- `<VPKDirectoryEntry as DirEntry>::from`: six little-endian fields, the
terminator being validated against `0xFFFF`. -/
def v1EntryFrom (b : List Nat) : Except Err (VPKDirectoryEntry × List Nat) := do
  let (crc, b) ← liftRead (readU32? b)
  let (preload_length, b) ← liftRead (readU16? b)
  let (archive_index, b) ← liftRead (readU16? b)
  let (entry_offset, b) ← liftRead (readU32? b)
  let (entry_length, b) ← liftRead (readU32? b)
  let (terminator, b) ← liftRead (readU16? b)
  if terminator ≠ VPK_ENTRY_TERMINATOR then throw .invalidEntryTerminator
  return (⟨crc, preload_length, archive_index, entry_offset, entry_length, terminator⟩, b)

/-- `<VPKDirectoryEntry as DirEntry>::write`: validates the terminator, then
emits the six fields little-endian. -/
def v1EntryWrite (e : VPKDirectoryEntry) : Except Err (List Nat) := do
  if e.terminator ≠ VPK_ENTRY_TERMINATOR then throw .invalidEntryTerminator
  return natLE 4 e.crc ++ natLE 2 e.preload_length ++ natLE 2 e.archive_index ++
    natLE 4 e.entry_offset ++ natLE 4 e.entry_length ++ natLE 2 e.terminator

/-- A file part within a Respawn directory entry
(`revpk::format::VPKFilePartEntryRespawn`). -/
structure VPKFilePartEntryRespawn where
  archive_index : Nat
  load_flags : Nat
  texture_flags : Nat
  entry_offset : Nat
  entry_length : Nat
  entry_length_uncompressed : Nat
  deriving DecidableEq, Repr

/-- The entry format used by Respawn VPKs
(`revpk::format::VPKDirectoryEntryRespawn`). -/
structure VPKDirectoryEntryRespawn where
  crc : Nat
  preload_length : Nat
  file_parts : List VPKFilePartEntryRespawn
  deriving DecidableEq, Repr

/-- The file-part scan of `<VPKDirectoryEntryRespawn as DirEntry>::from`:
reads records until the sentinel `archive_index == 0xFFFF` or the end of the
stream immediately after the index word (`stream_position == end`). -/
def respawnPartsLoop (b : List Nat) : Except Err (List VPKFilePartEntryRespawn × List Nat) :=
  match h0 : readU16? b with
  | none => .error .io
  | some (archive_index, b1) =>
    if archive_index = 0xFFFF ∨ b1 = [] then .ok ([], b1)
    else
      match h1 : readU16? b1 with
      | none => .error .io
      | some (load_flags, b2) =>
      match h2 : readU32? b2 with
      | none => .error .io
      | some (texture_flags, b3) =>
      match h3 : readU64? b3 with
      | none => .error .io
      | some (entry_offset, b4) =>
      match h4 : readU64? b4 with
      | none => .error .io
      | some (entry_length, b5) =>
      match h5 : readU64? b5 with
      | none => .error .io
      | some (entry_length_uncompressed, b6) =>
        match respawnPartsLoop b6 with
        | .error e => .error e
        | .ok (parts, b7) =>
          .ok (⟨archive_index, load_flags, texture_flags, entry_offset, entry_length,
                entry_length_uncompressed⟩ :: parts, b7)
termination_by b.length
decreasing_by
  have hlen : ∀ {n v : Nat} {x y : List Nat}, readUN? n x = some (v, y) →
      y.length = x.length - n ∧ n ≤ x.length := by
    intro n v x y h
    by_cases hle : n ≤ x.length
    · have he : readUN? n x = some (leVal (x.take n), x.drop n) := by
        simp [readUN?, readExact?, hle]
      rw [he] at h
      simp only [Option.some.injEq, Prod.mk.injEq] at h
      exact ⟨h.2 ▸ List.length_drop n x, hle⟩
    · have he : readUN? n x = none := by simp [readUN?, readExact?, hle]
      rw [he] at h
      cases h
  simp only [readU16?, readU32?, readU64?] at h0 h1 h2 h3 h4 h5
  obtain ⟨e0, l0⟩ := hlen h0
  obtain ⟨e1, l1⟩ := hlen h1
  obtain ⟨e2, l2⟩ := hlen h2
  obtain ⟨e3, l3⟩ := hlen h3
  obtain ⟨e4, l4⟩ := hlen h4
  obtain ⟨e5, l5⟩ := hlen h5
  omega

/-- `<VPKDirectoryEntryRespawn as DirEntry>::from`. -/
def respawnEntryFrom (b : List Nat) : Except Err (VPKDirectoryEntryRespawn × List Nat) := do
  let (crc, b) ← liftRead (readU32? b)
  let (preload_length, b) ← liftRead (readU16? b)
  let (file_parts, b) ← respawnPartsLoop b
  return (⟨crc, preload_length, file_parts⟩, b)

/-- Encoding of one Respawn file part (six little-endian fields, 26 bytes). -/
def respawnPartBytes (p : VPKFilePartEntryRespawn) : List Nat :=
  natLE 2 p.archive_index ++ natLE 2 p.load_flags ++ natLE 4 p.texture_flags ++
    natLE 8 p.entry_offset ++ natLE 8 p.entry_length ++ natLE 8 p.entry_length_uncompressed

/-- `<VPKDirectoryEntryRespawn as DirEntry>::write`: crc, preload length,
every file part, then the `0xFFFF` terminator. -/
def respawnEntryWrite (e : VPKDirectoryEntryRespawn) : Except Err (List Nat) :=
  .ok (natLE 4 e.crc ++ natLE 2 e.preload_length ++
    (e.file_parts.map respawnPartBytes).flatten ++ natLE 2 VPK_ENTRY_TERMINATOR)

/-- The `DirEntry` trait of `pak::mod`: binary codec plus preload length. -/
structure DirEntryCodec (E : Type) where
  fromBytes : List Nat → Except Err (E × List Nat)
  writeBytes : E → Except Err (List Nat)
  preloadLen : E → Nat

def v1Codec : DirEntryCodec VPKDirectoryEntry :=
  ⟨v1EntryFrom, v1EntryWrite, fun e => e.preload_length⟩

def respawnCodec : DirEntryCodec VPKDirectoryEntryRespawn :=
  ⟨respawnEntryFrom, respawnEntryWrite, fun e => e.preload_length⟩

/-- The file tree parsed from a VPK directory file (`pak::VPKTree`), with
`HashMap`s modelled as association lists keyed by the composed path. -/
structure VPKTree (E : Type) where
  files : List (List Nat × E)
  preload : List (List Nat × List Nat)
  deriving DecidableEq, Repr

def VPKTree.empty : VPKTree E := ⟨[], []⟩

/-- The filename level (innermost loop) of `VPKTree::from`.  State: remaining
stream `rem`, absolute position `pos`, the current extension and directory
strings, and the tree built so far.  `bound = start + size`.  The step budget
`fuel` models the loop itself; `Err.noFuel` never occurs once
`fuel > rem.length` (see the termination theorems). -/
def parseFiles (c : DirEntryCodec E) (bound : Nat) :
    Nat → List Nat → Nat → List Nat → List Nat → VPKTree E →
    Except Err (VPKTree E × List Nat × Nat)
  | 0, _, _, _, _, _ => .error .noFuel
  | fuel + 1, rem, pos, ext, dirp, t =>
    match vpkReadString rem with
    | .error e => .error e
    | .ok (name, rem₁) =>
      let pos₁ := pos + (rem.length - rem₁.length)
      if name = [] ∨ pos₁ > bound then .ok (t, rem₁, pos₁)
      else
        match c.fromBytes rem₁ with
        | .error e => .error e
        | .ok (entry, rem₂) =>
          let pos₂ := pos₁ + (rem₁.length - rem₂.length)
          let fp := dirp ++ 47 :: name ++ 46 :: ext
          if c.preloadLen entry > 0 then
            let pl := (readBytesN (c.preloadLen entry) rem₂).1
            parseFiles c bound fuel (readBytesN (c.preloadLen entry) rem₂).2
              (pos₂ + pl.length) ext dirp
              ⟨insKV t.files fp entry, insKV t.preload fp pl⟩
          else
            parseFiles c bound fuel rem₂ pos₂ ext dirp ⟨insKV t.files fp entry, t.preload⟩

/-- The directory level (middle loop) of `VPKTree::from`. -/
def parseDirs (c : DirEntryCodec E) (bound : Nat) :
    Nat → List Nat → Nat → List Nat → VPKTree E → Except Err (VPKTree E × List Nat × Nat)
  | 0, _, _, _, _ => .error .noFuel
  | fuel + 1, rem, pos, ext, t =>
    match vpkReadString rem with
    | .error e => .error e
    | .ok (dirp, rem₁) =>
      let pos₁ := pos + (rem.length - rem₁.length)
      if dirp = [] ∨ pos₁ > bound then .ok (t, rem₁, pos₁)
      else
        match parseFiles c bound fuel rem₁ pos₁ ext dirp t with
        | .error e => .error e
        | .ok (t', rem₂, pos₂) => parseDirs c bound fuel rem₂ pos₂ ext t'

/-- The extension level (outer loop) of `VPKTree::from`: runs while the
stream position is strictly before `bound = start + size`; an empty
extension string breaks out. -/
def parseExts (c : DirEntryCodec E) (bound : Nat) :
    Nat → List Nat → Nat → VPKTree E → Except Err (VPKTree E × List Nat × Nat)
  | 0, _, _, _ => .error .noFuel
  | fuel + 1, rem, pos, t =>
    if pos < bound then
      match vpkReadString rem with
      | .error e => .error e
      | .ok (ext, rem₁) =>
        let pos₁ := pos + (rem.length - rem₁.length)
        if ext = [] then .ok (t, rem₁, pos₁)
        else
          match parseDirs c bound fuel rem₁ pos₁ ext t with
          | .error e => .error e
          | .ok (t', rem₂, pos₂) => parseExts c bound fuel rem₂ pos₂ t'
    else .ok (t, rem, pos)

/-- `VPKTree::from(file, start, size)` at an explicit step budget: seek to
`start` (seeking past the end of a file succeeds) and run the nested loops. -/
def vpkTreeFromFuel (c : DirEntryCodec E) (fuel : Nat) (file : List Nat)
    (start size : Nat) : Except Err (VPKTree E) :=
  match parseExts c (start + size) fuel (file.drop start) start .empty with
  | .error e => .error e
  | .ok (t, _, _) => .ok t

/-- `VPKTree::from(file, start, size)`; the default budget
`remaining + 1` is sufficient (see the termination theorems). -/
def vpkTreeFrom (c : DirEntryCodec E) (file : List Nat) (start size : Nat) :
    Except Err (VPKTree E) :=
  vpkTreeFromFuel c ((file.drop start).length + 1) file start size

/-- Split a list at the last occurrence of `c`:
`splitLast c l = some (pre, post)` iff `l = pre ++ c :: post` with
`c ∉ post`. -/
def splitLast (c : Nat) : List Nat → Option (List Nat × List Nat)
  | [] => none
  | b :: r =>
    match splitLast c r with
    | some (pre, post) => some (b :: pre, post)
    | none => if b = c then some ([], r) else none

/-- `Path::file_name` on byte strings (component after the last `/`;
the whole string when there is no separator). -/
def rustFileName (p : List Nat) : List Nat := ((splitLast 47 p).map (·.2)).getD p

/-- The directory string computed by `VPKTree::write`:
`path.parent().unwrap_or}`-chain collapsed — the prefix before the last `/`,
or the empty string when there is no separator. -/
def rustParent (p : List Nat) : List Nat := ((splitLast 47 p).map (·.1)).getD []

/-- `Path::file_stem` / `Path::extension` logic on a file name: split at the
last `.`; a dot at position zero (or no dot) leaves the whole name as the
stem with no extension. -/
def rustStemExt (fn : List Nat) : List Nat × Option (List Nat) :=
  match splitLast 46 fn with
  | none => (fn, none)
  | some (pre, post) => if pre = [] then (fn, none) else (pre, some post)

/-- The file-stem string computed by `VPKTree::write` (`unwrap_or("")`). -/
def rustFileStem (p : List Nat) : List Nat := (rustStemExt (rustFileName p)).1

/-- The extension string computed by `VPKTree::write` (`unwrap_or("")`). -/
def rustExtension (p : List Nat) : List Nat := ((rustStemExt (rustFileName p)).2).getD []

/-- One record in the treeified write structure:
`(file_name, entry, preload_bytes)`. -/
def FileRec (E : Type) := List Nat × E × Option (List Nat)

/-- Append `a` into the group keyed `k` (insertion creating the group at the
end if absent), modelling the `HashMap`-of-`Vec` push of `VPKTree::write`. -/
def pushGrp (l : List (List Nat × List A)) (k : List Nat) (a : A) :
    List (List Nat × List A) :=
  match l with
  | [] => [(k, [a])]
  | (k', xs) :: t => if k' = k then (k', xs ++ [a]) :: t else (k', xs) :: pushGrp t k a

/-- Two-level grouped push: extension, then directory. -/
def pushGrp2 (l : List (List Nat × List (List Nat × List A))) (k1 k2 : List Nat) (a : A) :
    List (List Nat × List (List Nat × List A)) :=
  match l with
  | [] => [(k1, [(k2, [a])])]
  | (k', m) :: t => if k' = k1 then (k', pushGrp m k2 a) :: t else (k', m) :: pushGrp2 t k1 k2 a

/-- The `treeified` structure of `VPKTree::write`: every file keyed by
extension, then directory, carrying `(file_stem, entry, preload lookup)`. -/
def groupTree (t : VPKTree E) : List (List Nat × List (List Nat × List (FileRec E))) :=
  t.files.foldl
    (fun acc kv =>
      pushGrp2 acc (rustExtension kv.1) (rustParent kv.1)
        (rustFileStem kv.1, kv.2, lookupKV t.preload kv.1))
    []

/-- `write_string`: the bytes followed by a NUL. -/
def writeString (s : List Nat) : List Nat := s ++ [0]

/-- One file record as written by `VPKTree::write`: name string, entry
encoding, preload bytes when present. -/
def writeFileRec (c : DirEntryCodec E) (r : FileRec E) : Except Err (List Nat) := do
  let eb ← c.writeBytes r.2.1
  return writeString r.1 ++ eb ++ (r.2.2).getD []

/-- One directory group as written by `VPKTree::write`: directory string,
its files, then the single zero byte closing the filename level. -/
def writeDirGrp (c : DirEntryCodec E) (d : List Nat × List (FileRec E)) :
    Except Err (List Nat) := do
  let recs ← d.2.mapM (writeFileRec c)
  return writeString d.1 ++ recs.flatten ++ [0]

/-- One extension group as written by `VPKTree::write`: extension string, its
directory groups, then the single zero byte closing the directory level. -/
def writeExtGrp (c : DirEntryCodec E) (g : List Nat × List (List Nat × List (FileRec E))) :
    Except Err (List Nat) := do
  let ds ← g.2.mapM (writeDirGrp c)
  return writeString g.1 ++ ds.flatten ++ [0]

/-- `VPKTree::write`: serialize every extension group.  No terminator
follows the final extension. -/
def vpkTreeWrite (c : DirEntryCodec E) (t : VPKTree E) : Except Err (List Nat) := do
  let gs ← (groupTree t).mapM (writeExtGrp c)
  return gs.flatten

/-- The header of a VPK version 1 file (`v1::VPKHeaderV1`). -/
structure VPKHeaderV1 where
  signature : Nat
  version : Nat
  tree_size : Nat
  deriving DecidableEq, Repr

/-- `VPKHeaderV1::from`: signature checked before the version is read,
version checked before the tree size is read. -/
def v1HeaderFrom (b : List Nat) : Except Err (VPKHeaderV1 × List Nat) := do
  let (signature, b) ← liftRead (readU32? b)
  if signature ≠ VPK_SIGNATURE then throw .invalidSignature
  let (version, b) ← liftRead (readU32? b)
  if version ≠ VPK_VERSION_V1 then throw .badVersion
  let (tree_size, b) ← liftRead (readU32? b)
  return (⟨signature, version, tree_size⟩, b)

/-- `VPKHeaderV1::write`: re-validates signature and version before emitting
any byte. -/
def v1HeaderWrite (h : VPKHeaderV1) : Except Err (List Nat) := do
  if h.signature ≠ VPK_SIGNATURE then throw .invalidSignature
  if h.version ≠ VPK_VERSION_V1 then throw .badVersion
  return natLE 4 h.signature ++ natLE 4 h.version ++ natLE 4 h.tree_size

/-- A 4-byte little-endian read at an absolute position (the value of
`file.read_u32()` with the cursor at `pos`). -/
def readU32At? (file : List Nat) (pos : Nat) : Option Nat :=
  (readU32? (file.drop pos)).map (·.1)

/-- `VPKHeaderV1::is_format`: remembers the position, reads two `u32`s
(failed reads standing in as 0 via `unwrap_or`), restores the position, and
compares against the signature/version pair.  Returns (result, final
position). -/
def v1IsFormat (file : List Nat) (pos : Nat) : Bool × Nat :=
  let signature := (readU32At? file pos).getD 0
  let version := (readU32At? file (pos + 4)).getD 0
  (signature == VPK_SIGNATURE && version == VPK_VERSION_V1, pos)

/-- The header of a VPK version 2 file (`v2::VPKHeaderV2`). -/
structure VPKHeaderV2 where
  signature : Nat
  version : Nat
  tree_size : Nat
  file_data_section_size : Nat
  archive_md5_section_size : Nat
  other_md5_section_size : Nat
  signature_section_size : Nat
  deriving DecidableEq, Repr

/-- `VPKHeaderV2::from`: magic first, then version, then the section-size
invariants — archive-MD5 section a multiple of 28
(`size_of::<VPKArchiveMD5SectionEntry>()`), other-MD5 section exactly 48
(`size_of::<VPKOtherMD5Section>()`), signature section 0 or 296
(`size_of::<VPKSignatureSection>()`). -/
def v2HeaderFrom (b : List Nat) : Except Err (VPKHeaderV2 × List Nat) := do
  let (signature, b) ← liftRead (readU32? b)
  if signature ≠ VPK_SIGNATURE then throw .invalidSignature
  let (version, b) ← liftRead (readU32? b)
  if version ≠ VPK_VERSION_V2 then throw .badVersion
  let (tree_size, b) ← liftRead (readU32? b)
  let (file_data_section_size, b) ← liftRead (readU32? b)
  let (archive_md5_section_size, b) ← liftRead (readU32? b)
  if archive_md5_section_size % 28 ≠ 0 then throw .badData
  let (other_md5_section_size, b) ← liftRead (readU32? b)
  if other_md5_section_size ≠ 48 then throw .badData
  let (signature_section_size, b) ← liftRead (readU32? b)
  if signature_section_size ≠ 0 ∧ signature_section_size ≠ 296 then throw .badData
  return (⟨signature, version, tree_size, file_data_section_size, archive_md5_section_size,
    other_md5_section_size, signature_section_size⟩, b)

/-- `VPKHeaderV2::is_format`. -/
def v2IsFormat (file : List Nat) (pos : Nat) : Bool × Nat :=
  let signature := (readU32At? file pos).getD 0
  let version := (readU32At? file (pos + 4)).getD 0
  (signature == VPK_SIGNATURE && version == VPK_VERSION_V2, pos)

/-- The header of a Respawn VPK file (`revpk::format::VPKHeaderRespawn`). -/
structure VPKHeaderRespawn where
  signature : Nat
  version : Nat
  tree_size : Nat
  unknown : Nat
  deriving DecidableEq, Repr

/-- `VPKHeaderRespawn::from`: signature, then version, then tree size, then
the unknown field which must be 0. -/
def respawnHeaderFrom (b : List Nat) : Except Err (VPKHeaderRespawn × List Nat) := do
  let (signature, b) ← liftRead (readU32? b)
  if signature ≠ VPK_SIGNATURE then throw .invalidSignature
  let (version, b) ← liftRead (readU32? b)
  if version ≠ VPK_VERSION_REVPK then throw .badVersion
  let (tree_size, b) ← liftRead (readU32? b)
  let (unknown, b) ← liftRead (readU32? b)
  if unknown ≠ 0 then throw .badData
  return (⟨signature, version, tree_size, unknown⟩, b)

/-- `VPKHeaderRespawn::write`: re-validates signature and version (only)
before emitting the four fields. -/
def respawnHeaderWrite (h : VPKHeaderRespawn) : Except Err (List Nat) := do
  if h.signature ≠ VPK_SIGNATURE then throw .invalidSignature
  if h.version ≠ VPK_VERSION_REVPK then throw .badVersion
  return natLE 4 h.signature ++ natLE 4 h.version ++ natLE 4 h.tree_size ++ natLE 4 h.unknown

/-- `VPKHeaderRespawn::is_format`. -/
def respawnIsFormat (file : List Nat) (pos : Nat) : Bool × Nat :=
  let signature := (readU32At? file pos).getD 0
  let version := (readU32At? file (pos + 4)).getD 0
  (signature == VPK_SIGNATURE && version == VPK_VERSION_REVPK, pos)

/-- The VPK version 1 format (`v1::VPKVersion1`). -/
structure VPKVersion1 where
  header : VPKHeaderV1
  tree : VPKTree VPKDirectoryEntry
  deriving DecidableEq, Repr

/-- `VPKVersion1::from_file`: header, then the tree bounded by
`header.tree_size` starting at the position after the header. -/
def v1FromFile (file : List Nat) : Except Err VPKVersion1 := do
  let (header, rest) ← v1HeaderFrom file
  let tree ← vpkTreeFrom v1Codec file (file.length - rest.length) header.tree_size
  return ⟨header, tree⟩

/-- `<VPKVersion1 as PakWriter>::write_dir`: header bytes then tree bytes
(directory creation and file creation cannot fail in the model). -/
def v1WriteDir (v : VPKVersion1) : Except Err (List Nat) := do
  let hb ← v1HeaderWrite v.header
  let tb ← vpkTreeWrite v1Codec v.tree
  return hb ++ tb

/-- Decimal ASCII digits of `n` (`u16::to_string`). -/
def natDecBytes (n : Nat) : List Nat := (Nat.toDigits 10 n).map Char.toNat

/-- `format!("{:0>3}", s)`: left-pad with ASCII `0` to width 3. -/
def pad3 (s : List Nat) : List Nat := List.replicate (3 - s.length) 48 ++ s

/-- `Path::new(a).join(b)` for a relative `b`. -/
def pathJoin (a b : List Nat) : List Nat := a ++ 47 :: b

/-- `format!("{}_{:0>3}.vpk", vpk_name, archive_index.to_string())`. -/
def archiveFileName (vpk_name : List Nat) (idx : Nat) : List Nat :=
  vpk_name ++ 95 :: pad3 (natDecBytes idx) ++ strB (".vpk")

/-- `format!("{vpk_name}_dir.vpk")`. -/
def dirFileName (vpk_name : List Nat) : List Nat := vpk_name ++ strB ("_dir.vpk")

/-- `mem::size_of::<VPKHeaderV1>()`: three `u32` fields, 12 bytes. -/
def sizeOfVPKHeaderV1 : Nat := 12

/-- `<VPKVersion1 as PakReader>::read_file`.  The file system is modelled as
a partial map from full path bytes to file contents (`File::open` failing
exactly on absent paths).  Note the sentinel comparison of the source:
`entry.archive_index == 0xFF7F`. -/
def v1ReadFile (fs : List Nat → Option (List Nat)) (v : VPKVersion1)
    (archive_path vpk_name file_path : List Nat) : Option (List Nat) := do
  let entry ← lookupKV v.tree.files file_path
  let buf0 ← if entry.preload_length > 0 then lookupKV v.tree.preload file_path else pure []
  let buf ←
    if entry.entry_length > 0 then do
      let src ←
        if entry.archive_index = 0xFF7F then do
          let contents ← fs (pathJoin archive_path (dirFileName vpk_name))
          pure (contents.drop (sizeOfVPKHeaderV1 + v.header.tree_size + entry.entry_offset))
        else do
          let contents ← fs (pathJoin archive_path (archiveFileName vpk_name entry.archive_index))
          pure (contents.drop entry.entry_offset)
      pure (buf0 ++ (readBytesN entry.entry_length src).1)
    else pure buf0
  if crc32 buf = entry.crc then some buf else none

/-- The state of an extraction output file: bytes written so far via
`write_all`, and the length passed to `set_len` (0 when `set_len` is not
called; `File::create` truncates to zero). -/
structure OutFile where
  written : List Nat
  setLen : Nat
  deriving DecidableEq, Repr

/-- The bounded-chunk copy loop of `<VPKVersion1 as PakReader>::extract_file`
(≤ 1 MiB per chunk): returns the result together with the bytes written so
far.  An empty chunk (source exhausted) fails with `BadData`; since each
chunk is at most `remaining` long, the source's `remaining >= chunk.len()`
branch is always taken. -/
def v1CopyLoop (contents : List Nat) (cursor remaining : Nat) (out : List Nat) :
    Except Err Unit × List Nat :=
  if remaining = 0 then (.ok (), out)
  else
    let chunk := (contents.drop cursor).take (min 1048576 remaining)
    if h : chunk = [] then (.error .badData, out)
    else v1CopyLoop contents (cursor + chunk.length) (remaining - chunk.length) (out ++ chunk)
termination_by remaining
decreasing_by
  have h1 : 0 < chunk.length := List.length_pos.mpr h
  have h2 : chunk.length ≤ min 1048576 remaining := List.length_take_le _ _
  unfold_let chunk at h1 h2 ⊢
  omega

/-- The data phase of `<VPKVersion1 as PakReader>::extract_file`, after the
output file was created, `set_len(entry_length)` issued and any preload bytes
written (`pre`). -/
def v1ExtractFileData (fs : List Nat → Option (List Nat)) (tree_size : Nat)
    (entry : VPKDirectoryEntry) (archive_path vpk_name : List Nat) (pre : List Nat) :
    Except Err Unit × Option OutFile :=
  if entry.entry_length > 0 then
    let src :=
      if entry.archive_index = 0xFF7F then
        ((fs (pathJoin archive_path (dirFileName vpk_name))),
          sizeOfVPKHeaderV1 + tree_size + entry.entry_offset)
      else
        ((fs (pathJoin archive_path (archiveFileName vpk_name entry.archive_index))),
          entry.entry_offset)
    match src.1 with
    | none => (.error .io, some ⟨pre, entry.entry_length⟩)
    | some contents =>
      match v1CopyLoop contents src.2 entry.entry_length [] with
      | (.error e, out) => (.error e, some ⟨pre ++ out, entry.entry_length⟩)
      | (.ok (), out) =>
        if crc32 (pre ++ out) = entry.crc then (.ok (), some ⟨pre ++ out, entry.entry_length⟩)
        else (.error .badData, some ⟨pre ++ out, entry.entry_length⟩)
  else
    if crc32 pre = entry.crc then (.ok (), some ⟨pre, entry.entry_length⟩)
    else (.error .badData, some ⟨pre, entry.entry_length⟩)

/-- `<VPKVersion1 as PakReader>::extract_file`: looks the entry up, creates
the output file, issues `set_len`, writes preload bytes, copies the data in
bounded chunks and finally compares the CRC. -/
def v1ExtractFile (fs : List Nat → Option (List Nat)) (v : VPKVersion1)
    (archive_path vpk_name file_path : List Nat) : Except Err Unit × Option OutFile :=
  match lookupKV v.tree.files file_path with
  | none => (.error .fileNotFound, none)
  | some entry =>
    if entry.preload_length > 0 then
      match lookupKV v.tree.preload file_path with
      | none => (.error .dataNotFound, some ⟨[], entry.entry_length⟩)
      | some chunk => v1ExtractFileData fs v.header.tree_size entry archive_path vpk_name chunk
    else v1ExtractFileData fs v.header.tree_size entry archive_path vpk_name []

/-- Outcome of an operation that may panic (slice indexing out of range). -/
inductive MemMapOutcome where
  | ok
  | err (e : Err)
  | panicked
  deriving DecidableEq, Repr

/-- The chunk loop of `<VPKVersion1 as PakReader>::extract_file_mem_map`:
slice indexing `archive_file[i..i+k]` panics when the range exceeds the
mapping. -/
def v1MemMapCopyLoop (contents : List Nat) (i remaining : Nat) (out : List Nat) :
    MemMapOutcome × List Nat :=
  if remaining = 0 then (.ok, out)
  else
    let k := min 1048576 remaining
    if contents.length < i + k then (.panicked, out)
    else
      let chunk := (contents.drop i).take k
      if h : chunk = [] then (.err .badData, out)
      else v1MemMapCopyLoop contents (i + chunk.length) (remaining - chunk.length) (out ++ chunk)
termination_by remaining
decreasing_by
  have h1 : 0 < chunk.length := List.length_pos.mpr h
  have h2 : chunk.length ≤ min 1048576 remaining := List.length_take_le _ _
  unfold_let chunk k at h1 h2 ⊢
  omega

/-- The data phase of `extract_file_mem_map` for V1. -/
def v1MemMapData (mmaps : List (Nat × List Nat)) (entry : VPKDirectoryEntry)
    (pre : List Nat) : MemMapOutcome × Option OutFile :=
  if entry.entry_length > 0 then
    match lookupKV mmaps entry.archive_index with
    | none => (.err .memoryMappedFileNotFound, some ⟨pre, entry.entry_length⟩)
    | some contents =>
      match v1MemMapCopyLoop contents entry.entry_offset entry.entry_length [] with
      | (.ok, out) =>
        if crc32 (pre ++ out) = entry.crc then (.ok, some ⟨pre ++ out, entry.entry_length⟩)
        else (.err .badData, some ⟨pre ++ out, entry.entry_length⟩)
      | (res, out) => (res, some ⟨pre ++ out, entry.entry_length⟩)
  else
    if crc32 pre = entry.crc then (.ok, some ⟨pre, entry.entry_length⟩)
    else (.err .badData, some ⟨pre, entry.entry_length⟩)

/-- `<VPKVersion1 as PakReader>::extract_file_mem_map`: caller-supplied
memory maps keyed by archive index; a missing index fails with
`MemoryMappedFileNotFound`. -/
def v1ExtractFileMemMap (mmaps : List (Nat × List Nat)) (v : VPKVersion1)
    (file_path : List Nat) : MemMapOutcome × Option OutFile :=
  match lookupKV v.tree.files file_path with
  | none => (.err .fileNotFound, none)
  | some entry =>
    if entry.preload_length > 0 then
      match lookupKV v.tree.preload file_path with
      | none => (.err .dataNotFound, some ⟨[], entry.entry_length⟩)
      | some chunk => v1MemMapData mmaps entry chunk
    else v1MemMapData mmaps entry []

/-- `VPKArchiveMD5SectionEntry` of the V2 format. -/
structure VPKArchiveMD5SectionEntry where
  archive_index : Nat
  starting_offset : Nat
  count : Nat
  md5_checksum : List Nat
  deriving DecidableEq, Repr

/-- `VPKOtherMD5Section` of the V2 format. -/
structure VPKOtherMD5Section where
  tree_checksum : List Nat
  archive_md5_section_checksum : List Nat
  unknown : List Nat
  deriving DecidableEq, Repr

/-- `VPKSignatureSection` of the V2 format. -/
structure VPKSignatureSection where
  public_key_size : Nat
  public_key : List Nat
  signature_size : Nat
  signature : List Nat
  deriving DecidableEq, Repr

/-- The VPK version 2 format (`v2::VPKVersion2`). -/
structure VPKVersion2 where
  header : VPKHeaderV2
  tree : VPKTree VPKDirectoryEntry
  file_data : List Nat
  archive_md5_section_entries : List VPKArchiveMD5SectionEntry
  other_md5_section : VPKOtherMD5Section
  signature_section : Option VPKSignatureSection
  deriving DecidableEq, Repr

/-- Outcome of a call that the source implements as `todo!()`: an
unconditional panic. -/
inductive RustCall (α : Type) where
  | value (a : α)
  | panicked
  deriving DecidableEq, Repr

/-- `<VPKVersion2 as PakReader>::read_file` is `todo!()`: it panics on every
input. -/
def v2ReadFile (_v : VPKVersion2) (_archive_path _vpk_name _file_path : List Nat) :
    RustCall (Option (List Nat)) := .panicked

/-- `<VPKVersion2 as PakReader>::extract_file` is `todo!()`. -/
def v2ExtractFile (_v : VPKVersion2)
    (_archive_path _vpk_name _file_path _output_path : List Nat) :
    RustCall (Except Err Unit) := .panicked

/-- `<VPKVersion2 as PakReader>::extract_file_mem_map` is `todo!()`. -/
def v2ExtractFileMemMap (_v : VPKVersion2) (_mmaps : List (Nat × List Nat))
    (_vpk_name _file_path _output_path : List Nat) :
    RustCall (Except Err Unit) := .panicked

/-- `<VPKVersion2 as PakWriter>::write_dir` is `todo!()`. -/
def v2WriteDir (_v : VPKVersion2) (_output_path : List Nat) :
    RustCall (Except Err Unit) := .panicked

/-- Reduction modulo `2^32` (wrapping `u32` arithmetic of release builds). -/
def w32 (n : Nat) : Nat := n % 4294967296

/-- `RESPAWN_CAM_ENTRY_MAGIC`. -/
def RESPAWN_CAM_ENTRY_MAGIC : Nat := 3302889984

/-- An entry in a CAM sidecar file (`revpk::format::VPKRespawnCamEntry`). -/
structure VPKRespawnCamEntry where
  magic : Nat
  original_size : Nat
  compressed_size : Nat
  sample_rate : Nat
  channels : Nat
  sample_count : Nat
  header_size : Nat
  vpk_content_offset : Nat
  deriving DecidableEq, Repr

/-- A parsed CAM file (`revpk::format::VPKRespawnCam`): entries keyed by VPK
content offset of the file's first part. -/
structure VPKRespawnCam where
  entries : List (Nat × VPKRespawnCamEntry)
  deriving DecidableEq, Repr

/-- `VPKRespawnCam::find_entry`. -/
def VPKRespawnCam.find_entry (c : VPKRespawnCam) (off : Nat) : Option VPKRespawnCamEntry :=
  lookupKV c.entries off

/-- The all-zero file part (used to model the guarded `file_parts[0]` index;
every call site has checked `file_parts` non-empty first). -/
def VPKFilePartEntryRespawn.zero : VPKFilePartEntryRespawn := ⟨0, 0, 0, 0, 0, 0⟩

/-- `VPKRespawnCamEntry::default(entry)`: synthesized CAM metadata — mono,
44 100 Hz, sizes summed from the file parts with `as u32` truncation
(wrapping `u32` arithmetic; `sample_count` computes
`(original_size - 44 + 8) / 2` with wrapping subtraction). -/
def camEntryDefault (entry : VPKDirectoryEntryRespawn) : VPKRespawnCamEntry :=
  let original_size :=
    w32 ((entry.file_parts.map (fun p => w32 p.entry_length_uncompressed)).sum)
  { magic := RESPAWN_CAM_ENTRY_MAGIC
    original_size := original_size
    compressed_size := w32 ((entry.file_parts.map (fun p => w32 p.entry_length)).sum)
    sample_rate := 44100
    channels := 1
    sample_count := w32 (w32 (original_size + 4294967296 - 44) + 8) / 2
    header_size := 44
    vpk_content_offset := (entry.file_parts.headD .zero).entry_offset }

/-- `create_wav_header` from `revpk/cam.rs`: the canonical 44-byte RIFF/WAVE
header (chunk IDs big-endian-tagged, field values little-endian; `u32`/`u16`
arithmetic wrapping). -/
def createWavHeader (cam : VPKRespawnCamEntry) : List Nat :=
  let file_len := w32 (w32 (2 * cam.sample_count) * cam.channels)
  let bytes_per_sec := w32 (w32 (cam.sample_rate * 16) * cam.channels) / 8
  let block_align := 16 * cam.channels % 65536 / 8
  [0x52, 0x49, 0x46, 0x46] ++ natLE 4 (file_len + 36) ++
    [0x57, 0x41, 0x56, 0x45] ++ [0x66, 0x6D, 0x74, 0x20] ++
    natLE 4 16 ++ natLE 2 1 ++ natLE 2 cam.channels ++ natLE 4 cam.sample_rate ++
    natLE 4 bytes_per_sec ++ natLE 2 block_align ++ natLE 2 16 ++
    [0x64, 0x61, 0x74, 0x61] ++ natLE 4 file_len

/-- Scan helper: the index of the first byte of `l` that differs from `0xCB`,
counting from `i` (the length of the leading `0xCB` run added to `i`). -/
def firstNonCBAux : List Nat → Nat → Nat
  | [], i => i
  | b :: r, i => if b = 0xCB then firstNonCBAux r (i + 1) else i

/-- First index `q ≥ i` whose byte differs from `0xCB`, or the list length
when every byte from `i` on equals `0xCB`. -/
def firstNonCB (file : List Nat) (i : Nat) : Nat := firstNonCBAux (file.drop i) i

/-- The length of the leading `0xCB` run of a byte list (the count of marker
bytes the WAV scan skips beyond the fixed 44). -/
def leadCB : List Nat → Nat
  | [] => 0
  | b :: r => if b = 0xCB then leadCB r + 1 else 0

/-- `seek_to_wav_data` from `revpk/cam.rs`: with the cursor at `p`, seek 44
bytes forward, then single-byte reads while `0xCB`; the first differing byte
is "unread" by seeking back one.  Returns the distance the cursor ends up
ahead of `p` (44 plus the `0xCB` run length); at end of stream the read
leaves the zero-initialised buffer (0 ≠ 0xCB) and the seek-back lands one
byte before the end. -/
def seekToWavData (file : List Nat) (p : Nat) : Nat :=
  let s := p + 44
  let q := firstNonCB file s
  if q < file.length then q - p
  else 43 + (max s file.length) - s

/-- Spec-modelled scan, following the claim's wording only: scan forward
from the fragment start (no fixed 44-byte skip) until the first byte that is
not `0xCB`, the count of skipped bytes being the reduction. -/
def specSeekToWavData (file : List Nat) (p : Nat) : Nat := firstNonCB file p - p

/-- `seek_to_wav_data_mem_map` from `revpk/cam.rs`: indexes the mapping
directly, so running past the end of the mapping panics (`none`). -/
def seekToWavDataMemMap (file : List Nat) (start_pos : Nat) : Option Nat :=
  let q := firstNonCB file (start_pos + 44)
  if q < file.length then some (q - start_pos) else none

/-- ASCII lowercasing of one byte. -/
def toLowerB (b : Nat) : Nat := if 65 ≤ b ∧ b ≤ 90 then b + 32 else b

/-- `eq_ignore_ascii_case` on byte strings. -/
def eqIgnoreAsciiCase (a b : List Nat) : Bool := a.map toLowerB == b.map toLowerB

/-- `Path::new(file_path).extension().is_some_and(|e| e.eq_ignore_ascii_case("wav"))`. -/
def isWavPath (p : List Nat) : Bool :=
  match (rustStemExt (rustFileName p)).2 with
  | some ext => eqIgnoreAsciiCase ext (strB ("wav"))
  | none => false

/-- The Respawn VPK format (`revpk::format::VPKRespawn`). -/
structure VPKRespawn where
  header : VPKHeaderRespawn
  tree : VPKTree VPKDirectoryEntryRespawn
  archive_cams : List (Nat × VPKRespawnCam)
  deriving DecidableEq, Repr

/-- `VPKRespawn::from_file` (CAM files are read separately; the map starts
empty). -/
def respawnFromFile (file : List Nat) : Except Err VPKRespawn := do
  let (header, rest) ← respawnHeaderFrom file
  let tree ← vpkTreeFrom respawnCodec file (file.length - rest.length) header.tree_size
  return ⟨header, tree, []⟩

/-- `<VPKRespawn as PakWriter>::write_dir`. -/
def respawnWriteDir (v : VPKRespawn) : Except Err (List Nat) := do
  let hb ← respawnHeaderWrite v.header
  let tb ← vpkTreeWrite respawnCodec v.tree
  return hb ++ tb

/-- The CAM entry used for a WAV target: the parsed CAM of the first part's
archive when it has an entry at the first part's offset, the synthesized
default otherwise. -/
def respawnCamEntryFor (v : VPKRespawn) (archive_index : Nat)
    (entry : VPKDirectoryEntryRespawn) : VPKRespawnCamEntry :=
  match lookupKV v.archive_cams archive_index with
  | some cam =>
    match cam.find_entry ((entry.file_parts.headD .zero).entry_offset) with
    | some ce => ce
    | none => camEntryDefault entry
  | none => camEntryDefault entry

/-- The file-part loop of `<VPKRespawn as PakReader>::read_file`.  State:
enumeration index `i`, current archive index and contents, running
`total_len`, buffer.  Parts with zero uncompressed length are skipped
entirely.  On the first part of a WAV target the `0xCB` scan reduces the
effective length (`u64` subtraction; the model uses truncated subtraction,
the hypotheses of the theorems keep the scan distance within the part
length).  Returns the buffer and total length, `none` when an archive fails
to open. -/
def respawnReadParts (decompress : List Nat → Nat → List Nat)
    (fs : List Nat → Option (List Nat)) (archive_path vpk_name : List Nat)
    (wav : Bool) (expected_len : Nat) :
    List VPKFilePartEntryRespawn → Nat → Nat → List Nat → Nat → List Nat →
    Option (List Nat × Nat)
  | [], _, _, _, total_len, buf => some (buf, total_len)
  | part :: rest, i, aidx, contents, total_len, buf =>
    if part.entry_length_uncompressed > 0 then
      let step : Option (Nat × List Nat) :=
        if part.archive_index ≠ aidx then
          match fs (pathJoin archive_path (archiveFileName vpk_name part.archive_index)) with
          | none => none
          | some nc => some (part.archive_index, nc)
        else some (aidx, contents)
      match step with
      | none => none
      | some (aidx', contents') =>
        let skip := if i = 0 ∧ wav then seekToWavData contents' part.entry_offset else 0
        let entry_len := part.entry_length - skip
        let pos := part.entry_offset + skip
        let total' := total_len + entry_len
        if part.entry_length = part.entry_length_uncompressed then
          let pb := (readBytesN entry_len (contents'.drop pos)).1
          let pb :=
            if expected_len > 0 ∧ wav ∧ total' > expected_len then
              pb.take (entry_len + expected_len - total')
            else pb
          respawnReadParts decompress fs archive_path vpk_name wav expected_len rest
            (i + 1) aidx' contents' total' (buf ++ pb)
        else
          let compressed := (readBytesN entry_len (contents'.drop pos)).1
          respawnReadParts decompress fs archive_path vpk_name wav expected_len rest
            (i + 1) aidx' contents' total'
            (buf ++ decompress compressed part.entry_length_uncompressed)
    else
      respawnReadParts decompress fs archive_path vpk_name wav expected_len rest
        (i + 1) aidx contents total_len buf

/-- `<VPKRespawn as PakReader>::read_file`.  The external LZHAM routine is a
parameter (`decompress buffer target_len`). -/
def respawnReadFile (decompress : List Nat → Nat → List Nat)
    (fs : List Nat → Option (List Nat)) (v : VPKRespawn)
    (archive_path vpk_name file_path : List Nat) : Option (List Nat) := do
  let entry ← lookupKV v.tree.files file_path
  let buf0 ← if entry.preload_length > 0 then lookupKV v.tree.preload file_path else pure []
  if entry.file_parts = [] then none
  else do
    let aidx0 := (entry.file_parts.headD .zero).archive_index
    let contents0 ← fs (pathJoin archive_path (archiveFileName vpk_name aidx0))
    let wav := isWavPath file_path
    let st :=
      if wav then
        let ce := respawnCamEntryFor v aidx0 entry
        (ce.original_size, buf0 ++ createWavHeader ce)
      else (0, buf0)
    let br ← respawnReadParts decompress fs archive_path vpk_name wav st.1
      entry.file_parts 0 aidx0 contents0 0 st.2
    let buf3 := if st.1 > 0 ∧ wav then br.1.take st.1 else br.1
    if crc32 buf3 ≠ entry.crc ∧ ¬wav then none else some buf3

/-- The file-part loop of `<VPKRespawn as PakReader>::extract_file`: as the
read loop, but failures carry errors (`Io` on archive open) and the bytes
written so far are reported. -/
def respawnExtractParts (decompress : List Nat → Nat → List Nat)
    (fs : List Nat → Option (List Nat)) (archive_path vpk_name : List Nat)
    (wav : Bool) (expected_len : Nat) :
    List VPKFilePartEntryRespawn → Nat → Nat → List Nat → Nat → List Nat →
    Except Err Unit × List Nat
  | [], _, _, _, _, out => (.ok (), out)
  | part :: rest, i, aidx, contents, total_len, out =>
    if part.entry_length_uncompressed > 0 then
      let step : Option (Nat × List Nat) :=
        if part.archive_index ≠ aidx then
          match fs (pathJoin archive_path (archiveFileName vpk_name part.archive_index)) with
          | none => none
          | some nc => some (part.archive_index, nc)
        else some (aidx, contents)
      match step with
      | none => (.error .io, out)
      | some (aidx', contents') =>
        let skip := if i = 0 ∧ wav then seekToWavData contents' part.entry_offset else 0
        let entry_len := part.entry_length - skip
        let pos := part.entry_offset + skip
        let total' := total_len + entry_len
        if part.entry_length = part.entry_length_uncompressed then
          let pb := (readBytesN entry_len (contents'.drop pos)).1
          let pb :=
            if expected_len > 0 ∧ wav ∧ total' > expected_len then
              pb.take (entry_len + expected_len - total')
            else pb
          respawnExtractParts decompress fs archive_path vpk_name wav expected_len rest
            (i + 1) aidx' contents' total' (out ++ pb)
        else
          let compressed := (readBytesN entry_len (contents'.drop pos)).1
          respawnExtractParts decompress fs archive_path vpk_name wav expected_len rest
            (i + 1) aidx' contents' total'
            (out ++ decompress compressed part.entry_length_uncompressed)
    else
      respawnExtractParts decompress fs archive_path vpk_name wav expected_len rest
        (i + 1) aidx contents total_len out

/-- `<VPKRespawn as PakReader>::extract_file` after the output file has been
created and the preload bytes `pre` written: the zero-file-parts check, the
first archive open, the WAV header synthesis, the part loop and the final
CRC gate (suppressed for WAV targets). -/
def respawnExtractAfterPre (decompress : List Nat → Nat → List Nat)
    (fs : List Nat → Option (List Nat)) (v : VPKRespawn)
    (archive_path vpk_name file_path : List Nat) (entry : VPKDirectoryEntryRespawn)
    (pre : List Nat) : Except Err Unit × Option OutFile :=
  if entry.file_parts = [] then (.error .badData, some ⟨pre, 0⟩)
  else
    let aidx0 := (entry.file_parts.headD .zero).archive_index
    match fs (pathJoin archive_path (archiveFileName vpk_name aidx0)) with
    | none => (.error .io, some ⟨pre, 0⟩)
    | some contents0 =>
      let wav := isWavPath file_path
      let st :=
        if wav then
          let ce := respawnCamEntryFor v aidx0 entry
          (ce.original_size, pre ++ createWavHeader ce)
        else (0, pre)
      match respawnExtractParts decompress fs archive_path vpk_name wav st.1
        entry.file_parts 0 aidx0 contents0 0 st.2 with
      | (.error e, out) => (.error e, some ⟨out, 0⟩)
      | (.ok (), out) =>
        if crc32 out ≠ entry.crc ∧ ¬wav then (.error .badData, some ⟨out, 0⟩)
        else (.ok (), some ⟨out, 0⟩)

/-- `<VPKRespawn as PakReader>::extract_file`: the output file is created
and the preload bytes written before the zero-parts check, the archive open
and the CRC verification. -/
def respawnExtractFile (decompress : List Nat → Nat → List Nat)
    (fs : List Nat → Option (List Nat)) (v : VPKRespawn)
    (archive_path vpk_name file_path : List Nat) : Except Err Unit × Option OutFile :=
  match lookupKV v.tree.files file_path with
  | none => (.error .fileNotFound, none)
  | some entry =>
    if entry.preload_length > 0 then
      match lookupKV v.tree.preload file_path with
      | none => (.error .dataNotFound, some ⟨[], 0⟩)
      | some pl =>
        respawnExtractAfterPre decompress fs v archive_path vpk_name file_path entry pl
    else respawnExtractAfterPre decompress fs v archive_path vpk_name file_path entry []

/-- A string as read back by the tree parser: non-empty, NUL-free, valid
UTF-8. -/
def ValidStr (s : List Nat) : Prop := s ≠ [] ∧ (0 : Nat) ∉ s ∧ utf8Valid s = true

instance : DecidablePred ValidStr := fun s => by unfold ValidStr; infer_instance

/-- The codec consumes exactly its own encoding and reproduces the entry,
whatever follows. -/
def CodecRT (c : DirEntryCodec E) (e : E) (wb : List Nat) : Prop :=
  ∀ rest, c.fromBytes (wb ++ rest) = .ok (e, rest)

/-- The codec never lengthens the stream. -/
def CodecShrink (c : DirEntryCodec E) : Prop :=
  ∀ {b : List Nat} {e : E} {b' : List Nat}, c.fromBytes b = .ok (e, b') → b'.length ≤ b.length

/-- Field bounds plus the terminator invariant under which a V1 entry
round-trips through its codec. -/
def V1EntryOK (e : VPKDirectoryEntry) : Prop :=
  e.crc < 4294967296 ∧ e.preload_length < 65536 ∧ e.archive_index < 65536 ∧
  e.entry_offset < 4294967296 ∧ e.entry_length < 4294967296 ∧
  e.terminator = VPK_ENTRY_TERMINATOR

instance : DecidablePred V1EntryOK := fun e => by unfold V1EntryOK; infer_instance

/-- Field bounds plus non-sentinel index under which a Respawn file part
round-trips. -/
def RespawnPartOK (p : VPKFilePartEntryRespawn) : Prop :=
  p.archive_index < 65536 ∧ p.archive_index ≠ 0xFFFF ∧ p.load_flags < 65536 ∧
  p.texture_flags < 4294967296 ∧ p.entry_offset < 18446744073709551616 ∧
  p.entry_length < 18446744073709551616 ∧
  p.entry_length_uncompressed < 18446744073709551616

instance : DecidablePred RespawnPartOK := fun p => by unfold RespawnPartOK; infer_instance

/-- Field bounds under which a Respawn entry round-trips. -/
def RespawnEntryOK (e : VPKDirectoryEntryRespawn) : Prop :=
  e.crc < 4294967296 ∧ e.preload_length < 65536 ∧ ∀ p ∈ e.file_parts, RespawnPartOK p

instance : DecidablePred RespawnEntryOK := fun e => by unfold RespawnEntryOK; infer_instance

/-- A tree key on which the writer's path decomposition
(`extension` / `parent` / `file_stem`) recomposes to the key itself: the
write/read cycle preserves such keys exactly.  The directory must not end in
a separator (where `Path::parent` would normalize). -/
def CleanKey (k : List Nat) : Prop :=
  ValidStr (rustExtension k) ∧ ValidStr (rustParent k) ∧ ValidStr (rustFileStem k) ∧
  (rustParent k).getLast? ≠ some 47 ∧
  rustParent k ++ 47 :: rustFileStem k ++ 46 :: rustExtension k = k

instance : DecidablePred CleanKey := fun k => by unfold CleanKey; infer_instance

/-- Length of a successful write, 0 on error. -/
def writeLen : Except Err (List Nat) → Nat
  | .ok s => s.length
  | .error _ => 0

/-- Conditions under which a V1 model write/read round-trips: a valid
header, no duplicate keys, clean keys, in-range entries with the `0xFFFF`
terminator, preload data matching the declared lengths (present exactly for
non-zero lengths, no orphan preload keys), and a serialized tree no longer
than the header's `tree_size`. -/
def V1RoundSafe (v : VPKVersion1) : Prop :=
  v.header.signature = VPK_SIGNATURE ∧ v.header.version = VPK_VERSION_V1 ∧
  v.header.tree_size < 4294967296 ∧
  (v.tree.files.map Prod.fst).Nodup ∧
  (∀ p ∈ v.tree.files, CleanKey p.1 ∧ V1EntryOK p.2 ∧
    p.2.preload_length = ((lookupKV v.tree.preload p.1).getD []).length ∧
    (lookupKV v.tree.preload p.1 = none ↔ p.2.preload_length = 0)) ∧
  (∀ q ∈ v.tree.preload, (lookupKV v.tree.files q.1).isSome = true) ∧
  writeLen (vpkTreeWrite v1Codec v.tree) ≤ v.header.tree_size

instance : DecidablePred V1RoundSafe := fun v => by unfold V1RoundSafe; infer_instance

/-- Conditions under which a Respawn model write/read round-trips. -/
def RespawnRoundSafe (v : VPKRespawn) : Prop :=
  v.header.signature = VPK_SIGNATURE ∧ v.header.version = VPK_VERSION_REVPK ∧
  v.header.tree_size < 4294967296 ∧ v.header.unknown = 0 ∧
  (v.tree.files.map Prod.fst).Nodup ∧
  (∀ p ∈ v.tree.files, CleanKey p.1 ∧ RespawnEntryOK p.2 ∧
    p.2.preload_length = ((lookupKV v.tree.preload p.1).getD []).length ∧
    (lookupKV v.tree.preload p.1 = none ↔ p.2.preload_length = 0)) ∧
  (∀ q ∈ v.tree.preload, (lookupKV v.tree.files q.1).isSome = true) ∧
  writeLen (vpkTreeWrite respawnCodec v.tree) ≤ v.header.tree_size

instance : DecidablePred RespawnRoundSafe := fun v => by unfold RespawnRoundSafe; infer_instance

/-- Insert one file record into a tree the way the parser does. -/
def applyRec (ext dirp : List Nat) (t : VPKTree E) (r : FileRec E) : VPKTree E :=
  let fp := dirp ++ 47 :: r.1 ++ 46 :: ext
  ⟨insKV t.files fp r.2.1,
   match r.2.2 with
   | some pl => insKV t.preload fp pl
   | none => t.preload⟩

def applyRecs (ext dirp : List Nat) (t : VPKTree E) (recs : List (FileRec E)) : VPKTree E :=
  recs.foldl (applyRec ext dirp) t

def applyDirs (ext : List Nat) (t : VPKTree E)
    (ds : List (List Nat × List (FileRec E))) : VPKTree E :=
  ds.foldl (fun acc d => applyRecs ext d.1 acc d.2) t

def applyExts (t : VPKTree E)
    (gs : List (List Nat × List (List Nat × List (FileRec E)))) : VPKTree E :=
  gs.foldl (fun acc g => applyDirs g.1 acc g.2) t

/-- The `(composed path, entry, preload)` triple a grouped file record
stands for: the parser recomposes the path as `dir/name.ext`. -/
def tripOf (ext dirp : List Nat) (r : FileRec E) : List Nat × E × Option (List Nat) :=
  (dirp ++ 47 :: r.1 ++ 46 :: ext, r.2.1, r.2.2)

/-- Flatten the grouped write structure into `(composed path, entry,
preload)` triples, in write order. -/
def flatRecs (gs : List (List Nat × List (List Nat × List (FileRec E)))) :
    List (List Nat × E × Option (List Nat)) :=
  (gs.map (fun g => (g.2.map (fun d => d.2.map (tripOf g.1 d.1))).flatten)).flatten

/-- The triples a tree holds: every file key with its entry and its preload
lookup. -/
def treeTrips (t : VPKTree E) : List (List Nat × E × Option (List Nat)) :=
  t.files.map (fun kv => (kv.1, kv.2, lookupKV t.preload kv.1))

/-- What the round-trip needs of one grouped file record: a parser-valid
name, a codec encoding that decodes back, preload bytes present exactly when
the declared length is non-zero and matching it. -/
def RecOK (c : DirEntryCodec E) (r : FileRec E) : Prop :=
  ValidStr r.1 ∧
  (∃ wb, c.writeBytes r.2.1 = .ok wb ∧ CodecRT c r.2.1 wb) ∧
  (match r.2.2 with
   | some pl => c.preloadLen r.2.1 = pl.length ∧ 0 < pl.length
   | none => c.preloadLen r.2.1 = 0)

/-- Insert one flattened `(path, entry, preload)` triple, as the parser
does. -/
def applyFlat (t : VPKTree E) (x : List Nat × E × Option (List Nat)) : VPKTree E :=
  ⟨insKV t.files x.1 x.2.1,
   match x.2.2 with
   | some pl => insKV t.preload x.1 pl
   | none => t.preload⟩

/-!  ## Theorems  -/

/-- `readUN?` as an explicit conditional. -/
theorem readUN_eq (n : Nat) (b : List Nat) :
    readUN? n b = if n ≤ b.length then some (leVal (b.take n), b.drop n) else none := by
  by_cases h : n ≤ b.length <;> simp [readUN?, readExact?, h]

theorem readUN_append {n : Nat} (x rest : List Nat) (h : x.length = n) :
    readUN? n (x ++ rest) = some (leVal x, rest) := by
  subst h
  rw [readUN_eq, if_pos (by simp), List.take_left, List.drop_left]

theorem natLE_length (n v : Nat) : (natLE n v).length = n := by
  induction n generalizing v with
  | zero => simp [natLE]
  | succ n ih => simp [natLE, ih]

theorem leVal_natLE (n v : Nat) : leVal (natLE n v) = v % 2 ^ (8 * n) := by
  induction n generalizing v with
  | zero => simp [natLE, leVal, Nat.mod_one]
  | succ n ih =>
    have h2 : (2 : Nat) ^ (8 * (n + 1)) = 256 * 2 ^ (8 * n) := by
      rw [show 8 * (n + 1) = 8 + 8 * n by ring, pow_add]
      norm_num
    rw [natLE, leVal, ih, h2, Nat.mod_mul]

theorem readUN_natLE (n v : Nat) (rest : List Nat) (hv : v < 2 ^ (8 * n)) :
    readUN? n (natLE n v ++ rest) = some (v, rest) := by
  rw [readUN_append _ _ (natLE_length n v), leVal_natLE, Nat.mod_eq_of_lt hv]

/-- A NUL-free prefix before an explicit terminator is read back exactly. -/
theorem readStringBytes_append (s rest : List Nat) (h0 : (0 : Nat) ∉ s) :
    readStringBytes (s ++ 0 :: rest) = (s, rest) := by
  induction s with
  | nil => simp [readStringBytes]
  | cons b s ih =>
    have hb : b ≠ 0 := fun hb => h0 (by simp [hb])
    have ih' := ih (fun hm => h0 (List.mem_cons_of_mem _ hm))
    simp only [List.cons_append, readStringBytes, if_neg hb, List.append_eq, ih']

/-- A NUL-free stream suffix is read back whole at end of stream (truncated
string reads succeed). -/
theorem readStringBytes_eos (s : List Nat) (h0 : (0 : Nat) ∉ s) :
    readStringBytes s = (s, []) := by
  induction s with
  | nil => simp [readStringBytes]
  | cons b s ih =>
    have hb : b ≠ 0 := fun hb => h0 (by simp [hb])
    have ih' := ih (fun hm => h0 (List.mem_cons_of_mem _ hm))
    simp only [readStringBytes, if_neg hb, ih']

theorem readStringBytes_length (b : List Nat) :
    (readStringBytes b).1.length + (readStringBytes b).2.length ≤ b.length := by
  induction b with
  | nil => simp [readStringBytes]
  | cons x r ih =>
    by_cases hx : x = 0
    · simp [readStringBytes, hx]
    · simp only [readStringBytes, if_neg hx, List.length_cons]
      omega

theorem vpkReadString_ok {b s r : List Nat} (h : vpkReadString b = .ok (s, r)) :
    readStringBytes b = (s, r) ∧ utf8Valid s = true := by
  unfold vpkReadString at h
  split at h
  next hu =>
    simp only [Except.ok.injEq] at h
    rw [h] at hu
    exact ⟨h, hu⟩
  next => cases h

theorem vpkReadString_append (s rest : List Nat) (hs : (0 : Nat) ∉ s)
    (hv : utf8Valid s = true) : vpkReadString (s ++ 0 :: rest) = .ok (s, rest) := by
  unfold vpkReadString
  rw [readStringBytes_append s rest hs]
  simpa using hv

theorem vpkReadString_nil : vpkReadString [] = .ok ([], []) := by
  simp [vpkReadString, readStringBytes, show utf8Valid [] = true from rfl]

theorem vpkReadString_nul (rest : List Nat) : vpkReadString (0 :: rest) = .ok ([], rest) := by
  simp [vpkReadString, readStringBytes, show utf8Valid [] = true from rfl]

/-!  ### CRC-32 algebra

The reflected CRC step is linear over bitwise xor and injective on 32-bit
states, which makes any single-byte difference of the message visible in the
final checksum. -/

theorem xor_div_two (x y : Nat) : (x ^^^ y) / 2 = x / 2 ^^^ y / 2 :=
  Nat.eq_of_testBit_eq fun i => by simp [Nat.testBit_div_two, Nat.testBit_xor]

theorem xor_xor_cancel_right (a b p : Nat) : (a ^^^ p) ^^^ (b ^^^ p) = a ^^^ b :=
  Nat.eq_of_testBit_eq fun i => by
    simp only [Nat.testBit_xor]
    cases a.testBit i <;> cases b.testBit i <;> cases p.testBit i <;> rfl

theorem xor_right_comm (a b p : Nat) : (a ^^^ b) ^^^ p = (a ^^^ p) ^^^ b :=
  Nat.eq_of_testBit_eq fun i => by
    simp only [Nat.testBit_xor]
    cases a.testBit i <;> cases b.testBit i <;> cases p.testBit i <;> rfl

theorem xor_mod_two (x y : Nat) : (x ^^^ y) % 2 = (x % 2) ^^^ (y % 2) := by
  have hbit := Nat.testBit_xor x y 0
  rw [Nat.testBit_zero, Nat.testBit_zero, Nat.testBit_zero] at hbit
  rcases Nat.mod_two_eq_zero_or_one x with hx | hx <;>
    rcases Nat.mod_two_eq_zero_or_one y with hy | hy <;>
    rw [hx, hy] at hbit ⊢ <;>
    rcases Nat.mod_two_eq_zero_or_one (x ^^^ y) with hxy | hxy <;>
    rw [hxy] at hbit ⊢ <;> simp_all

theorem crcRound_xor (x y : Nat) : crcRound (x ^^^ y) = crcRound x ^^^ crcRound y := by
  have hxy := xor_mod_two x y
  unfold crcRound
  rcases Nat.mod_two_eq_zero_or_one x with hx | hx <;>
    rcases Nat.mod_two_eq_zero_or_one y with hy | hy <;>
    rw [hx, hy] at hxy <;> simp only [Nat.xor_self, Nat.xor_zero, Nat.zero_xor] at hxy
  · rw [if_neg (by omega), if_neg (by omega), if_neg (by omega), xor_div_two]
  · rw [if_pos hxy, if_neg (by omega), if_pos (by omega), xor_div_two, Nat.xor_assoc]
  · rw [if_pos hxy, if_pos (by omega), if_neg (by omega), xor_div_two, xor_right_comm]
  · rw [if_neg (by omega), if_pos (by omega), if_pos (by omega), xor_div_two,
      xor_xor_cancel_right]

theorem crcRounds_xor (n x y : Nat) :
    crcRounds n (x ^^^ y) = crcRounds n x ^^^ crcRounds n y := by
  induction n generalizing x y with
  | zero => rfl
  | succ n ih => rw [crcRounds, crcRound_xor, ih]; rfl

theorem crcRounds_add (m n c : Nat) : crcRounds (m + n) c = crcRounds m (crcRounds n c) := by
  induction n generalizing c with
  | zero => rfl
  | succ n ih => rw [show m + (n + 1) = (m + n) + 1 from rfl, crcRounds, crcRounds, ih]

theorem crcRound_lt (x : Nat) (h : x < 4294967296) : crcRound x < 4294967296 := by
  unfold crcRound
  split
  · exact Nat.xor_lt_two_pow (n := 32) (by omega) (by norm_num)
  · omega

theorem crcRound_ne_zero (x : Nat) (hx : x < 4294967296) (h : x ≠ 0) : crcRound x ≠ 0 := by
  unfold crcRound
  split
  next hodd =>
    intro hc
    have h31 : ((x / 2) ^^^ 0xEDB88320).testBit 31 = true := by
      rw [Nat.testBit_xor, Nat.testBit_lt_two_pow (x := x / 2) (i := 31) (by omega)]
      rfl
    rw [hc] at h31
    simp [Nat.testBit] at h31
  next heven => omega

theorem crcRounds_ne_zero (n x : Nat) (hx : x < 4294967296) (h : x ≠ 0) :
    crcRounds n x ≠ 0 ∧ crcRounds n x < 4294967296 := by
  induction n generalizing x with
  | zero => exact ⟨h, hx⟩
  | succ n ih =>
    rw [crcRounds]
    exact ih (crcRound x) (crcRound_lt x hx) (crcRound_ne_zero x hx h)

theorem crc32Update_xor (c d b : Nat) :
    crc32Update (c ^^^ d) b = crc32Update c b ^^^ crcRounds 8 d := by
  unfold crc32Update
  rw [xor_right_comm c d (b % 256), crcRounds_xor]

theorem foldl_crc32Update_xor (l : List Nat) (c d : Nat) :
    l.foldl crc32Update (c ^^^ d) = l.foldl crc32Update c ^^^ crcRounds (8 * l.length) d := by
  induction l generalizing c d with
  | nil => simp [crcRounds]
  | cons b l ih =>
    simp only [List.foldl_cons, List.length_cons]
    rw [crc32Update_xor, ih, show 8 * (l.length + 1) = 8 * l.length + 8 from by ring,
      crcRounds_add]

theorem xor_eq_zero_iff (a b : Nat) : a ^^^ b = 0 ↔ a = b := by
  constructor
  · intro h
    have := congrArg (· ^^^ b) h
    simpa [Nat.xor_assoc, Nat.xor_self] using this
  · rintro rfl
    exact Nat.xor_self a

/-- CRC-32 distinguishes any two equal-length messages that differ in a
single byte. -/
theorem crc32_single_byte_ne (p s : List Nat) (b1 b2 : Nat)
    (hb1 : b1 < 256) (hb2 : b2 < 256) (hne : b1 ≠ b2) :
    crc32 (p ++ b1 :: s) ≠ crc32 (p ++ b2 :: s) := by
  unfold crc32
  intro hc
  have hfold : (p ++ b1 :: s).foldl crc32Update 0xFFFFFFFF =
      (p ++ b2 :: s).foldl crc32Update 0xFFFFFFFF := by
    have := congrArg (· ^^^ 0xFFFFFFFF) hc
    simpa [Nat.xor_assoc, Nat.xor_self] using this
  rw [List.foldl_append, List.foldl_append] at hfold
  set c := p.foldl crc32Update 0xFFFFFFFF with hc0
  simp only [List.foldl_cons] at hfold
  have hd0 : b1 ^^^ b2 ≠ 0 := fun h => hne ((xor_eq_zero_iff b1 b2).mp h)
  have hdlt : b1 ^^^ b2 < 4294967296 :=
    Nat.xor_lt_two_pow (n := 32) (by omega) (by omega)
  have hd := crcRounds_ne_zero 8 (b1 ^^^ b2) hdlt hd0
  have hupd : crc32Update c b2 = crc32Update c b1 ^^^ crcRounds 8 (b1 ^^^ b2) := by
    unfold crc32Update
    rw [Nat.mod_eq_of_lt hb1, Nat.mod_eq_of_lt hb2, ← crcRounds_xor]
    congr 1
    exact Nat.eq_of_testBit_eq fun i => by
      simp only [Nat.testBit_xor]
      cases c.testBit i <;> cases b1.testBit i <;> cases b2.testBit i <;> rfl
  rw [hupd, foldl_crc32Update_xor] at hfold
  have : crcRounds (8 * s.length) (crcRounds 8 (b1 ^^^ b2)) = 0 := by
    have h2 := congrArg (fun z => (s.foldl crc32Update (crc32Update c b1)) ^^^ z)
      hfold.symm
    have h3 := h2.symm
    simp only [Nat.xor_cancel_left, Nat.xor_self] at h3
    exact h3.symm
  exact (crcRounds_ne_zero (8 * s.length) _ hd.2 hd.1).1 this

theorem lookup_insKV [DecidableEq K] (l : List (K × V)) (k k' : K) (v : V) :
    lookupKV (insKV l k v) k' = if k = k' then some v else lookupKV l k' := by
  induction l with
  | nil => by_cases h : k = k' <;> simp [insKV, lookupKV, h]
  | cons a t ih =>
    obtain ⟨ak, av⟩ := a
    by_cases hak : ak = k
    · subst hak
      by_cases hk : ak = k' <;> simp [insKV, lookupKV, hk]
    · by_cases hk : ak = k'
      · subst hk
        have hne : k ≠ ak := fun hkk => hak hkk.symm
        simp [insKV, lookupKV, hak, hne]
      · simp [insKV, lookupKV, hak, hk, ih]

/-!  ### Entry codec round trips and stream shrinking  -/

theorem readUN_some {n : Nat} {b : List Nat} {v : Nat} {r : List Nat}
    (h : readUN? n b = some (v, r)) :
    v = leVal (b.take n) ∧ r = b.drop n ∧ n ≤ b.length := by
  rw [readUN_eq] at h
  split at h
  next hle =>
    simp only [Option.some.injEq, Prod.mk.injEq] at h
    exact ⟨h.1.symm, h.2.symm, hle⟩
  next => cases h

theorem vpkReadString_shrink {b s r : List Nat} (h : vpkReadString b = .ok (s, r)) :
    r.length ≤ b.length ∧ (s ≠ [] → r.length < b.length) := by
  obtain ⟨hrb, -⟩ := vpkReadString_ok h
  have hl := readStringBytes_length b
  rw [hrb] at hl
  simp only at hl
  refine ⟨by omega, fun hs => ?_⟩
  have : 0 < s.length := List.length_pos.mpr hs
  omega

/-- A successful V1 entry write, and the decode of the written bytes in
front of any remainder. -/
theorem v1Entry_rt (e : VPKDirectoryEntry) (he : V1EntryOK e) :
    v1EntryWrite e = .ok (natLE 4 e.crc ++ natLE 2 e.preload_length ++
      natLE 2 e.archive_index ++ natLE 4 e.entry_offset ++ natLE 4 e.entry_length ++
      natLE 2 e.terminator) ∧
    ∀ rest, v1EntryFrom ((natLE 4 e.crc ++ natLE 2 e.preload_length ++
      natLE 2 e.archive_index ++ natLE 4 e.entry_offset ++ natLE 4 e.entry_length ++
      natLE 2 e.terminator) ++ rest) = .ok (e, rest) := by
  obtain ⟨h1, h2, h3, h4, h5, h6⟩ := he
  constructor
  · unfold v1EntryWrite
    rw [if_neg (by simp [h6])]
    rfl
  · intro rest
    have e1 : readU32? (natLE 4 e.crc ++ (natLE 2 e.preload_length ++
        (natLE 2 e.archive_index ++ (natLE 4 e.entry_offset ++ (natLE 4 e.entry_length ++
        (natLE 2 e.terminator ++ rest)))))) = some (e.crc, _) :=
      readUN_natLE 4 e.crc _ (by norm_num [h1])
    have e2 : readU16? (natLE 2 e.preload_length ++ (natLE 2 e.archive_index ++
        (natLE 4 e.entry_offset ++ (natLE 4 e.entry_length ++
        (natLE 2 e.terminator ++ rest))))) = some (e.preload_length, _) :=
      readUN_natLE 2 e.preload_length _ (by norm_num [h2])
    have e3 : readU16? (natLE 2 e.archive_index ++ (natLE 4 e.entry_offset ++
        (natLE 4 e.entry_length ++ (natLE 2 e.terminator ++ rest)))) =
        some (e.archive_index, _) :=
      readUN_natLE 2 e.archive_index _ (by norm_num [h3])
    have e4 : readU32? (natLE 4 e.entry_offset ++ (natLE 4 e.entry_length ++
        (natLE 2 e.terminator ++ rest))) = some (e.entry_offset, _) :=
      readUN_natLE 4 e.entry_offset _ (by norm_num [h4])
    have e5 : readU32? (natLE 4 e.entry_length ++ (natLE 2 e.terminator ++ rest)) =
        some (e.entry_length, _) :=
      readUN_natLE 4 e.entry_length _ (by norm_num [h5])
    have e6 : readU16? (natLE 2 e.terminator ++ rest) = some (e.terminator, rest) :=
      readUN_natLE 2 e.terminator rest (by rw [h6]; norm_num [VPK_ENTRY_TERMINATOR])
    unfold v1EntryFrom
    simp only [List.append_assoc]
    rw [e1]
    simp only [liftRead, bind, Except.bind]
    rw [e2]
    simp only [liftRead, bind, Except.bind]
    rw [e3]
    simp only [liftRead, bind, Except.bind]
    rw [e4]
    simp only [liftRead, bind, Except.bind]
    rw [e5]
    simp only [liftRead, bind, Except.bind]
    rw [e6]
    simp only [liftRead, bind, Except.bind,
      if_neg (by simp [h6] : ¬ e.terminator ≠ VPK_ENTRY_TERMINATOR)]
    rfl

theorem bind_liftRead_ok {α β : Type} {o : Option α} {k : α → Except Err β} {r : β}
    (h : (liftRead o >>= k) = .ok r) : ∃ a, o = some a ∧ k a = .ok r := by
  cases o with
  | none => simp [liftRead, bind, Except.bind] at h
  | some a => exact ⟨a, rfl, by simpa [liftRead, bind, Except.bind] using h⟩

theorem v1EntryFrom_shrink {b : List Nat} {e : VPKDirectoryEntry} {b' : List Nat}
    (h : v1EntryFrom b = .ok (e, b')) : b' = b.drop 18 ∧ 18 ≤ b.length := by
  unfold v1EntryFrom at h
  rcases hr1 : readU32? b with - | ⟨crc, b1⟩
  · rw [hr1] at h
    simp only [liftRead, bind, Except.bind] at h
    exact Except.noConfusion h
  rw [hr1] at h
  simp only [liftRead, bind, Except.bind] at h
  rcases hr2 : readU16? b1 with - | ⟨pl, b2⟩
  · rw [hr2] at h
    simp only [liftRead, bind, Except.bind] at h
    exact Except.noConfusion h
  rw [hr2] at h
  simp only [liftRead, bind, Except.bind] at h
  rcases hr3 : readU16? b2 with - | ⟨ai, b3⟩
  · rw [hr3] at h
    simp only [liftRead, bind, Except.bind] at h
    exact Except.noConfusion h
  rw [hr3] at h
  simp only [liftRead, bind, Except.bind] at h
  rcases hr4 : readU32? b3 with - | ⟨eo, b4⟩
  · rw [hr4] at h
    simp only [liftRead, bind, Except.bind] at h
    exact Except.noConfusion h
  rw [hr4] at h
  simp only [liftRead, bind, Except.bind] at h
  rcases hr5 : readU32? b4 with - | ⟨el, b5⟩
  · rw [hr5] at h
    simp only [liftRead, bind, Except.bind] at h
    exact Except.noConfusion h
  rw [hr5] at h
  simp only [liftRead, bind, Except.bind] at h
  rcases hr6 : readU16? b5 with - | ⟨tm, b6⟩
  · rw [hr6] at h
    simp only [liftRead, bind, Except.bind] at h
    exact Except.noConfusion h
  rw [hr6] at h
  simp only [liftRead, bind, Except.bind] at h
  obtain ⟨-, e1, l1⟩ := readUN_some hr1
  obtain ⟨-, e2, l2⟩ := readUN_some hr2
  obtain ⟨-, e3, l3⟩ := readUN_some hr3
  obtain ⟨-, e4, l4⟩ := readUN_some hr4
  obtain ⟨-, e5, l5⟩ := readUN_some hr5
  obtain ⟨-, e6, l6⟩ := readUN_some hr6
  subst e1 e2 e3 e4 e5 e6
  simp only [List.drop_drop, List.length_drop] at *
  by_cases ht : tm ≠ VPK_ENTRY_TERMINATOR
  · rw [if_pos ht] at h
    exact Except.noConfusion h
  · rw [if_neg ht] at h
    have h2 := Except.ok.inj h
    have h3 : List.drop (4 + 2 + 2 + 4 + 4 + 2) b = b' := congrArg Prod.snd h2
    refine ⟨?_, by omega⟩
    rw [← h3]

theorem respawnPartsLoop_shrink :
    ∀ (n : Nat) (b : List Nat), b.length ≤ n → ∀ {parts : List VPKFilePartEntryRespawn}
      {b' : List Nat}, respawnPartsLoop b = .ok (parts, b') → b'.length ≤ b.length := by
  intro n
  induction n with
  | zero =>
    intro b hb parts b' h
    have hb0 : b = [] := List.length_eq_zero.mp (by omega)
    subst hb0
    rw [respawnPartsLoop] at h
    split at h
    · exact Except.noConfusion h
    next idx b1 hr0 =>
      obtain ⟨-, -, l0⟩ := readUN_some hr0
      simp at l0
  | succ n ih =>
    intro b hb parts b' h
    rw [respawnPartsLoop] at h
    split at h
    · cases h
    next idx b1 hr0 =>
      obtain ⟨-, e0, l0⟩ := readUN_some hr0
      split at h
      · simp only [Except.ok.injEq, Prod.mk.injEq] at h
        subst e0
        rw [← h.2]
        simp
      · split at h
        · cases h
        next lf b2 hr1 =>
          split at h
          · cases h
          next tf b3 hr2 =>
            split at h
            · cases h
            next eo b4 hr3 =>
              split at h
              · cases h
              next el b5 hr4 =>
                split at h
                · cases h
                next elu b6 hr5 =>
                  split at h
                  · cases h
                  next parts2 b7 hrec =>
                    simp only [Except.ok.injEq, Prod.mk.injEq] at h
                    obtain ⟨-, e1, l1⟩ := readUN_some hr1
                    obtain ⟨-, e2, l2⟩ := readUN_some hr2
                    obtain ⟨-, e3, l3⟩ := readUN_some hr3
                    obtain ⟨-, e4, l4⟩ := readUN_some hr4
                    obtain ⟨-, e5, l5⟩ := readUN_some hr5
                    have hb6 : b6.length ≤ n := by
                      subst e0 e1 e2 e3 e4 e5
                      simp only [List.length_drop] at *
                      omega
                    have := ih b6 hb6 hrec
                    rw [← h.2] at *
                    subst e0 e1 e2 e3 e4 e5
                    simp only [List.length_drop] at *
                    omega

theorem respawnEntryFrom_shrink {b : List Nat} {e : VPKDirectoryEntryRespawn}
    {b' : List Nat} (h : respawnEntryFrom b = .ok (e, b')) : b'.length ≤ b.length := by
  unfold respawnEntryFrom at h
  rcases hr1 : readU32? b with - | ⟨crc, b1⟩
  · rw [hr1] at h
    simp only [liftRead, bind, Except.bind] at h
    exact Except.noConfusion h
  rw [hr1] at h
  simp only [liftRead, bind, Except.bind] at h
  rcases hr2 : readU16? b1 with - | ⟨pl, b2⟩
  · rw [hr2] at h
    simp only [liftRead, bind, Except.bind] at h
    exact Except.noConfusion h
  rw [hr2] at h
  simp only [liftRead, bind, Except.bind] at h
  rcases hp : respawnPartsLoop b2 with err | ⟨parts, b3⟩
  · rw [hp] at h
    simp only [bind, Except.bind] at h
    exact Except.noConfusion h
  rw [hp] at h
  simp only [bind, Except.bind, pure, Except.pure, Except.ok.injEq, Prod.mk.injEq] at h
  obtain ⟨-, e1, l1⟩ := readUN_some hr1
  obtain ⟨-, e2, l2⟩ := readUN_some hr2
  have hlp := respawnPartsLoop_shrink b2.length b2 le_rfl hp
  subst e2 e1
  rw [← h.2]
  simp only [List.length_drop] at *
  omega

theorem v1Codec_shrink : CodecShrink v1Codec := by
  intro b e b' h
  obtain ⟨hb, hl⟩ := v1EntryFrom_shrink (b := b) h
  subst hb
  simp

theorem respawnCodec_shrink : CodecShrink respawnCodec := fun h =>
  respawnEntryFrom_shrink h

/-- The file-part scan consumes exactly the written parts plus the `0xFFFF`
terminator, whatever follows. -/
theorem respawnPartsLoop_rt (parts : List VPKFilePartEntryRespawn)
    (hp : ∀ p ∈ parts, RespawnPartOK p) (rest : List Nat) :
    respawnPartsLoop ((parts.map respawnPartBytes).flatten ++
      natLE 2 VPK_ENTRY_TERMINATOR ++ rest) = .ok (parts, rest) := by
  induction parts with
  | nil =>
    rw [respawnPartsLoop]
    rw [show ((List.map respawnPartBytes []).flatten ++ natLE 2 VPK_ENTRY_TERMINATOR ++ rest)
      = natLE 2 0xFFFF ++ rest from by simp [VPK_ENTRY_TERMINATOR]]
    have hr : readU16? (natLE 2 0xFFFF ++ rest) = some (0xFFFF, rest) :=
      readUN_natLE 2 0xFFFF rest (by norm_num)
    rw [hr]
    simp
  | cons p ps ih =>
    obtain ⟨k1, k2, k3, k4, k5, k6, k7⟩ := hp p (by simp)
    have ih' := ih (fun q hq => hp q (by simp [hq]))
    rw [respawnPartsLoop]
    have hshape : ((List.map respawnPartBytes (p :: ps)).flatten ++
        natLE 2 VPK_ENTRY_TERMINATOR ++ rest) =
        natLE 2 p.archive_index ++ (natLE 2 p.load_flags ++ (natLE 4 p.texture_flags ++
          (natLE 8 p.entry_offset ++ (natLE 8 p.entry_length ++
          (natLE 8 p.entry_length_uncompressed ++
          ((List.map respawnPartBytes ps).flatten ++ natLE 2 VPK_ENTRY_TERMINATOR ++ rest)))))) := by
      simp [respawnPartBytes, List.append_assoc]
    rw [hshape]
    have hr1 : readU16? (natLE 2 p.archive_index ++ (natLE 2 p.load_flags ++ (natLE 4 p.texture_flags ++ (natLE 8 p.entry_offset ++ (natLE 8 p.entry_length ++ (natLE 8 p.entry_length_uncompressed ++ ((List.map respawnPartBytes ps).flatten ++ natLE 2 VPK_ENTRY_TERMINATOR ++ rest))))))) = some (p.archive_index, natLE 2 p.load_flags ++ (natLE 4 p.texture_flags ++ (natLE 8 p.entry_offset ++ (natLE 8 p.entry_length ++ (natLE 8 p.entry_length_uncompressed ++ ((List.map respawnPartBytes ps).flatten ++ natLE 2 VPK_ENTRY_TERMINATOR ++ rest)))))) :=
      readUN_natLE 2 p.archive_index _ (by norm_num [k1])
    split
    next heq1 => rw [hr1] at heq1; exact Option.noConfusion heq1
    next v1 w1 heq1 =>
    rw [hr1] at heq1
    obtain ⟨hv1, hw1⟩ := Prod.mk.injEq .. ▸ Option.some.inj heq1
    subst hv1 hw1
    rw [if_neg (show ¬(p.archive_index = 0xFFFF ∨ (natLE 2 p.load_flags ++ (natLE 4 p.texture_flags ++ (natLE 8 p.entry_offset ++ (natLE 8 p.entry_length ++ (natLE 8 p.entry_length_uncompressed ++ ((List.map respawnPartBytes ps).flatten ++ natLE 2 VPK_ENTRY_TERMINATOR ++ rest)))))) = []) from by
      push_neg
      exact ⟨k2, by simp [natLE]⟩)]
    have hr2 : readU16? (natLE 2 p.load_flags ++ (natLE 4 p.texture_flags ++ (natLE 8 p.entry_offset ++ (natLE 8 p.entry_length ++ (natLE 8 p.entry_length_uncompressed ++ ((List.map respawnPartBytes ps).flatten ++ natLE 2 VPK_ENTRY_TERMINATOR ++ rest)))))) = some (p.load_flags, natLE 4 p.texture_flags ++ (natLE 8 p.entry_offset ++ (natLE 8 p.entry_length ++ (natLE 8 p.entry_length_uncompressed ++ ((List.map respawnPartBytes ps).flatten ++ natLE 2 VPK_ENTRY_TERMINATOR ++ rest))))) :=
      readUN_natLE 2 p.load_flags _ (by norm_num [k3])
    split
    next heq2 => rw [hr2] at heq2; exact Option.noConfusion heq2
    next v2 w2 heq2 =>
    rw [hr2] at heq2
    obtain ⟨hv2, hw2⟩ := Prod.mk.injEq .. ▸ Option.some.inj heq2
    subst hv2 hw2
    have hr3 : readU32? (natLE 4 p.texture_flags ++ (natLE 8 p.entry_offset ++ (natLE 8 p.entry_length ++ (natLE 8 p.entry_length_uncompressed ++ ((List.map respawnPartBytes ps).flatten ++ natLE 2 VPK_ENTRY_TERMINATOR ++ rest))))) = some (p.texture_flags, natLE 8 p.entry_offset ++ (natLE 8 p.entry_length ++ (natLE 8 p.entry_length_uncompressed ++ ((List.map respawnPartBytes ps).flatten ++ natLE 2 VPK_ENTRY_TERMINATOR ++ rest)))) :=
      readUN_natLE 4 p.texture_flags _ (by norm_num [k4])
    split
    next heq3 => rw [hr3] at heq3; exact Option.noConfusion heq3
    next v3 w3 heq3 =>
    rw [hr3] at heq3
    obtain ⟨hv3, hw3⟩ := Prod.mk.injEq .. ▸ Option.some.inj heq3
    subst hv3 hw3
    have hr4 : readU64? (natLE 8 p.entry_offset ++ (natLE 8 p.entry_length ++ (natLE 8 p.entry_length_uncompressed ++ ((List.map respawnPartBytes ps).flatten ++ natLE 2 VPK_ENTRY_TERMINATOR ++ rest)))) = some (p.entry_offset, natLE 8 p.entry_length ++ (natLE 8 p.entry_length_uncompressed ++ ((List.map respawnPartBytes ps).flatten ++ natLE 2 VPK_ENTRY_TERMINATOR ++ rest))) :=
      readUN_natLE 8 p.entry_offset _ (by norm_num [k5])
    split
    next heq4 => rw [hr4] at heq4; exact Option.noConfusion heq4
    next v4 w4 heq4 =>
    rw [hr4] at heq4
    obtain ⟨hv4, hw4⟩ := Prod.mk.injEq .. ▸ Option.some.inj heq4
    subst hv4 hw4
    have hr5 : readU64? (natLE 8 p.entry_length ++ (natLE 8 p.entry_length_uncompressed ++ ((List.map respawnPartBytes ps).flatten ++ natLE 2 VPK_ENTRY_TERMINATOR ++ rest))) = some (p.entry_length, natLE 8 p.entry_length_uncompressed ++ ((List.map respawnPartBytes ps).flatten ++ natLE 2 VPK_ENTRY_TERMINATOR ++ rest)) :=
      readUN_natLE 8 p.entry_length _ (by norm_num [k6])
    split
    next heq5 => rw [hr5] at heq5; exact Option.noConfusion heq5
    next v5 w5 heq5 =>
    rw [hr5] at heq5
    obtain ⟨hv5, hw5⟩ := Prod.mk.injEq .. ▸ Option.some.inj heq5
    subst hv5 hw5
    have hr6 : readU64? (natLE 8 p.entry_length_uncompressed ++ ((List.map respawnPartBytes ps).flatten ++ natLE 2 VPK_ENTRY_TERMINATOR ++ rest)) = some (p.entry_length_uncompressed, (List.map respawnPartBytes ps).flatten ++ natLE 2 VPK_ENTRY_TERMINATOR ++ rest) :=
      readUN_natLE 8 p.entry_length_uncompressed _ (by norm_num [k7])
    split
    next heq6 => rw [hr6] at heq6; exact Option.noConfusion heq6
    next v6 w6 heq6 =>
    rw [hr6] at heq6
    obtain ⟨hv6, hw6⟩ := Prod.mk.injEq .. ▸ Option.some.inj heq6
    subst hv6 hw6
    rw [ih']

/-!  ### Termination of the tree parser

Each loop level either consumes at least one byte, fails, or exits (a string
read at end of stream yields the empty string, exiting the level), so the
result is independent of the step budget once it exceeds the remaining
stream length. -/

theorem parseFiles_shrink (c : DirEntryCodec E) (bound : Nat) (hsh : CodecShrink c) :
    ∀ (fuel : Nat) (rem : List Nat) (pos : Nat) (ext dirp : List Nat) (t : VPKTree E)
      {t' : VPKTree E} {rem' : List Nat} {pos' : Nat},
      parseFiles c bound fuel rem pos ext dirp t = .ok (t', rem', pos') →
      rem'.length ≤ rem.length := by
  intro fuel
  induction fuel with
  | zero => intro rem pos ext dirp t t' rem' pos' h; exact Except.noConfusion h
  | succ fuel ih =>
    intro rem pos ext dirp t t' rem' pos' h
    rw [parseFiles] at h
    rcases hs : vpkReadString rem with e | ⟨name, rem₁⟩ <;> rw [hs] at h <;>
      simp only [] at h
    · exact Except.noConfusion h
    obtain ⟨hr1, -⟩ := vpkReadString_shrink hs
    split at h
    · obtain ⟨-, h2, -⟩ := Prod.mk.injEq .. ▸ Except.ok.inj h
      omega
    · rcases hf : c.fromBytes rem₁ with e | ⟨entry, rem₂⟩ <;> rw [hf] at h <;>
        simp only [] at h
      · exact Except.noConfusion h
      have hr2 : rem₂.length ≤ rem₁.length := hsh hf
      split at h
      · have := ih _ _ _ _ _ h
        simp only [readBytesN, List.length_drop] at this
        omega
      · have := ih _ _ _ _ _ h
        omega

theorem parseDirs_shrink (c : DirEntryCodec E) (bound : Nat) (hsh : CodecShrink c) :
    ∀ (fuel : Nat) (rem : List Nat) (pos : Nat) (ext : List Nat) (t : VPKTree E)
      {t' : VPKTree E} {rem' : List Nat} {pos' : Nat},
      parseDirs c bound fuel rem pos ext t = .ok (t', rem', pos') →
      rem'.length ≤ rem.length := by
  intro fuel
  induction fuel with
  | zero => intro rem pos ext t t' rem' pos' h; exact Except.noConfusion h
  | succ fuel ih =>
    intro rem pos ext t t' rem' pos' h
    rw [parseDirs] at h
    rcases hs : vpkReadString rem with e | ⟨dirp, rem₁⟩ <;> rw [hs] at h <;>
      simp only [] at h
    · exact Except.noConfusion h
    obtain ⟨hr1, -⟩ := vpkReadString_shrink hs
    split at h
    · obtain ⟨-, h2, -⟩ := Prod.mk.injEq .. ▸ Except.ok.inj h
      omega
    · rcases hff : parseFiles c bound fuel rem₁ (pos + (rem.length - rem₁.length)) ext dirp t
        with e | ⟨t₂, rem₂, pos₂⟩ <;> rw [hff] at h <;> simp only [] at h
      · exact Except.noConfusion h
      have := parseFiles_shrink c bound hsh fuel _ _ _ _ _ hff
      have := ih _ _ _ _ h
      omega

theorem parseFiles_fuel (c : DirEntryCodec E) (bound : Nat) (hsh : CodecShrink c) :
    ∀ (n : Nat) (rem : List Nat), rem.length ≤ n →
      ∀ (f₁ f₂ pos : Nat) (ext dirp : List Nat) (t : VPKTree E),
      rem.length < f₁ → rem.length < f₂ →
      parseFiles c bound f₁ rem pos ext dirp t = parseFiles c bound f₂ rem pos ext dirp t := by
  intro n
  induction n with
  | zero =>
    intro rem hn f₁ f₂ pos ext dirp t h₁ h₂
    have hrem : rem = [] := List.length_eq_zero.mp (by omega)
    subst hrem
    obtain ⟨a, rfl⟩ : ∃ a, f₁ = a + 1 := ⟨f₁ - 1, by omega⟩
    obtain ⟨b, rfl⟩ : ∃ b, f₂ = b + 1 := ⟨f₂ - 1, by omega⟩
    rw [parseFiles, parseFiles, vpkReadString_nil]
    simp
  | succ n ih =>
    intro rem hn f₁ f₂ pos ext dirp t h₁ h₂
    obtain ⟨a, rfl⟩ : ∃ a, f₁ = a + 1 := ⟨f₁ - 1, by omega⟩
    obtain ⟨b, rfl⟩ : ∃ b, f₂ = b + 1 := ⟨f₂ - 1, by omega⟩
    rw [parseFiles, parseFiles]
    rcases hs : vpkReadString rem with e | ⟨name, rem₁⟩
    · rfl
    simp only []
    split
    · rfl
    next hbr =>
      rcases hf : c.fromBytes rem₁ with e | ⟨entry, rem₂⟩
      · rfl
      simp only []
      have hname : name ≠ [] := fun hn0 => hbr (Or.inl hn0)
      have hs1 : rem₁.length < rem.length := (vpkReadString_shrink hs).2 hname
      have hs2 : rem₂.length ≤ rem₁.length := hsh hf
      split
      · exact ih _ (by simp only [readBytesN, List.length_drop]; omega) a b _ _ _ _
          (by simp only [readBytesN, List.length_drop]; omega)
          (by simp only [readBytesN, List.length_drop]; omega)
      · exact ih _ (by omega) a b _ _ _ _ (by omega) (by omega)

theorem parseDirs_fuel (c : DirEntryCodec E) (bound : Nat) (hsh : CodecShrink c) :
    ∀ (n : Nat) (rem : List Nat), rem.length ≤ n →
      ∀ (f₁ f₂ pos : Nat) (ext : List Nat) (t : VPKTree E),
      rem.length < f₁ → rem.length < f₂ →
      parseDirs c bound f₁ rem pos ext t = parseDirs c bound f₂ rem pos ext t := by
  intro n
  induction n with
  | zero =>
    intro rem hn f₁ f₂ pos ext t h₁ h₂
    have hrem : rem = [] := List.length_eq_zero.mp (by omega)
    subst hrem
    obtain ⟨a, rfl⟩ : ∃ a, f₁ = a + 1 := ⟨f₁ - 1, by omega⟩
    obtain ⟨b, rfl⟩ : ∃ b, f₂ = b + 1 := ⟨f₂ - 1, by omega⟩
    rw [parseDirs, parseDirs, vpkReadString_nil]
    simp
  | succ n ih =>
    intro rem hn f₁ f₂ pos ext t h₁ h₂
    obtain ⟨a, rfl⟩ : ∃ a, f₁ = a + 1 := ⟨f₁ - 1, by omega⟩
    obtain ⟨b, rfl⟩ : ∃ b, f₂ = b + 1 := ⟨f₂ - 1, by omega⟩
    rw [parseDirs, parseDirs]
    rcases hs : vpkReadString rem with e | ⟨dirp, rem₁⟩
    · rfl
    simp only []
    split
    · rfl
    next hbr =>
      have hname : dirp ≠ [] := fun hn0 => hbr (Or.inl hn0)
      have hs1 : rem₁.length < rem.length := (vpkReadString_shrink hs).2 hname
      rw [parseFiles_fuel c bound hsh n rem₁ (by omega) a b _ _ _ _ (by omega) (by omega)]
      rcases hff : parseFiles c bound b rem₁ (pos + (rem.length - rem₁.length)) ext dirp t
        with e | ⟨t₂, rem₂, pos₂⟩
      · rfl
      simp only []
      have hsf : rem₂.length ≤ rem₁.length := parseFiles_shrink c bound hsh b _ _ _ _ _ hff
      exact ih _ (by omega) a b _ _ _ (by omega) (by omega)

theorem parseExts_fuel (c : DirEntryCodec E) (bound : Nat) (hsh : CodecShrink c) :
    ∀ (n : Nat) (rem : List Nat), rem.length ≤ n →
      ∀ (f₁ f₂ pos : Nat) (t : VPKTree E),
      rem.length < f₁ → rem.length < f₂ →
      parseExts c bound f₁ rem pos t = parseExts c bound f₂ rem pos t := by
  intro n
  induction n with
  | zero =>
    intro rem hn f₁ f₂ pos t h₁ h₂
    have hrem : rem = [] := List.length_eq_zero.mp (by omega)
    subst hrem
    obtain ⟨a, rfl⟩ : ∃ a, f₁ = a + 1 := ⟨f₁ - 1, by omega⟩
    obtain ⟨b, rfl⟩ : ∃ b, f₂ = b + 1 := ⟨f₂ - 1, by omega⟩
    rw [parseExts, parseExts]
    split
    · rw [vpkReadString_nil]
      simp
    · rfl
  | succ n ih =>
    intro rem hn f₁ f₂ pos t h₁ h₂
    obtain ⟨a, rfl⟩ : ∃ a, f₁ = a + 1 := ⟨f₁ - 1, by omega⟩
    obtain ⟨b, rfl⟩ : ∃ b, f₂ = b + 1 := ⟨f₂ - 1, by omega⟩
    rw [parseExts, parseExts]
    split
    · rcases hs : vpkReadString rem with e | ⟨ext, rem₁⟩
      · rfl
      simp only []
      split
      · rfl
      next hbr =>
        have hs1 : rem₁.length < rem.length := (vpkReadString_shrink hs).2 hbr
        rw [parseDirs_fuel c bound hsh n rem₁ (by omega) a b _ _ _ (by omega) (by omega)]
        rcases hdd : parseDirs c bound b rem₁ (pos + (rem.length - rem₁.length)) ext t
          with e | ⟨t₂, rem₂, pos₂⟩
        · rfl
        simp only []
        have hsd : rem₂.length ≤ rem₁.length := parseDirs_shrink c bound hsh b _ _ _ _ hdd
        exact ih _ (by omega) a b _ _ (by omega) (by omega)
    · rfl

/-!  ### Parsing a serialized tree  -/

theorem parseFiles_serialized (c : DirEntryCodec E) (bound : Nat) :
    ∀ (recs : List (FileRec E)) (ws : List (List Nat)) (rest : List Nat)
      (fuel pos : Nat) (ext dirp : List Nat) (t : VPKTree E),
      recs.mapM (writeFileRec c) = .ok ws →
      (∀ r ∈ recs, RecOK c r) →
      (ws.flatten ++ 0 :: rest).length < fuel →
      pos + (ws.flatten ++ 0 :: rest).length ≤ bound →
      parseFiles c bound fuel (ws.flatten ++ 0 :: rest) pos ext dirp t =
        .ok (applyRecs ext dirp t recs, rest, pos + ws.flatten.length + 1) := by
  intro recs
  induction recs with
  | nil =>
    intro ws rest fuel pos ext dirp t hm hr hf hb
    have hws : ws = [] := by
      simp only [List.mapM_nil, pure, Except.pure, Except.ok.injEq] at hm
      exact hm.symm
    subst hws
    obtain ⟨a, rfl⟩ : ∃ a, fuel = a + 1 := ⟨fuel - 1, by omega⟩
    rw [parseFiles]
    simp only [List.flatten_nil, List.nil_append, vpkReadString_nul]
    simp [applyRecs]
  | cons r rs ih =>
    intro ws rest fuel pos ext dirp t hm hr hf hb
    rw [List.mapM_cons] at hm
    rcases hw1 : writeFileRec c r with e | w
    · rw [hw1] at hm
      simp only [bind, Except.bind] at hm
      exact Except.noConfusion hm
    rcases hw2 : List.mapM (writeFileRec c) rs with e | ws'
    · rw [hw1, hw2] at hm
      simp only [bind, Except.bind] at hm
      exact Except.noConfusion hm
    rw [hw1, hw2] at hm
    simp only [bind, Except.bind, pure, Except.pure, Except.ok.injEq] at hm
    subst hm
    obtain ⟨hvs, ⟨wb, hwb, hrt⟩, hpl⟩ := hr r (by simp)
    have hw1' : w = writeString r.1 ++ wb ++ (r.2.2).getD [] := by
      unfold writeFileRec at hw1
      rw [hwb] at hw1
      simp only [bind, Except.bind, pure, Except.pure, Except.ok.injEq] at hw1
      exact hw1.symm
    subst hw1'
    obtain ⟨a, rfl⟩ : ∃ a, fuel = a + 1 := ⟨fuel - 1, by omega⟩
    rw [parseFiles]
    obtain ⟨hne, hnz, hvalid⟩ := hvs
    have hshape : (((writeString r.1 ++ wb ++ (r.2.2).getD []) :: ws').flatten ++ 0 :: rest)
        = r.1 ++ 0 :: (wb ++ ((r.2.2).getD [] ++ (ws'.flatten ++ 0 :: rest))) := by
      simp [writeString, List.append_assoc]
    rw [hshape, vpkReadString_append r.1 _ hnz hvalid]
    simp only []
    have hlen1 : (r.1 ++ 0 :: (wb ++ ((r.2.2).getD [] ++ (ws'.flatten ++ 0 :: rest)))).length
        - (wb ++ ((r.2.2).getD [] ++ (ws'.flatten ++ 0 :: rest))).length = r.1.length + 1 := by
      simp only [List.length_append, List.length_cons]
      omega
    rw [hlen1]
    have hbound1 : ¬ (pos + (r.1.length + 1) > bound) := by
      rw [hshape] at hb
      simp only [List.length_append, List.length_cons] at hb
      omega
    rw [if_neg (by
      push_neg
      exact ⟨fun hc => hne hc, by omega⟩)]
    rw [show wb ++ ((r.2.2).getD [] ++ (ws'.flatten ++ 0 :: rest))
      = wb ++ ((r.2.2).getD [] ++ ws'.flatten ++ 0 :: rest) from by simp [List.append_assoc]]
    rw [hrt ((r.2.2).getD [] ++ ws'.flatten ++ 0 :: rest)]
    simp only []
    have hlen2 : (wb ++ ((r.2.2).getD [] ++ ws'.flatten ++ 0 :: rest)).length
        - ((r.2.2).getD [] ++ ws'.flatten ++ 0 :: rest).length = wb.length := by
      simp only [List.length_append]
      omega
    rw [hlen2]
    rcases hplc : r.2.2 with - | pl
    · rw [hplc] at hpl
      simp only [] at hpl
      rw [if_neg (by simp [hpl])]
      simp only [Option.getD_none, List.nil_append]
      have := ih ws' rest a (pos + (r.1.length + 1) + wb.length) ext dirp
        ⟨insKV t.files (dirp ++ 47 :: r.1 ++ 46 :: ext) r.2.1, t.preload⟩
        hw2 (fun q hq => hr q (by simp [hq]))
        (by rw [hshape] at hf; simp only [List.length_append, List.length_cons] at hf ⊢; omega)
        (by rw [hshape] at hb; simp only [List.length_append, List.length_cons] at hb ⊢; omega)
      rw [this]
      have happ : applyRecs ext dirp t (r :: rs) =
          applyRecs ext dirp ⟨insKV t.files (dirp ++ 47 :: r.1 ++ 46 :: ext) r.2.1, t.preload⟩ rs := by
        simp only [applyRecs, List.foldl_cons, applyRec, hplc]
      rw [happ]
      congr 1
      ext1
      · rfl
      · simp [writeString]
        omega
    · rw [hplc] at hpl
      simp only [] at hpl
      obtain ⟨hpl1, hpl2⟩ := hpl
      rw [if_pos (by omega)]
      simp only [Option.getD_some]
      have htake : (readBytesN (c.preloadLen r.2.1) (pl ++ (ws'.flatten ++ 0 :: rest))).1 = pl := by
        simp [readBytesN, hpl1, List.take_left]
      have hdrop : (readBytesN (c.preloadLen r.2.1) (pl ++ (ws'.flatten ++ 0 :: rest))).2 =
          ws'.flatten ++ 0 :: rest := by
        simp [readBytesN, hpl1, List.drop_left]
      rw [show pl ++ ws'.flatten ++ 0 :: rest = pl ++ (ws'.flatten ++ 0 :: rest) from by
        simp [List.append_assoc]]
      rw [htake, hdrop]
      have := ih ws' rest a (pos + (r.1.length + 1) + wb.length + pl.length) ext dirp
        ⟨insKV t.files (dirp ++ 47 :: r.1 ++ 46 :: ext) r.2.1,
         insKV t.preload (dirp ++ 47 :: r.1 ++ 46 :: ext) pl⟩
        hw2 (fun q hq => hr q (by simp [hq]))
        (by rw [hshape] at hf; simp only [List.length_append, List.length_cons] at hf ⊢; omega)
        (by rw [hshape, hplc] at hb
            simp only [List.length_append, List.length_cons, Option.getD_some] at hb ⊢
            omega)
      rw [this]
      have happ : applyRecs ext dirp t (r :: rs) =
          applyRecs ext dirp ⟨insKV t.files (dirp ++ 47 :: r.1 ++ 46 :: ext) r.2.1,
            insKV t.preload (dirp ++ 47 :: r.1 ++ 46 :: ext) pl⟩ rs := by
        simp only [applyRecs, List.foldl_cons, applyRec, hplc]
      rw [happ]
      congr 1
      ext1
      · rfl
      · simp [writeString]
        omega

theorem parseDirs_serialized (c : DirEntryCodec E) (bound : Nat) :
    ∀ (ds : List (List Nat × List (FileRec E))) (bs : List (List Nat)) (rest : List Nat)
      (fuel pos : Nat) (ext : List Nat) (t : VPKTree E),
      ds.mapM (writeDirGrp c) = .ok bs →
      (∀ d ∈ ds, ValidStr d.1 ∧ ∀ r ∈ d.2, RecOK c r) →
      (bs.flatten ++ 0 :: rest).length < fuel →
      pos + (bs.flatten ++ 0 :: rest).length ≤ bound →
      parseDirs c bound fuel (bs.flatten ++ 0 :: rest) pos ext t =
        .ok (applyDirs ext t ds, rest, pos + bs.flatten.length + 1) := by
  intro ds
  induction ds with
  | nil =>
    intro bs rest fuel pos ext t hm hd hf hb
    have hbs : bs = [] := by
      simp only [List.mapM_nil, pure, Except.pure, Except.ok.injEq] at hm
      exact hm.symm
    subst hbs
    obtain ⟨a, rfl⟩ : ∃ a, fuel = a + 1 := ⟨fuel - 1, by omega⟩
    rw [parseDirs]
    simp only [List.flatten_nil, List.nil_append, vpkReadString_nul]
    simp [applyDirs]
  | cons d ds' ih =>
    intro bs rest fuel pos ext t hm hd hf hb
    rw [List.mapM_cons] at hm
    rcases hw1 : writeDirGrp c d with e | b
    · rw [hw1] at hm
      simp only [bind, Except.bind] at hm
      exact Except.noConfusion hm
    rcases hw2 : List.mapM (writeDirGrp c) ds' with e | bs'
    · rw [hw1, hw2] at hm
      simp only [bind, Except.bind] at hm
      exact Except.noConfusion hm
    rw [hw1, hw2] at hm
    simp only [bind, Except.bind, pure, Except.pure, Except.ok.injEq] at hm
    subst hm
    obtain ⟨hvs, hrecs⟩ := hd d (by simp)
    rcases hwr : List.mapM (writeFileRec c) d.2 with e | recs
    · unfold writeDirGrp at hw1
      rw [hwr] at hw1
      simp only [bind, Except.bind] at hw1
      exact Except.noConfusion hw1
    have hb1 : b = writeString d.1 ++ recs.flatten ++ [0] := by
      unfold writeDirGrp at hw1
      rw [hwr] at hw1
      simp only [bind, Except.bind, pure, Except.pure, Except.ok.injEq] at hw1
      exact hw1.symm
    subst hb1
    obtain ⟨a, rfl⟩ : ∃ a, fuel = a + 1 := ⟨fuel - 1, by omega⟩
    rw [parseDirs]
    obtain ⟨hne, hnz, hvalid⟩ := hvs
    have hshape : (((writeString d.1 ++ recs.flatten ++ [0]) :: bs').flatten ++ 0 :: rest)
        = d.1 ++ 0 :: (recs.flatten ++ 0 :: (bs'.flatten ++ 0 :: rest)) := by
      simp [writeString, List.append_assoc]
    rw [hshape, vpkReadString_append d.1 _ hnz hvalid]
    simp only []
    have hlen1 : (d.1 ++ 0 :: (recs.flatten ++ 0 :: (bs'.flatten ++ 0 :: rest))).length
        - (recs.flatten ++ 0 :: (bs'.flatten ++ 0 :: rest)).length = d.1.length + 1 := by
      simp only [List.length_append, List.length_cons]
      omega
    rw [hlen1]
    have hball : pos + ((d.1.length + 1) + (recs.flatten.length + 1) +
        (bs'.flatten.length + 1) + rest.length) ≤ bound := by
      rw [hshape] at hb
      simp only [List.length_append, List.length_cons] at hb
      omega
    rw [if_neg (by
      push_neg
      exact ⟨fun hc => hne hc, by omega⟩)]
    have hfall : (d.1.length + 1) + (recs.flatten.length + 1) +
        (bs'.flatten.length + 1) + rest.length < a + 1 := by
      rw [hshape] at hf
      simp only [List.length_append, List.length_cons] at hf
      omega
    have hfiles := parseFiles_serialized c bound d.2 recs (bs'.flatten ++ 0 :: rest) a
      (pos + (d.1.length + 1)) ext d.1 t hwr hrecs
      (by simp only [List.length_append, List.length_cons]; omega)
      (by simp only [List.length_append, List.length_cons]; omega)
    rw [hfiles]
    simp only []
    have hrest := ih bs' rest a (pos + (d.1.length + 1) + recs.flatten.length + 1) ext
      (applyRecs ext d.1 t d.2) hw2 (fun q hq => hd q (by simp [hq]))
      (by simp only [List.length_append, List.length_cons]; omega)
      (by simp only [List.length_append, List.length_cons]; omega)
    rw [hrest]
    have happ : applyDirs ext t (d :: ds') = applyDirs ext (applyRecs ext d.1 t d.2) ds' := by
      simp only [applyDirs, List.foldl_cons]
    rw [happ]
    congr 1
    ext1
    · rfl
    · simp [writeString]
      omega

theorem parseExts_serialized (c : DirEntryCodec E) (bound : Nat) :
    ∀ (gs : List (List Nat × List (List Nat × List (FileRec E)))) (bs : List (List Nat))
      (fuel pos : Nat) (t : VPKTree E),
      gs.mapM (writeExtGrp c) = .ok bs →
      (∀ g ∈ gs, ValidStr g.1 ∧ ∀ d ∈ g.2, ValidStr d.1 ∧ ∀ r ∈ d.2, RecOK c r) →
      bs.flatten.length < fuel →
      pos + bs.flatten.length ≤ bound →
      parseExts c bound fuel bs.flatten pos t =
        .ok (applyExts t gs, [], pos + bs.flatten.length) := by
  intro gs
  induction gs with
  | nil =>
    intro bs fuel pos t hm hg hf hb
    have hbs : bs = [] := by
      simp only [List.mapM_nil, pure, Except.pure, Except.ok.injEq] at hm
      exact hm.symm
    subst hbs
    obtain ⟨a, rfl⟩ : ∃ a, fuel = a + 1 := ⟨fuel - 1, by omega⟩
    rw [parseExts]
    by_cases hpb : pos < bound
    · rw [if_pos hpb]
      simp only [List.flatten_nil, vpkReadString_nil]
      simp [applyExts]
    · rw [if_neg hpb]
      simp [applyExts]
  | cons g gs' ih =>
    intro bs fuel pos t hm hg hf hb
    rw [List.mapM_cons] at hm
    rcases hw1 : writeExtGrp c g with e | b
    · rw [hw1] at hm
      simp only [bind, Except.bind] at hm
      exact Except.noConfusion hm
    rcases hw2 : List.mapM (writeExtGrp c) gs' with e | bs'
    · rw [hw1, hw2] at hm
      simp only [bind, Except.bind] at hm
      exact Except.noConfusion hm
    rw [hw1, hw2] at hm
    simp only [bind, Except.bind, pure, Except.pure, Except.ok.injEq] at hm
    subst hm
    obtain ⟨hvs, hds⟩ := hg g (by simp)
    rcases hwd : List.mapM (writeDirGrp c) g.2 with e | dbs
    · unfold writeExtGrp at hw1
      rw [hwd] at hw1
      simp only [bind, Except.bind] at hw1
      exact Except.noConfusion hw1
    have hb1 : b = writeString g.1 ++ dbs.flatten ++ [0] := by
      unfold writeExtGrp at hw1
      rw [hwd] at hw1
      simp only [bind, Except.bind, pure, Except.pure, Except.ok.injEq] at hw1
      exact hw1.symm
    subst hb1
    obtain ⟨a, rfl⟩ : ∃ a, fuel = a + 1 := ⟨fuel - 1, by omega⟩
    rw [parseExts]
    obtain ⟨hne, hnz, hvalid⟩ := hvs
    have hlen0 : 0 < g.1.length := List.length_pos.mpr hne
    have hshape : ((writeString g.1 ++ dbs.flatten ++ [0]) :: bs').flatten
        = g.1 ++ 0 :: (dbs.flatten ++ 0 :: bs'.flatten) := by
      simp [writeString, List.append_assoc]
    have hlentot : ((writeString g.1 ++ dbs.flatten ++ [0]) :: bs').flatten.length
        = (g.1.length + 1) + (dbs.flatten.length + 1) + bs'.flatten.length := by
      rw [hshape]
      simp only [List.length_append, List.length_cons]
      omega
    rw [if_pos (by rw [hlentot] at hb; omega)]
    rw [hshape, vpkReadString_append g.1 _ hnz hvalid]
    simp only []
    have hlen1 : (g.1 ++ 0 :: (dbs.flatten ++ 0 :: bs'.flatten)).length
        - (dbs.flatten ++ 0 :: bs'.flatten).length = g.1.length + 1 := by
      simp only [List.length_append, List.length_cons]
      omega
    rw [hlen1]
    rw [if_neg (by simpa using hne)]
    have hdirs := parseDirs_serialized c bound g.2 dbs bs'.flatten a
      (pos + (g.1.length + 1)) g.1 t hwd hds
      (by rw [hlentot] at hf; simp only [List.length_append, List.length_cons]; omega)
      (by rw [hlentot] at hb; simp only [List.length_append, List.length_cons]; omega)
    rw [hdirs]
    simp only []
    have hrest := ih bs' a (pos + (g.1.length + 1) + dbs.flatten.length + 1)
      (applyDirs g.1 t g.2) hw2 (fun q hq => hg q (by simp [hq]))
      (by rw [hlentot] at hf; omega)
      (by rw [hlentot] at hb; omega)
    rw [hrest]
    have happ : applyExts t (g :: gs') = applyExts (applyDirs g.1 t g.2) gs' := by
      simp only [applyExts, List.foldl_cons]
    rw [happ]
    have hpos : pos + (g.1.length + 1) + dbs.flatten.length + 1 + bs'.flatten.length
        = pos + (g.1 ++ 0 :: (dbs.flatten ++ 0 :: bs'.flatten)).length := by
      simp only [List.length_append, List.length_cons]
      omega
    rw [hpos]

/-!  ### The grouped write structure versus the flat tree  -/

theorem applyRecs_eq_foldl (ext dirp : List Nat) :
    ∀ (recs : List (FileRec E)) (t : VPKTree E),
      applyRecs ext dirp t recs = (recs.map (tripOf ext dirp)).foldl applyFlat t := by
  intro recs
  induction recs with
  | nil => intro t; rfl
  | cons r rs ih =>
    intro t
    simp only [applyRecs, List.foldl_cons, List.map_cons] at *
    rw [show applyRec ext dirp t r = applyFlat t (tripOf ext dirp r) from rfl]
    exact ih (applyFlat t (tripOf ext dirp r))

theorem applyDirs_eq_foldl (ext : List Nat) :
    ∀ (ds : List (List Nat × List (FileRec E))) (t : VPKTree E),
      applyDirs ext t ds = ((ds.map (fun d => d.2.map (tripOf ext d.1))).flatten).foldl
        applyFlat t := by
  intro ds
  induction ds with
  | nil => intro t; rfl
  | cons d ds' ih =>
    intro t
    simp only [applyDirs, List.foldl_cons, List.map_cons, List.flatten_cons,
      List.foldl_append] at *
    rw [applyRecs_eq_foldl]
    exact ih _

theorem applyExts_eq_foldl :
    ∀ (gs : List (List Nat × List (List Nat × List (FileRec E)))) (t : VPKTree E),
      applyExts t gs = (flatRecs gs).foldl applyFlat t := by
  intro gs
  induction gs with
  | nil => intro t; rfl
  | cons g gs' ih =>
    intro t
    simp only [applyExts, flatRecs, List.foldl_cons, List.map_cons, List.flatten_cons,
      List.foldl_append] at *
    rw [applyDirs_eq_foldl]
    exact ih _

theorem pushGrp_flat_perm {A B : Type} (k : List Nat) (a : A) (F : List Nat → A → B) :
    ∀ (m : List (List Nat × List A)),
      (((pushGrp m k a).map (fun d => d.2.map (F d.1))).flatten).Perm
        (F k a :: (m.map (fun d => d.2.map (F d.1))).flatten) := by
  intro m
  induction m with
  | nil => simp [pushGrp]
  | cons d tl ih =>
    obtain ⟨k', xs⟩ := d
    by_cases hk : k' = k
    · subst hk
      simp only [pushGrp, if_true, eq_self_iff_true, List.map_cons, List.flatten_cons,
        List.map_append, List.map_cons, List.map_nil]
      have : (xs.map (F k') ++ [F k' a]) ++ (tl.map (fun d => d.2.map (F d.1))).flatten
          = xs.map (F k') ++ F k' a :: (tl.map (fun d => d.2.map (F d.1))).flatten := by
        simp
      rw [this]
      exact List.perm_middle
    · simp only [pushGrp, if_neg hk, List.map_cons, List.flatten_cons]
      calc xs.map (F k') ++ ((pushGrp tl k a).map (fun d => d.2.map (F d.1))).flatten
          ~ xs.map (F k') ++ (F k a :: (tl.map (fun d => d.2.map (F d.1))).flatten) :=
            (ih).append_left _
        _ ~ F k a :: (xs.map (F k') ++ (tl.map (fun d => d.2.map (F d.1))).flatten) :=
            List.perm_middle

theorem pushGrp2_flat_perm (k1 k2 : List Nat) (a : FileRec E) :
    ∀ (gs : List (List Nat × List (List Nat × List (FileRec E)))),
      (flatRecs (pushGrp2 gs k1 k2 a)).Perm (tripOf k1 k2 a :: flatRecs gs) := by
  intro gs
  induction gs with
  | nil => simp [pushGrp2, flatRecs, tripOf]
  | cons g tl ih =>
    obtain ⟨k', m⟩ := g
    by_cases hk : k' = k1
    · subst hk
      simp only [pushGrp2, if_pos rfl, flatRecs, List.map_cons, List.flatten_cons]
      calc ((pushGrp m k2 a).map (fun d => d.2.map (tripOf k' d.1))).flatten ++
            (tl.map (fun g => (g.2.map (fun d => d.2.map (tripOf g.1 d.1))).flatten)).flatten
          ~ (tripOf k' k2 a :: (m.map (fun d => d.2.map (tripOf k' d.1))).flatten) ++
            (tl.map (fun g => (g.2.map (fun d => d.2.map (tripOf g.1 d.1))).flatten)).flatten :=
            (pushGrp_flat_perm k2 a (tripOf k') m).append_right _
        _ = tripOf k' k2 a :: ((m.map (fun d => d.2.map (tripOf k' d.1))).flatten ++
            (tl.map (fun g => (g.2.map (fun d => d.2.map (tripOf g.1 d.1))).flatten)).flatten) :=
            by simp
    · simp only [pushGrp2, if_neg hk, flatRecs, List.map_cons, List.flatten_cons]
      calc (m.map (fun d => d.2.map (tripOf k' d.1))).flatten ++
            ((pushGrp2 tl k1 k2 a).map
              (fun g => (g.2.map (fun d => d.2.map (tripOf g.1 d.1))).flatten)).flatten
          ~ (m.map (fun d => d.2.map (tripOf k' d.1))).flatten ++
            (tripOf k1 k2 a :: flatRecs tl) := (ih).append_left _
        _ ~ tripOf k1 k2 a :: ((m.map (fun d => d.2.map (tripOf k' d.1))).flatten ++
            flatRecs tl) := List.perm_middle

theorem foldl_pushGrp2_perm (pre : List (List Nat × List Nat)) :
    ∀ (l : List (List Nat × E)) (acc : List (List Nat × List (List Nat × List (FileRec E)))),
      (flatRecs (l.foldl
        (fun acc kv => pushGrp2 acc (rustExtension kv.1) (rustParent kv.1)
          (rustFileStem kv.1, kv.2, lookupKV pre kv.1)) acc)).Perm
      (flatRecs acc ++ l.map (fun kv => tripOf (rustExtension kv.1) (rustParent kv.1)
        (rustFileStem kv.1, kv.2, lookupKV pre kv.1))) := by
  intro l
  induction l with
  | nil => intro acc; simp
  | cons kv tl ih =>
    intro acc
    simp only [List.foldl_cons, List.map_cons]
    calc flatRecs (tl.foldl _ (pushGrp2 acc (rustExtension kv.1) (rustParent kv.1)
            (rustFileStem kv.1, kv.2, lookupKV pre kv.1)))
        ~ flatRecs (pushGrp2 acc (rustExtension kv.1) (rustParent kv.1)
            (rustFileStem kv.1, kv.2, lookupKV pre kv.1)) ++
          tl.map (fun kv => tripOf (rustExtension kv.1) (rustParent kv.1)
            (rustFileStem kv.1, kv.2, lookupKV pre kv.1)) := ih _
      _ ~ (tripOf (rustExtension kv.1) (rustParent kv.1)
            (rustFileStem kv.1, kv.2, lookupKV pre kv.1) :: flatRecs acc) ++
          tl.map (fun kv => tripOf (rustExtension kv.1) (rustParent kv.1)
            (rustFileStem kv.1, kv.2, lookupKV pre kv.1)) :=
          (pushGrp2_flat_perm _ _ _ acc).append_right _
      _ ~ flatRecs acc ++ tripOf (rustExtension kv.1) (rustParent kv.1)
            (rustFileStem kv.1, kv.2, lookupKV pre kv.1) ::
          tl.map (fun kv => tripOf (rustExtension kv.1) (rustParent kv.1)
            (rustFileStem kv.1, kv.2, lookupKV pre kv.1)) := List.perm_middle.symm

/-- The flattened grouped structure of a tree is a permutation of the tree's
triples, given that every key recomposes cleanly. -/
theorem flatRecs_groupTree_perm (t : VPKTree E)
    (hck : ∀ p ∈ t.files, CleanKey p.1) :
    (flatRecs (groupTree t)).Perm (treeTrips t) := by
  have h1 := foldl_pushGrp2_perm t.preload t.files []
  have h2 : flatRecs (E := E) [] = [] := rfl
  rw [groupTree]
  refine h1.trans ?_
  rw [h2, List.nil_append]
  have h3 : t.files.map (fun kv => tripOf (rustExtension kv.1) (rustParent kv.1)
      (rustFileStem kv.1, kv.2, lookupKV t.preload kv.1)) = treeTrips t := by
    rw [treeTrips]
    refine List.map_congr_left (fun kv hkv => ?_)
    obtain ⟨-, -, -, -, hrec⟩ := hck kv hkv
    simp only [tripOf]
    exact Prod.ext hrec rfl
  rw [h3]

/-- `lookupKV` is the first matching entry. -/
theorem lookupKV_eq_find [DecidableEq K] :
    ∀ (l : List (K × V)) (k : K),
      lookupKV l k = (l.find? (fun p => decide (p.1 = k))).map (·.2) := by
  intro l
  induction l with
  | nil => intro k; rfl
  | cons a tl ih =>
    obtain ⟨ak, av⟩ := a
    intro k
    by_cases h : ak = k
    · simp only [lookupKV, if_pos h]
      rw [@List.find?_cons_of_pos _ (fun p => decide (p.1 = k)) (ak, av) tl (by simp [h])]
      rfl
    · simp only [lookupKV, if_neg h]
      rw [@List.find?_cons_of_neg _ (fun p => decide (p.1 = k)) (ak, av) tl (by simp [h])]
      exact ih k

theorem lookupKV_none_iff [DecidableEq K] :
    ∀ (l : List (K × V)) (k : K), lookupKV l k = none ↔ k ∉ l.map Prod.fst := by
  intro l
  induction l with
  | nil => intro k; simp [lookupKV]
  | cons a tl ih =>
    obtain ⟨ak, av⟩ := a
    intro k
    by_cases h : ak = k
    · simp [lookupKV, if_pos h, h]
    · simp only [lookupKV, if_neg h, List.map_cons, List.mem_cons]
      rw [ih k]
      constructor
      · intro hn hc
        rcases hc with hc | hc
        · exact h hc.symm
        · exact hn hc
      · intro hn hc
        exact hn (Or.inr hc)

theorem lookupKV_mem [DecidableEq K] :
    ∀ (l : List (K × V)) (k : K) (v : V), lookupKV l k = some v → (k, v) ∈ l := by
  intro l
  induction l with
  | nil => intro k v h; cases h
  | cons a tl ih =>
    obtain ⟨ak, av⟩ := a
    intro k v h
    rw [lookupKV] at h
    by_cases hk : ak = k
    · rw [if_pos hk] at h
      obtain rfl := Option.some.inj h
      subst hk
      exact List.mem_cons_self _ _
    · rw [if_neg hk] at h
      exact List.mem_cons_of_mem _ (ih k v h)

/-- `find?` is permutation-invariant when at most one element satisfies the
predicate. -/
theorem find_perm {A : Type} {p : A → Bool} {l l' : List A} (hp : l.Perm l')
    (hu : ∀ x ∈ l, ∀ y ∈ l, p x = true → p y = true → x = y) :
    l.find? p = l'.find? p := by
  rcases hx : l.find? p with - | x
  · rcases hy : l'.find? p with - | y
    · rfl
    · exfalso
      rw [List.find?_eq_none] at hx
      exact hx y (hp.mem_iff.mpr (List.mem_of_find?_eq_some hy)) (List.find?_some hy)
  · have hxl : x ∈ l := List.mem_of_find?_eq_some hx
    have hpx : p x = true := List.find?_some hx
    have : ∃ y ∈ l', p y = true := ⟨x, hp.mem_iff.mp hxl, hpx⟩
    rcases hy : l'.find? p with - | y
    · rw [List.find?_eq_none] at hy
      obtain ⟨y, hyl, hpy⟩ := this
      exact absurd hpy (hy y hyl)
    · have hyl : y ∈ l := hp.mem_iff.mpr (List.mem_of_find?_eq_some hy)
      have hpy : p y = true := List.find?_some hy
      rw [hu x hxl y hyl hpx hpy]

/-- Looking a key up after folding `applyFlat` over triples with pairwise
distinct keys: the unique triple with that key answers both maps. -/
theorem foldl_applyFlat_lookup :
    ∀ (tr : List (List Nat × E × Option (List Nat))),
      (tr.map (fun x => x.1)).Nodup →
      ∀ (t0 : VPKTree E) (k : List Nat),
        lookupKV ((tr.foldl applyFlat t0).files) k =
          (match tr.find? (fun x => decide (x.1 = k)) with
           | some x => some x.2.1
           | none => lookupKV t0.files k) ∧
        lookupKV ((tr.foldl applyFlat t0).preload) k =
          (match tr.find? (fun x => decide (x.1 = k)) with
           | some x => match x.2.2 with
             | some pl => some pl
             | none => lookupKV t0.preload k
           | none => lookupKV t0.preload k) := by
  intro tr
  induction tr with
  | nil => intro _ t0 k; exact ⟨rfl, rfl⟩
  | cons x tl ih =>
    intro hnd t0 k
    rw [List.map_cons, List.nodup_cons] at hnd
    obtain ⟨hx, hnd'⟩ := hnd
    obtain ⟨ihf, ihp⟩ := ih hnd' (applyFlat t0 x) k
    by_cases hk : x.1 = k
    · subst hk
      have hfind : tl.find? (fun y => decide (y.1 = x.1)) = none := by
        rw [List.find?_eq_none]
        intro y hy
        simp only [decide_eq_true_eq]
        intro hyx
        exact hx (hyx ▸ List.mem_map_of_mem (fun z => z.1) hy)
      have hfc : List.find? (fun y => decide (y.1 = x.1)) (x :: tl) = some x :=
        List.find?_cons_of_pos _ (by simp)
      rw [List.foldl_cons]
      constructor
      · rw [ihf, hfind, hfc]
        simp [applyFlat, lookup_insKV]
      · rw [ihp, hfind, hfc]
        rcases hpl : x.2.2 with - | pl
        · simp [applyFlat, hpl]
        · simp [applyFlat, hpl, lookup_insKV]
    · rw [List.foldl_cons]
      have hfc : List.find? (fun y => decide (y.1 = k)) (x :: tl)
          = List.find? (fun y => decide (y.1 = k)) tl :=
        List.find?_cons_of_neg _ (by simp [hk])
      constructor
      · rw [ihf, hfc]
        rcases hfind : tl.find? (fun y => decide (y.1 = k)) with - | y
        · rw [hfind]
          simp [applyFlat, lookup_insKV, hk]
        · rw [hfind]
      · rw [ihp, hfc]
        rcases hfind : tl.find? (fun y => decide (y.1 = k)) with - | y
        · rw [hfind]
          rcases hpl : x.2.2 with - | pl
          · simp [applyFlat, hpl]
          · simp [applyFlat, hpl, lookup_insKV, hk]
        · rw [hfind]
          show (match y.2.2 with
                | some pl => some pl
                | none => lookupKV (applyFlat t0 x).preload k)
              = (match y.2.2 with
                | some pl => some pl
                | none => lookupKV t0.preload k)
          rcases y.2.2 with - | pl
          · rcases hpl : x.2.2 with - | pl'
            · simp [applyFlat, hpl]
            · simp [applyFlat, hpl, lookup_insKV, hk]
          · rfl

theorem mapM_writeFileRec_ok (c : DirEntryCodec E) :
    ∀ (recs : List (FileRec E)), (∀ r ∈ recs, RecOK c r) →
      ∃ ws, recs.mapM (writeFileRec c) = .ok ws := by
  intro recs
  induction recs with
  | nil => intro _; exact ⟨[], rfl⟩
  | cons r rs ih =>
    intro h
    obtain ⟨-, ⟨wb, hwb, -⟩, -⟩ := h r (by simp)
    obtain ⟨ws, hws⟩ := ih (fun q hq => h q (by simp [hq]))
    refine ⟨(writeString r.1 ++ wb ++ (r.2.2).getD []) :: ws, ?_⟩
    rw [List.mapM_cons]
    rw [show writeFileRec c r = .ok (writeString r.1 ++ wb ++ (r.2.2).getD []) from by
      unfold writeFileRec
      rw [hwb]
      rfl]
    rw [hws]
    rfl

theorem mapM_writeDirGrp_ok (c : DirEntryCodec E) :
    ∀ (ds : List (List Nat × List (FileRec E))), (∀ d ∈ ds, ∀ r ∈ d.2, RecOK c r) →
      ∃ bs, ds.mapM (writeDirGrp c) = .ok bs := by
  intro ds
  induction ds with
  | nil => intro _; exact ⟨[], rfl⟩
  | cons d ds' ih =>
    intro h
    obtain ⟨recs, hrecs⟩ := mapM_writeFileRec_ok c d.2 (h d (by simp))
    obtain ⟨bs, hbs⟩ := ih (fun q hq => h q (by simp [hq]))
    refine ⟨(writeString d.1 ++ recs.flatten ++ [0]) :: bs, ?_⟩
    rw [List.mapM_cons]
    rw [show writeDirGrp c d = .ok (writeString d.1 ++ recs.flatten ++ [0]) from by
      unfold writeDirGrp
      rw [hrecs]
      rfl]
    rw [hbs]
    rfl

theorem mapM_writeExtGrp_ok (c : DirEntryCodec E) :
    ∀ (gs : List (List Nat × List (List Nat × List (FileRec E)))),
      (∀ g ∈ gs, ∀ d ∈ g.2, ∀ r ∈ d.2, RecOK c r) →
      ∃ bs, gs.mapM (writeExtGrp c) = .ok bs := by
  intro gs
  induction gs with
  | nil => intro _; exact ⟨[], rfl⟩
  | cons g gs' ih =>
    intro h
    obtain ⟨ds, hds⟩ := mapM_writeDirGrp_ok c g.2 (h g (by simp))
    obtain ⟨bs, hbs⟩ := ih (fun q hq => h q (by simp [hq]))
    refine ⟨(writeString g.1 ++ ds.flatten ++ [0]) :: bs, ?_⟩
    rw [List.mapM_cons]
    rw [show writeExtGrp c g = .ok (writeString g.1 ++ ds.flatten ++ [0]) from by
      unfold writeExtGrp
      rw [hds]
      rfl]
    rw [hbs]
    rfl

theorem pushGrp_forall {A : Type} (Q : List Nat → Prop) (R : A → Prop)
    (k : List Nat) (a : A) (hk : Q k) (ha : R a) :
    ∀ (m : List (List Nat × List A)), (∀ d ∈ m, Q d.1 ∧ ∀ r ∈ d.2, R r) →
      ∀ d ∈ pushGrp m k a, Q d.1 ∧ ∀ r ∈ d.2, R r := by
  intro m
  induction m with
  | nil =>
    intro _ d hd
    rw [pushGrp, List.mem_singleton] at hd
    subst hd
    refine ⟨hk, fun r hr => ?_⟩
    rw [List.mem_singleton] at hr
    exact hr ▸ ha
  | cons d0 tl ih =>
    intro hm d hd
    obtain ⟨k', xs⟩ := d0
    rw [pushGrp] at hd
    by_cases hke : k' = k
    · rw [if_pos hke] at hd
      rcases List.mem_cons.mp hd with hd | hd
      · subst hd
        obtain ⟨hq, hr⟩ := hm (k', xs) (by simp)
        refine ⟨hq, fun r hr2 => ?_⟩
        rcases List.mem_append.mp hr2 with h2 | h2
        · exact hr r h2
        · rw [List.mem_singleton] at h2
          exact h2 ▸ ha
      · exact hm d (List.mem_cons_of_mem _ hd)
    · rw [if_neg hke] at hd
      rcases List.mem_cons.mp hd with hd | hd
      · exact hm d (hd ▸ by simp)
      · exact ih (fun q hq => hm q (List.mem_cons_of_mem _ hq)) d hd

theorem pushGrp2_forall (Q1 Q2 : List Nat → Prop) (R : FileRec E → Prop)
    (k1 k2 : List Nat) (a : FileRec E) (hk1 : Q1 k1) (hk2 : Q2 k2) (ha : R a) :
    ∀ (gs : List (List Nat × List (List Nat × List (FileRec E)))),
      (∀ g ∈ gs, Q1 g.1 ∧ ∀ d ∈ g.2, Q2 d.1 ∧ ∀ r ∈ d.2, R r) →
      ∀ g ∈ pushGrp2 gs k1 k2 a, Q1 g.1 ∧ ∀ d ∈ g.2, Q2 d.1 ∧ ∀ r ∈ d.2, R r := by
  intro gs
  induction gs with
  | nil =>
    intro _ g hg
    rw [pushGrp2, List.mem_singleton] at hg
    subst hg
    refine ⟨hk1, fun d hd => ?_⟩
    rw [List.mem_singleton] at hd
    subst hd
    refine ⟨hk2, fun r hr => ?_⟩
    rw [List.mem_singleton] at hr
    exact hr ▸ ha
  | cons g0 tl ih =>
    intro hm g hg
    obtain ⟨k', m⟩ := g0
    rw [pushGrp2] at hg
    by_cases hke : k' = k1
    · rw [if_pos hke] at hg
      rcases List.mem_cons.mp hg with hg | hg
      · subst hg
        obtain ⟨hq, hd⟩ := hm (k', m) (by simp)
        exact ⟨hq, pushGrp_forall Q2 R k2 a hk2 ha m hd⟩
      · exact hm g (List.mem_cons_of_mem _ hg)
    · rw [if_neg hke] at hg
      rcases List.mem_cons.mp hg with hg | hg
      · exact hm g (hg ▸ by simp)
      · exact ih (fun q hq => hm q (List.mem_cons_of_mem _ hq)) g hg

theorem groupTree_forall (Q1 Q2 : List Nat → Prop) (R : FileRec E → Prop)
    (pre : List (List Nat × List Nat)) :
    ∀ (l : List (List Nat × E)) (acc : List (List Nat × List (List Nat × List (FileRec E)))),
      (∀ p ∈ l, Q1 (rustExtension p.1) ∧ Q2 (rustParent p.1) ∧
        R (rustFileStem p.1, p.2, lookupKV pre p.1)) →
      (∀ g ∈ acc, Q1 g.1 ∧ ∀ d ∈ g.2, Q2 d.1 ∧ ∀ r ∈ d.2, R r) →
      ∀ g ∈ l.foldl
        (fun acc kv => pushGrp2 acc (rustExtension kv.1) (rustParent kv.1)
          (rustFileStem kv.1, kv.2, lookupKV pre kv.1)) acc,
        Q1 g.1 ∧ ∀ d ∈ g.2, Q2 d.1 ∧ ∀ r ∈ d.2, R r := by
  intro l
  induction l with
  | nil => intro acc _ hacc; exact hacc
  | cons p tl ih =>
    intro acc hl hacc
    rw [List.foldl_cons]
    obtain ⟨h1, h2, h3⟩ := hl p (by simp)
    exact ih _ (fun q hq => hl q (by simp [hq]))
      (pushGrp2_forall Q1 Q2 R _ _ _ h1 h2 h3 acc hacc)

/-- Keys of the triples view are the tree's file keys. -/
theorem treeTrips_keys (t : VPKTree E) :
    (treeTrips t).map (fun x => x.1) = t.files.map Prod.fst := by
  rw [treeTrips, List.map_map]
  rfl

/-- `find?` through the triples view. -/
theorem treeTrips_find (t : VPKTree E) (k : List Nat) :
    (treeTrips t).find? (fun x => decide (x.1 = k)) =
      (t.files.find? (fun p => decide (p.1 = k))).map
        (fun kv => (kv.1, kv.2, lookupKV t.preload kv.1)) := by
  rw [treeTrips, List.find?_map]
  rfl

/-- Master round trip: under clean keys, distinct keys, codec-faithful
entries and consistent preload data, writing a tree and parsing the written
bytes back reproduces both maps (up to `HashMap` iteration order, hence
stated through lookups). -/
theorem vpkTreeWrite_read (c : DirEntryCodec E) (t : VPKTree E)
    (hnd : (t.files.map Prod.fst).Nodup)
    (hp : ∀ p ∈ t.files, CleanKey p.1 ∧
      (∃ wb, c.writeBytes p.2 = .ok wb ∧ CodecRT c p.2 wb) ∧
      c.preloadLen p.2 = ((lookupKV t.preload p.1).getD []).length ∧
      (lookupKV t.preload p.1 = none ↔ c.preloadLen p.2 = 0))
    (ho : ∀ q ∈ t.preload, (lookupKV t.files q.1).isSome = true) :
    ∃ tb, vpkTreeWrite c t = .ok tb ∧
      ∀ (bound fuel pos : Nat), tb.length < fuel → pos + tb.length ≤ bound →
        ∃ t', parseExts c bound fuel tb pos .empty = .ok (t', [], pos + tb.length) ∧
          (∀ k, lookupKV t'.files k = lookupKV t.files k) ∧
          (∀ k, lookupKV t'.preload k = lookupKV t.preload k) := by
  have hgok : ∀ g ∈ groupTree t, ValidStr g.1 ∧
      ∀ d ∈ g.2, ValidStr d.1 ∧ ∀ r ∈ d.2, RecOK c r := by
    refine groupTree_forall ValidStr ValidStr (RecOK c) t.preload t.files [] ?_
      (by intro g hg; cases hg)
    intro p hpm
    obtain ⟨⟨hext, hpar, hstem, -, -⟩, hwb, hlen, hiff⟩ := hp p hpm
    refine ⟨hext, hpar, hstem, hwb, ?_⟩
    rcases hpre : lookupKV t.preload p.1 with - | pl
    · simp only []
      exact hiff.mp hpre
    · simp only []
      rw [hpre] at hlen
      simp only [Option.getD_some] at hlen
      refine ⟨hlen, ?_⟩
      by_contra hc
      push_neg at hc
      have h0 : pl.length = 0 := by omega
      have := hiff.mpr (by rw [hlen]; exact h0)
      rw [hpre] at this
      cases this
  obtain ⟨bs, hbs⟩ := mapM_writeExtGrp_ok c (groupTree t)
    (fun g hg d hd r hr => ((hgok g hg).2 d hd).2 r hr)
  refine ⟨bs.flatten, ?_, ?_⟩
  · unfold vpkTreeWrite
    rw [hbs]
    rfl
  intro bound fuel pos hfuel hbound
  have hparse := parseExts_serialized c bound (groupTree t) bs fuel pos .empty
    hbs hgok hfuel hbound
  refine ⟨applyExts .empty (groupTree t), hparse, ?_, ?_⟩
  all_goals {
    have hck : ∀ p ∈ t.files, CleanKey p.1 := fun p hpm => (hp p hpm).1
    have hperm := flatRecs_groupTree_perm t hck
    have hkeysperm := hperm.map (fun x => x.1)
    have htknd : ((treeTrips t).map (fun x => x.1)).Nodup := by
      rw [treeTrips_keys]
      exact hnd
    have hfnd : ((flatRecs (groupTree t)).map (fun x => x.1)).Nodup :=
      (hkeysperm.nodup_iff).mpr htknd
    intro k
    have hlk := foldl_applyFlat_lookup (flatRecs (groupTree t)) hfnd .empty k
    have hfind : (flatRecs (groupTree t)).find? (fun x => decide (x.1 = k)) =
        (treeTrips t).find? (fun x => decide (x.1 = k)) := by
      refine find_perm hperm ?_
      intro x hx y hy hpx hpy
      simp only [decide_eq_true_eq] at hpx hpy
      exact List.inj_on_of_nodup_map hfnd hx hy (by rw [hpx, hpy])
    rw [applyExts_eq_foldl]
    rcases hlk with ⟨hlf, hlp⟩
    first
      | (rw [hlf, hfind, treeTrips_find]
         rcases hkv : t.files.find? (fun p => decide (p.1 = k)) with - | kv
         · rw [lookupKV_eq_find t.files k, hkv]
           rfl
         · rw [lookupKV_eq_find t.files k, hkv]
           rfl)
      | (rw [hlp, hfind, treeTrips_find]
         rcases hkv : t.files.find? (fun p => decide (p.1 = k)) with - | kv
         · rw [hkv]
           have hfn : lookupKV t.files k = none := by
             rw [lookupKV_eq_find t.files k, hkv]
             rfl
           have hpn : lookupKV t.preload k = none := by
             rcases hpq : lookupKV t.preload k with - | v
             · rfl
             · have hmem := lookupKV_mem t.preload k v hpq
               have := ho (k, v) hmem
               simp only [] at this
               rw [hfn] at this
               cases this
           rw [hpn]
           rfl
         · rw [hkv]
           have hk1 : kv.1 = k := by
             have := List.find?_some hkv
             simpa using this
           show (match lookupKV t.preload kv.1 with
                 | some pl => some pl
                 | none => lookupKV (VPKTree.empty (E := E)).preload k) =
               lookupKV t.preload k
           rcases hpq : lookupKV t.preload k with - | pl
           · rw [hk1, hpq]
             rfl
           · rw [hk1, hpq]) }

theorem v1HeaderFrom_ok (h : VPKHeaderV1) (rest : List Nat)
    (hsig : h.signature = VPK_SIGNATURE) (hver : h.version = VPK_VERSION_V1)
    (hts : h.tree_size < 4294967296) :
    v1HeaderFrom ((natLE 4 h.signature ++ natLE 4 h.version ++ natLE 4 h.tree_size) ++ rest)
      = .ok (h, rest) := by
  have e1 : readU32? (natLE 4 h.signature ++ (natLE 4 h.version ++ (natLE 4 h.tree_size ++ rest)))
      = some (h.signature, _) :=
    readUN_natLE 4 h.signature _ (by rw [hsig]; norm_num [VPK_SIGNATURE])
  have e2 : readU32? (natLE 4 h.version ++ (natLE 4 h.tree_size ++ rest))
      = some (h.version, _) :=
    readUN_natLE 4 h.version _ (by rw [hver]; norm_num [VPK_VERSION_V1])
  have e3 : readU32? (natLE 4 h.tree_size ++ rest) = some (h.tree_size, rest) :=
    readUN_natLE 4 h.tree_size rest (by norm_num [hts])
  unfold v1HeaderFrom
  simp only [List.append_assoc]
  rw [e1]
  simp only [liftRead, bind, Except.bind,
    if_neg (by simp [hsig] : ¬ h.signature ≠ VPK_SIGNATURE)]
  rw [e2]
  simp only [liftRead, bind, Except.bind,
    if_neg (by simp [hver] : ¬ h.version ≠ VPK_VERSION_V1)]
  rw [e3]
  simp only [liftRead, bind, Except.bind]
  rfl

theorem respawnHeaderFrom_ok (h : VPKHeaderRespawn) (rest : List Nat)
    (hsig : h.signature = VPK_SIGNATURE) (hver : h.version = VPK_VERSION_REVPK)
    (hts : h.tree_size < 4294967296) (hunk : h.unknown = 0) :
    respawnHeaderFrom ((natLE 4 h.signature ++ natLE 4 h.version ++ natLE 4 h.tree_size ++
      natLE 4 h.unknown) ++ rest) = .ok (h, rest) := by
  have e1 : readU32? (natLE 4 h.signature ++ (natLE 4 h.version ++ (natLE 4 h.tree_size ++
      (natLE 4 h.unknown ++ rest)))) = some (h.signature, _) :=
    readUN_natLE 4 h.signature _ (by rw [hsig]; norm_num [VPK_SIGNATURE])
  have e2 : readU32? (natLE 4 h.version ++ (natLE 4 h.tree_size ++ (natLE 4 h.unknown ++ rest)))
      = some (h.version, _) :=
    readUN_natLE 4 h.version _ (by rw [hver]; norm_num [VPK_VERSION_REVPK])
  have e3 : readU32? (natLE 4 h.tree_size ++ (natLE 4 h.unknown ++ rest))
      = some (h.tree_size, _) :=
    readUN_natLE 4 h.tree_size _ (by norm_num [hts])
  have e4 : readU32? (natLE 4 h.unknown ++ rest) = some (h.unknown, rest) :=
    readUN_natLE 4 h.unknown rest (by rw [hunk]; norm_num)
  unfold respawnHeaderFrom
  simp only [List.append_assoc]
  rw [e1]
  simp only [liftRead, bind, Except.bind,
    if_neg (by simp [hsig] : ¬ h.signature ≠ VPK_SIGNATURE)]
  rw [e2]
  simp only [liftRead, bind, Except.bind,
    if_neg (by simp [hver] : ¬ h.version ≠ VPK_VERSION_REVPK)]
  rw [e3]
  simp only [liftRead, bind, Except.bind]
  rw [e4]
  simp only [liftRead, bind, Except.bind,
    if_neg (by simp [hunk] : ¬ h.unknown ≠ 0)]
  rfl

/-- The V1 model round trip: write a safe model, read the output back. -/
theorem v1_write_read (v : VPKVersion1) (hs : V1RoundSafe v) :
    ∃ out v', v1WriteDir v = .ok out ∧ v1FromFile out = .ok v' ∧
      v'.header = v.header ∧
      (∀ k, lookupKV v'.tree.files k = lookupKV v.tree.files k) ∧
      (∀ k, lookupKV v'.tree.preload k = lookupKV v.tree.preload k) := by
  obtain ⟨hsig, hver, hts, hnd, hpp, ho, hwl⟩ := hs
  have hp : ∀ p ∈ v.tree.files, CleanKey p.1 ∧
      (∃ wb, v1Codec.writeBytes p.2 = .ok wb ∧ CodecRT v1Codec p.2 wb) ∧
      v1Codec.preloadLen p.2 = ((lookupKV v.tree.preload p.1).getD []).length ∧
      (lookupKV v.tree.preload p.1 = none ↔ v1Codec.preloadLen p.2 = 0) := by
    intro p hpm
    obtain ⟨hck, heok, hplen, hpiff⟩ := hpp p hpm
    obtain ⟨hw, hr⟩ := v1Entry_rt p.2 heok
    exact ⟨hck, ⟨_, hw, hr⟩, hplen, hpiff⟩
  obtain ⟨tb, htb, hread⟩ := vpkTreeWrite_read v1Codec v.tree hnd hp ho
  have hwl' : tb.length ≤ v.header.tree_size := by
    rw [htb] at hwl
    exact hwl
  obtain ⟨t', hparse, hlf, hlp⟩ := hread (12 + v.header.tree_size) (tb.length + 1) 12
    (by omega) (by omega)
  have hhw : v1HeaderWrite v.header = .ok (natLE 4 v.header.signature ++
      natLE 4 v.header.version ++ natLE 4 v.header.tree_size) := by
    unfold v1HeaderWrite
    simp only [if_neg (by simp [hsig] : ¬ v.header.signature ≠ VPK_SIGNATURE),
      if_neg (by simp [hver] : ¬ v.header.version ≠ VPK_VERSION_V1), bind, Except.bind]
    rfl
  have hhb : (natLE 4 v.header.signature ++ natLE 4 v.header.version ++
      natLE 4 v.header.tree_size).length = 12 := by
    simp [natLE_length]
  refine ⟨(natLE 4 v.header.signature ++ natLE 4 v.header.version ++
    natLE 4 v.header.tree_size) ++ tb, ⟨v.header, t'⟩, ?_, ?_, rfl, hlf, hlp⟩
  · unfold v1WriteDir
    rw [hhw]
    simp only [bind, Except.bind]
    rw [htb]
    rfl
  · unfold v1FromFile
    rw [v1HeaderFrom_ok v.header tb hsig hver hts]
    simp only [bind, Except.bind]
    have hlen : ((natLE 4 v.header.signature ++ natLE 4 v.header.version ++
        natLE 4 v.header.tree_size) ++ tb).length - tb.length = 12 := by
      simp [natLE_length]
      omega
    rw [hlen]
    have hdrop : ((natLE 4 v.header.signature ++ natLE 4 v.header.version ++
        natLE 4 v.header.tree_size) ++ tb).drop 12 = tb := by
      rw [show (12 : Nat) = (natLE 4 v.header.signature ++ natLE 4 v.header.version ++
        natLE 4 v.header.tree_size).length from hhb.symm]
      exact List.drop_left _ _
    unfold vpkTreeFrom vpkTreeFromFuel
    rw [hdrop, hparse]
    rfl

/-- A successful Respawn entry write and the decode of the written bytes. -/
theorem respawnEntry_rt (e : VPKDirectoryEntryRespawn) (he : RespawnEntryOK e) :
    respawnEntryWrite e = .ok (natLE 4 e.crc ++ natLE 2 e.preload_length ++
      (e.file_parts.map respawnPartBytes).flatten ++ natLE 2 VPK_ENTRY_TERMINATOR) ∧
    ∀ rest, respawnEntryFrom ((natLE 4 e.crc ++ natLE 2 e.preload_length ++
      (e.file_parts.map respawnPartBytes).flatten ++ natLE 2 VPK_ENTRY_TERMINATOR) ++ rest) =
      .ok (e, rest) := by
  obtain ⟨h1, h2, h3⟩ := he
  refine ⟨rfl, fun rest => ?_⟩
  have e1 : readU32? (natLE 4 e.crc ++ (natLE 2 e.preload_length ++
      ((e.file_parts.map respawnPartBytes).flatten ++ (natLE 2 VPK_ENTRY_TERMINATOR ++ rest))))
      = some (e.crc, _) := readUN_natLE 4 e.crc _ (by norm_num [h1])
  have e2 : readU16? (natLE 2 e.preload_length ++
      ((e.file_parts.map respawnPartBytes).flatten ++ (natLE 2 VPK_ENTRY_TERMINATOR ++ rest)))
      = some (e.preload_length, _) := readUN_natLE 2 e.preload_length _ (by norm_num [h2])
  have e3 := respawnPartsLoop_rt e.file_parts h3 rest
  unfold respawnEntryFrom
  simp only [List.append_assoc]
  rw [e1]
  simp only [liftRead, bind, Except.bind]
  rw [e2]
  simp only [liftRead, bind, Except.bind]
  rw [show (e.file_parts.map respawnPartBytes).flatten ++ (natLE 2 VPK_ENTRY_TERMINATOR ++ rest)
    = (e.file_parts.map respawnPartBytes).flatten ++ natLE 2 VPK_ENTRY_TERMINATOR ++ rest from by
      simp [List.append_assoc]]
  rw [e3]
  rfl


/-- The Respawn model round trip: write a safe model, read the output back
(the CAM map of the reread model starts empty). -/
theorem respawn_write_read (v : VPKRespawn) (hs : RespawnRoundSafe v) :
    ∃ out v', respawnWriteDir v = .ok out ∧ respawnFromFile out = .ok v' ∧
      v'.header = v.header ∧
      (∀ k, lookupKV v'.tree.files k = lookupKV v.tree.files k) ∧
      (∀ k, lookupKV v'.tree.preload k = lookupKV v.tree.preload k) ∧
      v'.archive_cams = [] := by
  obtain ⟨hsig, hver, hts, hunk, hnd, hpp, ho, hwl⟩ := hs
  have hp : ∀ p ∈ v.tree.files, CleanKey p.1 ∧
      (∃ wb, respawnCodec.writeBytes p.2 = .ok wb ∧ CodecRT respawnCodec p.2 wb) ∧
      respawnCodec.preloadLen p.2 = ((lookupKV v.tree.preload p.1).getD []).length ∧
      (lookupKV v.tree.preload p.1 = none ↔ respawnCodec.preloadLen p.2 = 0) := by
    intro p hpm
    obtain ⟨hck, heok, hplen, hpiff⟩ := hpp p hpm
    obtain ⟨hw, hr⟩ := respawnEntry_rt p.2 heok
    exact ⟨hck, ⟨_, hw, hr⟩, hplen, hpiff⟩
  obtain ⟨tb, htb, hread⟩ := vpkTreeWrite_read respawnCodec v.tree hnd hp ho
  have hwl' : tb.length ≤ v.header.tree_size := by
    rw [htb] at hwl
    exact hwl
  obtain ⟨t', hparse, hlf, hlp⟩ := hread (16 + v.header.tree_size) (tb.length + 1) 16
    (by omega) (by omega)
  have hhw : respawnHeaderWrite v.header = .ok (natLE 4 v.header.signature ++
      natLE 4 v.header.version ++ natLE 4 v.header.tree_size ++ natLE 4 v.header.unknown) := by
    unfold respawnHeaderWrite
    simp only [if_neg (by simp [hsig] : ¬ v.header.signature ≠ VPK_SIGNATURE),
      if_neg (by simp [hver] : ¬ v.header.version ≠ VPK_VERSION_REVPK), bind, Except.bind]
    rfl
  have hhb : (natLE 4 v.header.signature ++ natLE 4 v.header.version ++
      natLE 4 v.header.tree_size ++ natLE 4 v.header.unknown).length = 16 := by
    simp [natLE_length]
  refine ⟨(natLE 4 v.header.signature ++ natLE 4 v.header.version ++
    natLE 4 v.header.tree_size ++ natLE 4 v.header.unknown) ++ tb,
    ⟨v.header, t', []⟩, ?_, ?_, rfl, hlf, hlp, rfl⟩
  · unfold respawnWriteDir
    rw [hhw]
    simp only [bind, Except.bind]
    rw [htb]
    rfl
  · unfold respawnFromFile
    rw [respawnHeaderFrom_ok v.header tb hsig hver hts hunk]
    simp only [bind, Except.bind]
    have hlen : ((natLE 4 v.header.signature ++ natLE 4 v.header.version ++
        natLE 4 v.header.tree_size ++ natLE 4 v.header.unknown) ++ tb).length - tb.length
        = 16 := by
      simp [natLE_length]
      omega
    rw [hlen]
    have hdrop : ((natLE 4 v.header.signature ++ natLE 4 v.header.version ++
        natLE 4 v.header.tree_size ++ natLE 4 v.header.unknown) ++ tb).drop 16 = tb := by
      rw [show (16 : Nat) = (natLE 4 v.header.signature ++ natLE 4 v.header.version ++
        natLE 4 v.header.tree_size ++ natLE 4 v.header.unknown).length from hhb.symm]
      exact List.drop_left _ _
    unfold vpkTreeFrom vpkTreeFromFuel
    rw [hdrop, hparse]
    rfl

/-!  ### The step budget never runs out at the default  -/

theorem vpkReadString_error {b : List Nat} {e : Err} (h : vpkReadString b = .error e) :
    e = .utf8 := by
  unfold vpkReadString at h
  split at h
  · exact Except.noConfusion h
  · exact (Except.error.inj h).symm

theorem respawnPartsLoop_noFuel :
    ∀ (n : Nat) (b : List Nat), b.length ≤ n → respawnPartsLoop b ≠ .error .noFuel := by
  intro n
  induction n with
  | zero =>
    intro b hb h
    have hb0 : b = [] := List.length_eq_zero.mp (by omega)
    subst hb0
    rw [respawnPartsLoop] at h
    split at h
    · exact Err.noConfusion (Except.error.inj h)
    next idx b1 hr0 =>
      obtain ⟨-, -, l0⟩ := readUN_some hr0
      simp at l0
  | succ n ih =>
    intro b hb h
    rw [respawnPartsLoop] at h
    split at h
    · exact Err.noConfusion (Except.error.inj h)
    next idx b1 hr0 =>
      obtain ⟨-, e0, l0⟩ := readUN_some hr0
      split at h
      · exact Except.noConfusion h
      · split at h
        · exact Err.noConfusion (Except.error.inj h)
        next lf b2 hr1 =>
          split at h
          · exact Err.noConfusion (Except.error.inj h)
          next tf b3 hr2 =>
            split at h
            · exact Err.noConfusion (Except.error.inj h)
            next eo b4 hr3 =>
              split at h
              · exact Err.noConfusion (Except.error.inj h)
              next el b5 hr4 =>
                split at h
                · exact Err.noConfusion (Except.error.inj h)
                next elu b6 hr5 =>
                  split at h
                  next e heq =>
                    obtain ⟨-, e1, l1⟩ := readUN_some hr1
                    obtain ⟨-, e2, l2⟩ := readUN_some hr2
                    obtain ⟨-, e3, l3⟩ := readUN_some hr3
                    obtain ⟨-, e4, l4⟩ := readUN_some hr4
                    obtain ⟨-, e5, l5⟩ := readUN_some hr5
                    have hb6 : b6.length ≤ n := by
                      subst e0 e1 e2 e3 e4 e5
                      simp only [List.length_drop] at *
                      omega
                    have he : e = .noFuel := Except.error.inj h
                    subst he
                    exact ih b6 hb6 heq
                  next parts2 b7 hrec => exact Except.noConfusion h

theorem v1EntryFrom_noFuel (b : List Nat) : v1EntryFrom b ≠ .error .noFuel := by
  intro h
  unfold v1EntryFrom at h
  rcases hr1 : readU32? b with - | ⟨crc, b1⟩ <;> rw [hr1] at h <;>
    simp only [liftRead, bind, Except.bind] at h
  · exact Err.noConfusion (Except.error.inj h)
  rcases hr2 : readU16? b1 with - | ⟨pl, b2⟩ <;> rw [hr2] at h <;>
    simp only [liftRead, bind, Except.bind] at h
  · exact Err.noConfusion (Except.error.inj h)
  rcases hr3 : readU16? b2 with - | ⟨ai, b3⟩ <;> rw [hr3] at h <;>
    simp only [liftRead, bind, Except.bind] at h
  · exact Err.noConfusion (Except.error.inj h)
  rcases hr4 : readU32? b3 with - | ⟨eo, b4⟩ <;> rw [hr4] at h <;>
    simp only [liftRead, bind, Except.bind] at h
  · exact Err.noConfusion (Except.error.inj h)
  rcases hr5 : readU32? b4 with - | ⟨el, b5⟩ <;> rw [hr5] at h <;>
    simp only [liftRead, bind, Except.bind] at h
  · exact Err.noConfusion (Except.error.inj h)
  rcases hr6 : readU16? b5 with - | ⟨tm, b6⟩ <;> rw [hr6] at h <;>
    simp only [liftRead, bind, Except.bind] at h
  · exact Err.noConfusion (Except.error.inj h)
  split at h
  · exact Err.noConfusion (Except.error.inj h)
  · exact Except.noConfusion h

theorem respawnEntryFrom_noFuel (b : List Nat) : respawnEntryFrom b ≠ .error .noFuel := by
  intro h
  unfold respawnEntryFrom at h
  rcases hr1 : readU32? b with - | ⟨crc, b1⟩ <;> rw [hr1] at h <;>
    simp only [liftRead, bind, Except.bind] at h
  · exact Err.noConfusion (Except.error.inj h)
  rcases hr2 : readU16? b1 with - | ⟨pl, b2⟩ <;> rw [hr2] at h <;>
    simp only [liftRead, bind, Except.bind] at h
  · exact Err.noConfusion (Except.error.inj h)
  rcases hr3 : respawnPartsLoop b2 with e | ⟨parts, b3⟩ <;> rw [hr3] at h <;>
    simp only [bind, Except.bind] at h
  · have he : e = .noFuel := Except.error.inj h
    subst he
    exact respawnPartsLoop_noFuel b2.length b2 le_rfl hr3
  · exact Except.noConfusion h

theorem parseFiles_noFuel (c : DirEntryCodec E) (bound : Nat) (hsh : CodecShrink c)
    (hcnf : ∀ b, c.fromBytes b ≠ .error .noFuel) :
    ∀ (n : Nat) (rem : List Nat), rem.length ≤ n →
      ∀ (fuel pos : Nat) (ext dirp : List Nat) (t : VPKTree E), rem.length < fuel →
      parseFiles c bound fuel rem pos ext dirp t ≠ .error .noFuel := by
  intro n
  induction n with
  | zero =>
    intro rem hn fuel pos ext dirp t h₁ h
    have hrem : rem = [] := List.length_eq_zero.mp (by omega)
    subst hrem
    obtain ⟨a, rfl⟩ : ∃ a, fuel = a + 1 := ⟨fuel - 1, by omega⟩
    rw [parseFiles, vpkReadString_nil] at h
    simp at h
  | succ n ih =>
    intro rem hn fuel pos ext dirp t h₁ h
    obtain ⟨a, rfl⟩ : ∃ a, fuel = a + 1 := ⟨fuel - 1, by omega⟩
    rw [parseFiles] at h
    rcases hs : vpkReadString rem with e | ⟨name, rem₁⟩ <;> rw [hs] at h <;> simp only [] at h
    · have := vpkReadString_error hs
      subst this
      exact Err.noConfusion (Except.error.inj h)
    split at h
    · exact Except.noConfusion h
    next hbr =>
      rcases hf : c.fromBytes rem₁ with e | ⟨entry, rem₂⟩ <;> rw [hf] at h <;>
        simp only [] at h
      · have he : e = .noFuel := Except.error.inj h
        subst he
        exact hcnf rem₁ hf
      have hname : name ≠ [] := fun hn0 => hbr (Or.inl hn0)
      have hs1 : rem₁.length < rem.length := (vpkReadString_shrink hs).2 hname
      have hs2 : rem₂.length ≤ rem₁.length := hsh hf
      split at h
      · exact ih _ (by simp only [readBytesN, List.length_drop]; omega) a _ _ _ _
          (by simp only [readBytesN, List.length_drop]; omega) h
      · exact ih _ (by omega) a _ _ _ _ (by omega) h

theorem parseDirs_noFuel (c : DirEntryCodec E) (bound : Nat) (hsh : CodecShrink c)
    (hcnf : ∀ b, c.fromBytes b ≠ .error .noFuel) :
    ∀ (n : Nat) (rem : List Nat), rem.length ≤ n →
      ∀ (fuel pos : Nat) (ext : List Nat) (t : VPKTree E), rem.length < fuel →
      parseDirs c bound fuel rem pos ext t ≠ .error .noFuel := by
  intro n
  induction n with
  | zero =>
    intro rem hn fuel pos ext t h₁ h
    have hrem : rem = [] := List.length_eq_zero.mp (by omega)
    subst hrem
    obtain ⟨a, rfl⟩ : ∃ a, fuel = a + 1 := ⟨fuel - 1, by omega⟩
    rw [parseDirs, vpkReadString_nil] at h
    simp at h
  | succ n ih =>
    intro rem hn fuel pos ext t h₁ h
    obtain ⟨a, rfl⟩ : ∃ a, fuel = a + 1 := ⟨fuel - 1, by omega⟩
    rw [parseDirs] at h
    rcases hs : vpkReadString rem with e | ⟨dirp, rem₁⟩ <;> rw [hs] at h <;> simp only [] at h
    · have := vpkReadString_error hs
      subst this
      exact Err.noConfusion (Except.error.inj h)
    split at h
    · exact Except.noConfusion h
    next hbr =>
      have hname : dirp ≠ [] := fun hn0 => hbr (Or.inl hn0)
      have hs1 : rem₁.length < rem.length := (vpkReadString_shrink hs).2 hname
      rcases hff : parseFiles c bound a rem₁ (pos + (rem.length - rem₁.length)) ext dirp t
        with e | ⟨t₂, rem₂, pos₂⟩ <;> rw [hff] at h <;> simp only [] at h
      · have he : e = .noFuel := Except.error.inj h
        subst he
        exact parseFiles_noFuel c bound hsh hcnf n rem₁ (by omega) a _ _ _ _ (by omega) hff
      have hsf : rem₂.length ≤ rem₁.length := parseFiles_shrink c bound hsh a _ _ _ _ _ hff
      exact ih _ (by omega) a _ _ _ (by omega) h

theorem parseExts_noFuel (c : DirEntryCodec E) (bound : Nat) (hsh : CodecShrink c)
    (hcnf : ∀ b, c.fromBytes b ≠ .error .noFuel) :
    ∀ (n : Nat) (rem : List Nat), rem.length ≤ n →
      ∀ (fuel pos : Nat) (t : VPKTree E), rem.length < fuel →
      parseExts c bound fuel rem pos t ≠ .error .noFuel := by
  intro n
  induction n with
  | zero =>
    intro rem hn fuel pos t h₁ h
    have hrem : rem = [] := List.length_eq_zero.mp (by omega)
    subst hrem
    obtain ⟨a, rfl⟩ : ∃ a, fuel = a + 1 := ⟨fuel - 1, by omega⟩
    rw [parseExts] at h
    split at h
    · rw [vpkReadString_nil] at h
      simp at h
    · exact Except.noConfusion h
  | succ n ih =>
    intro rem hn fuel pos t h₁ h
    obtain ⟨a, rfl⟩ : ∃ a, fuel = a + 1 := ⟨fuel - 1, by omega⟩
    rw [parseExts] at h
    split at h
    · rcases hs : vpkReadString rem with e | ⟨ext, rem₁⟩ <;> rw [hs] at h <;> simp only [] at h
      · have := vpkReadString_error hs
        subst this
        exact Err.noConfusion (Except.error.inj h)
      split at h
      · exact Except.noConfusion h
      next hbr =>
        have hs1 : rem₁.length < rem.length := (vpkReadString_shrink hs).2 hbr
        rcases hdd : parseDirs c bound a rem₁ (pos + (rem.length - rem₁.length)) ext t
          with e | ⟨t₂, rem₂, pos₂⟩ <;> rw [hdd] at h <;> simp only [] at h
        · have he : e = .noFuel := Except.error.inj h
          subst he
          exact parseDirs_noFuel c bound hsh hcnf n rem₁ (by omega) a _ _ _ (by omega) hdd
        have hsd : rem₂.length ≤ rem₁.length := parseDirs_shrink c bound hsh a _ _ _ _ hdd
        exact ih _ (by omega) a _ _ (by omega) h
    · exact Except.noConfusion h

/-!  ## Claim theorems  -/

/-- C9: DirectoryTree parsing terminates for every finite input stream and
every `tree_size`: the result of `VPKTree::from` is independent of the step
budget once the budget exceeds the remaining stream length (the default
budget `remaining + 1` qualifies), and the budget marker `noFuel` never
occurs at the default budget, for both entry codecs — so `VPKTree::from` is
a total function on finite inputs. -/
theorem c9_tree_parse_total :
    (∀ (file : List Nat) (start size fuel : Nat), (file.drop start).length < fuel →
      vpkTreeFromFuel v1Codec fuel file start size = vpkTreeFrom v1Codec file start size) ∧
    (∀ (file : List Nat) (start size fuel : Nat), (file.drop start).length < fuel →
      vpkTreeFromFuel respawnCodec fuel file start size =
        vpkTreeFrom respawnCodec file start size) ∧
    (∀ (file : List Nat) (start size : Nat),
      vpkTreeFrom v1Codec file start size ≠ .error .noFuel ∧
      vpkTreeFrom respawnCodec file start size ≠ .error .noFuel) := by
  refine ⟨?_, ?_, ?_⟩
  · intro file start size fuel hf
    unfold vpkTreeFrom vpkTreeFromFuel
    rw [parseExts_fuel v1Codec (start + size) v1Codec_shrink (file.drop start).length
      (file.drop start) le_rfl fuel ((file.drop start).length + 1) start .empty hf (by omega)]
  · intro file start size fuel hf
    unfold vpkTreeFrom vpkTreeFromFuel
    rw [parseExts_fuel respawnCodec (start + size) respawnCodec_shrink (file.drop start).length
      (file.drop start) le_rfl fuel ((file.drop start).length + 1) start .empty hf (by omega)]
  · intro file start size
    constructor
    · unfold vpkTreeFrom vpkTreeFromFuel
      intro h
      rcases hp : parseExts v1Codec (start + size) ((file.drop start).length + 1)
        (file.drop start) start .empty with e | ⟨t, r, p⟩ <;> rw [hp] at h
      · have he : e = .noFuel := Except.error.inj h
        subst he
        exact parseExts_noFuel v1Codec (start + size) v1Codec_shrink
          (fun b => v1EntryFrom_noFuel b) (file.drop start).length (file.drop start) le_rfl
          ((file.drop start).length + 1) start .empty (by omega) hp
      · exact Except.noConfusion h
    · unfold vpkTreeFrom vpkTreeFromFuel
      intro h
      rcases hp : parseExts respawnCodec (start + size) ((file.drop start).length + 1)
        (file.drop start) start .empty with e | ⟨t, r, p⟩ <;> rw [hp] at h
      · have he : e = .noFuel := Except.error.inj h
        subst he
        exact parseExts_noFuel respawnCodec (start + size) respawnCodec_shrink
          (fun b => respawnEntryFrom_noFuel b) (file.drop start).length (file.drop start) le_rfl
          ((file.drop start).length + 1) start .empty (by omega) hp
      · exact Except.noConfusion h

/-- Witness for C9 at a concrete input. -/
theorem c9_tree_parse_total_witness :
    ([42].drop 0).length < 2 ∧
    vpkTreeFromFuel v1Codec 2 [42] 0 1 = vpkTreeFrom v1Codec [42] 0 1 :=
  ⟨by decide, c9_tree_parse_total.1 [42] 0 1 2 (by decide)⟩

/-- C7: `VPKHeaderV2::from` validates the magic first, then the version,
then the section sizes (archive-MD5 section a multiple of 28, other-MD5
section exactly 48, signature section 0 or 296), and returns every header
passing the checks. -/
theorem c7_v2_header_checks (sig ver ts fds md5 omd5 ss : Nat) (rest : List Nat)
    (h1 : sig < 4294967296) (h2 : ver < 4294967296) (h3 : ts < 4294967296)
    (h4 : fds < 4294967296) (h5 : md5 < 4294967296) (h6 : omd5 < 4294967296)
    (h7 : ss < 4294967296) :
    v2HeaderFrom (natLE 4 sig ++ natLE 4 ver ++ natLE 4 ts ++ natLE 4 fds ++
      natLE 4 md5 ++ natLE 4 omd5 ++ natLE 4 ss ++ rest) =
      if sig ≠ VPK_SIGNATURE then .error .invalidSignature
      else if ver ≠ VPK_VERSION_V2 then .error .badVersion
      else if md5 % 28 ≠ 0 then .error .badData
      else if omd5 ≠ 48 then .error .badData
      else if ss ≠ 0 ∧ ss ≠ 296 then .error .badData
      else .ok (⟨sig, ver, ts, fds, md5, omd5, ss⟩, rest) := by
  have e1 : readU32? (natLE 4 sig ++ (natLE 4 ver ++ (natLE 4 ts ++ (natLE 4 fds ++
      (natLE 4 md5 ++ (natLE 4 omd5 ++ (natLE 4 ss ++ rest))))))) = some (sig, _) :=
    readUN_natLE 4 sig _ (by norm_num [h1])
  have e2 : readU32? (natLE 4 ver ++ (natLE 4 ts ++ (natLE 4 fds ++
      (natLE 4 md5 ++ (natLE 4 omd5 ++ (natLE 4 ss ++ rest)))))) = some (ver, _) :=
    readUN_natLE 4 ver _ (by norm_num [h2])
  have e3 : readU32? (natLE 4 ts ++ (natLE 4 fds ++
      (natLE 4 md5 ++ (natLE 4 omd5 ++ (natLE 4 ss ++ rest))))) = some (ts, _) :=
    readUN_natLE 4 ts _ (by norm_num [h3])
  have e4 : readU32? (natLE 4 fds ++
      (natLE 4 md5 ++ (natLE 4 omd5 ++ (natLE 4 ss ++ rest)))) = some (fds, _) :=
    readUN_natLE 4 fds _ (by norm_num [h4])
  have e5 : readU32? (natLE 4 md5 ++ (natLE 4 omd5 ++ (natLE 4 ss ++ rest)))
      = some (md5, _) :=
    readUN_natLE 4 md5 _ (by norm_num [h5])
  have e6 : readU32? (natLE 4 omd5 ++ (natLE 4 ss ++ rest)) = some (omd5, _) :=
    readUN_natLE 4 omd5 _ (by norm_num [h6])
  have e7 : readU32? (natLE 4 ss ++ rest) = some (ss, rest) :=
    readUN_natLE 4 ss rest (by norm_num [h7])
  unfold v2HeaderFrom
  simp only [List.append_assoc]
  rw [e1]
  simp only [liftRead, bind, Except.bind]
  by_cases hs : sig ≠ VPK_SIGNATURE
  · rw [if_pos hs, if_pos hs]
  rw [if_neg hs, if_neg hs]
  rw [e2]
  simp only [liftRead, bind, Except.bind]
  by_cases hv : ver ≠ VPK_VERSION_V2
  · rw [if_pos hv, if_pos hv]
    rfl
  rw [if_neg hv, if_neg hv]
  rw [e3]
  simp only [liftRead, bind, Except.bind]
  rw [e4]
  simp only [liftRead, bind, Except.bind]
  rw [e5]
  simp only [liftRead, bind, Except.bind]
  by_cases hm : md5 % 28 ≠ 0
  · rw [if_pos hm, if_pos hm]
    rfl
  rw [if_neg hm, if_neg hm]
  rw [e6]
  simp only [liftRead, bind, Except.bind]
  by_cases ho : omd5 ≠ 48
  · rw [if_pos ho, if_pos ho]
    rfl
  rw [if_neg ho, if_neg ho]
  rw [e7]
  simp only [liftRead, bind, Except.bind]
  by_cases hss : ss ≠ 0 ∧ ss ≠ 296
  · rw [if_pos hss, if_pos hss]
    rfl
  rw [if_neg hss, if_neg hss]
  rfl

/-- Witness for C7 at a concrete header. -/
theorem c7_v2_header_checks_witness :
    (1437209140 : Nat) < 4294967296 ∧
    v2HeaderFrom (natLE 4 1437209140 ++ natLE 4 2 ++ natLE 4 0 ++ natLE 4 0 ++
      natLE 4 56 ++ natLE 4 48 ++ natLE 4 296 ++ []) =
      if (1437209140 : Nat) ≠ VPK_SIGNATURE then .error .invalidSignature
      else if (2 : Nat) ≠ VPK_VERSION_V2 then .error .badVersion
      else if (56 : Nat) % 28 ≠ 0 then .error .badData
      else if (48 : Nat) ≠ 48 then .error .badData
      else if (296 : Nat) ≠ 0 ∧ (296 : Nat) ≠ 296 then .error .badData
      else .ok (⟨1437209140, 2, 0, 0, 56, 48, 296⟩, []) :=
  ⟨by decide, c7_v2_header_checks 1437209140 2 0 0 56 48 296 [] (by decide) (by decide)
    (by decide) (by decide) (by decide) (by decide) (by decide)⟩

/-- C8: every header probe (`is_format` of V1, V2, Respawn) answers `true`
exactly when the two little-endian `u32`s at the entry position are that
variant's signature/version pair (a failed read standing in as 0, which
matches neither), and the stream position after the probe equals the
position at entry whatever the answer. -/
theorem c8_is_format_probe (file : List Nat) (pos : Nat) :
    ((v1IsFormat file pos).2 = pos ∧
      ((v1IsFormat file pos).1 = true ↔
        readU32At? file pos = some VPK_SIGNATURE ∧
        readU32At? file (pos + 4) = some VPK_VERSION_V1)) ∧
    ((v2IsFormat file pos).2 = pos ∧
      ((v2IsFormat file pos).1 = true ↔
        readU32At? file pos = some VPK_SIGNATURE ∧
        readU32At? file (pos + 4) = some VPK_VERSION_V2)) ∧
    ((respawnIsFormat file pos).2 = pos ∧
      ((respawnIsFormat file pos).1 = true ↔
        readU32At? file pos = some VPK_SIGNATURE ∧
        readU32At? file (pos + 4) = some VPK_VERSION_REVPK)) := by
  have hgd : ∀ (o : Option Nat) (v : Nat), v ≠ 0 → ((o.getD 0 = v) ↔ o = some v) := by
    intro o v hv
    cases o with
    | none => simp [Ne.symm hv]
    | some a => simp
  refine ⟨⟨rfl, ?_⟩, ⟨rfl, ?_⟩, ⟨rfl, ?_⟩⟩ <;>
    simp only [v1IsFormat, v2IsFormat, respawnIsFormat, Bool.and_eq_true, beq_iff_eq]
  · rw [hgd _ _ (by norm_num [VPK_SIGNATURE]), hgd _ _ (by norm_num [VPK_VERSION_V1])]
  · rw [hgd _ _ (by norm_num [VPK_SIGNATURE]), hgd _ _ (by norm_num [VPK_VERSION_V2])]
  · rw [hgd _ _ (by norm_num [VPK_SIGNATURE]), hgd _ _ (by norm_num [VPK_VERSION_REVPK])]

/-- C5 (amended): `VPKHeaderV1::write` re-validates exactly the V1 read
invariants (signature and version) and errors without emitting bytes when
one fails; `VPKHeaderRespawn::write`, however, re-validates only the
signature and the version — not the `unknown == 0` invariant that
`VPKHeaderRespawn::from` enforces. -/
theorem c5_header_write_validation :
    (∀ h : VPKHeaderV1,
      ((∃ e, v1HeaderWrite h = .error e) ↔
        (h.signature ≠ VPK_SIGNATURE ∨ h.version ≠ VPK_VERSION_V1)) ∧
      (h.signature ≠ VPK_SIGNATURE → v1HeaderWrite h = .error .invalidSignature) ∧
      (h.signature = VPK_SIGNATURE → h.version ≠ VPK_VERSION_V1 →
        v1HeaderWrite h = .error .badVersion)) ∧
    (∀ h : VPKHeaderRespawn,
      ((∃ e, respawnHeaderWrite h = .error e) ↔
        (h.signature ≠ VPK_SIGNATURE ∨ h.version ≠ VPK_VERSION_REVPK)) ∧
      (h.signature = VPK_SIGNATURE → h.version = VPK_VERSION_REVPK →
        respawnHeaderWrite h = .ok (natLE 4 h.signature ++ natLE 4 h.version ++
          natLE 4 h.tree_size ++ natLE 4 h.unknown))) := by
  constructor
  · intro h
    unfold v1HeaderWrite
    by_cases hs : h.signature ≠ VPK_SIGNATURE
    · rw [if_pos hs]
      exact ⟨⟨fun _ => Or.inl hs, fun _ => ⟨.invalidSignature, rfl⟩⟩,
        fun _ => rfl, fun hs2 _ => absurd hs2 hs⟩
    · rw [if_neg hs]
      push_neg at hs
      by_cases hv : h.version ≠ VPK_VERSION_V1
      · rw [if_pos hv]
        refine ⟨⟨fun _ => Or.inr hv, fun _ => ⟨.badVersion, by simp [bind, Except.bind, pure, Except.pure]⟩⟩,
          fun hs2 => absurd hs hs2, fun _ _ => by simp [bind, Except.bind, pure, Except.pure]⟩
      · rw [if_neg hv]
        push_neg at hv
        refine ⟨⟨?_, ?_⟩, fun hs2 => absurd hs hs2, fun _ hv2 => absurd hv hv2⟩
        · rintro ⟨e, he⟩
          simp only [bind, Except.bind, pure, Except.pure] at he
          exact Except.noConfusion he
        · rintro (hc | hc)
          · exact absurd hs hc
          · exact absurd hv hc
  · intro h
    unfold respawnHeaderWrite
    by_cases hs : h.signature ≠ VPK_SIGNATURE
    · rw [if_pos hs]
      exact ⟨⟨fun _ => Or.inl hs, fun _ => ⟨.invalidSignature, rfl⟩⟩,
        fun hs2 _ => absurd hs2 hs⟩
    · rw [if_neg hs]
      push_neg at hs
      by_cases hv : h.version ≠ VPK_VERSION_REVPK
      · rw [if_pos hv]
        exact ⟨⟨fun _ => Or.inr hv, fun _ => ⟨.badVersion, by simp [bind, Except.bind, pure, Except.pure]⟩⟩,
          fun _ hv2 => absurd hv2 hv⟩
      · rw [if_neg hv]
        push_neg at hv
        refine ⟨⟨?_, ?_⟩, fun _ _ => by simp [bind, Except.bind, pure, Except.pure]⟩
        · rintro ⟨e, he⟩
          simp only [bind, Except.bind, pure, Except.pure] at he
          exact Except.noConfusion he
        · rintro (hc | hc)
          · exact absurd hs hc
          · exact absurd hv hc

/-- Counterexample to C5 as stated: a Respawn header with a valid signature
and version but `unknown = 1` is written without any error, although
`VPKHeaderRespawn::from` rejects exactly those bytes — the write does not
re-validate the same invariants the read validates. -/
theorem c5_counterexample :
    respawnHeaderWrite ⟨VPK_SIGNATURE, VPK_VERSION_REVPK, 0, 1⟩ =
      .ok (natLE 4 VPK_SIGNATURE ++ natLE 4 VPK_VERSION_REVPK ++ natLE 4 0 ++ natLE 4 1) ∧
    respawnHeaderFrom (natLE 4 VPK_SIGNATURE ++ natLE 4 VPK_VERSION_REVPK ++
      natLE 4 0 ++ natLE 4 1) = .error .badData := by
  constructor
  · rfl
  · decide

/-- Witness for C5 at a concrete header with a bad signature. -/
theorem c5_header_write_validation_witness :
    (VPKHeaderV1.mk 0 1 0).signature ≠ VPK_SIGNATURE ∧
    v1HeaderWrite ⟨0, 1, 0⟩ = .error .invalidSignature :=
  ⟨by decide, (c5_header_write_validation.1 ⟨0, 1, 0⟩).2.1 (by decide)⟩

/-- C10: extraction is not atomic on error.  `VPKRespawn::extract_file`
creates the output file and writes the preload bytes before the zero-parts
check and before opening any archive, so those failures leave a newly
created, partially written file behind; `VPKVersion1::extract_file` likewise
creates the file, applies `set_len`, and writes the preload bytes before the
CRC check, so a CRC mismatch also leaves the partial file on disk. -/
theorem c10_extract_not_atomic :
    (∀ (decompress : List Nat → Nat → List Nat) (fs : List Nat → Option (List Nat))
       (v : VPKRespawn) (ap vn fp : List Nat) (entry : VPKDirectoryEntryRespawn)
       (pre : List Nat),
      lookupKV v.tree.files fp = some entry →
      ((entry.preload_length > 0 ∧ lookupKV v.tree.preload fp = some pre) ∨
        (¬ entry.preload_length > 0 ∧ pre = [])) →
      (entry.file_parts = [] →
        respawnExtractFile decompress fs v ap vn fp = (.error .badData, some ⟨pre, 0⟩)) ∧
      (entry.file_parts ≠ [] →
        fs (pathJoin ap (archiveFileName vn (entry.file_parts.headD .zero).archive_index))
          = none →
        respawnExtractFile decompress fs v ap vn fp = (.error .io, some ⟨pre, 0⟩))) ∧
    (∀ (fs : List Nat → Option (List Nat)) (v : VPKVersion1) (ap vn fp : List Nat)
       (entry : VPKDirectoryEntry) (pre : List Nat),
      lookupKV v.tree.files fp = some entry →
      entry.preload_length > 0 → lookupKV v.tree.preload fp = some pre →
      entry.entry_length = 0 → crc32 pre ≠ entry.crc →
      v1ExtractFile fs v ap vn fp = (.error .badData, some ⟨pre, entry.entry_length⟩)) := by
  constructor
  · intro decompress fs v ap vn fp entry pre he hpre
    have hafter : respawnExtractFile decompress fs v ap vn fp =
        respawnExtractAfterPre decompress fs v ap vn fp entry pre := by
      unfold respawnExtractFile
      rw [he]
      simp only []
      rcases hpre with ⟨h1, h2⟩ | ⟨h1, h2⟩
      · rw [if_pos h1, h2]
      · rw [if_neg h1, h2]
    constructor
    · intro hparts
      rw [hafter]
      unfold respawnExtractAfterPre
      rw [if_pos hparts]
    · intro hparts hfs
      rw [hafter]
      unfold respawnExtractAfterPre
      rw [if_neg hparts]
      show (match fs (pathJoin ap (archiveFileName vn
          (entry.file_parts.headD VPKFilePartEntryRespawn.zero).archive_index)) with
        | none => (Except.error Err.io, some (OutFile.mk pre 0))
        | some contents0 =>
          let wav := isWavPath fp
          let st :=
            if wav = true then
              let ce := respawnCamEntryFor v
                ((entry.file_parts.headD VPKFilePartEntryRespawn.zero).archive_index) entry
              (ce.original_size, pre ++ createWavHeader ce)
            else (0, pre)
          match respawnExtractParts decompress fs ap vn wav st.1 entry.file_parts 0
            ((entry.file_parts.headD VPKFilePartEntryRespawn.zero).archive_index)
            contents0 0 st.2 with
          | (Except.error e, out) => (Except.error e, some (OutFile.mk out 0))
          | (Except.ok PUnit.unit, out) =>
            if crc32 out ≠ entry.crc ∧ ¬wav = true
            then (Except.error Err.badData, some (OutFile.mk out 0))
            else (Except.ok (), some (OutFile.mk out 0)))
        = (Except.error Err.io, some (OutFile.mk pre 0))
      rw [hfs]
  · intro fs v ap vn fp entry pre he h1 h2 h3 h4
    unfold v1ExtractFile
    rw [he]
    simp only []
    rw [if_pos h1, h2]
    simp only []
    unfold v1ExtractFileData
    rw [if_neg (by omega), if_neg h4]

/-- Witness for C10 at a concrete Respawn model with a zero-part entry. -/
theorem c10_extract_not_atomic_witness :
    lookupKV (VPKRespawn.mk ⟨VPK_SIGNATURE, VPK_VERSION_REVPK, 0, 0⟩
      ⟨[([102], ⟨0, 2, []⟩)], [([102], [9, 9])]⟩ []).tree.files [102] =
      some ⟨0, 2, []⟩ ∧
    respawnExtractFile (fun b _ => b) (fun _ => none)
      ⟨⟨VPK_SIGNATURE, VPK_VERSION_REVPK, 0, 0⟩,
        ⟨[([102], ⟨0, 2, []⟩)], [([102], [9, 9])]⟩, []⟩ [] [] [102] =
      (.error .badData, some ⟨[9, 9], 0⟩) := by
  refine ⟨by decide, ?_⟩
  exact ((c10_extract_not_atomic.1 (fun b _ => b) (fun _ => none)
    ⟨⟨VPK_SIGNATURE, VPK_VERSION_REVPK, 0, 0⟩,
      ⟨[([102], ⟨0, 2, []⟩)], [([102], [9, 9])]⟩, []⟩ [] [] [102] ⟨0, 2, []⟩ [9, 9]
    (by decide) (Or.inl ⟨by decide, by decide⟩)).1 (by decide))

/-- C1 (amended): for a found V1 entry with `entry_length > 0` (and no
preload), `read_file` obtains the data bytes from the directory file
`{vpk_name}_dir.vpk` seeked to `header_size + tree_size + entry_offset`
exactly when `archive_index` equals the sentinel the code actually compares,
`0xFF7F` (the little-endian reading of the `0x7F, 0xFF` index bytes); for
every other index — the spec's `0x7FFF` included — it reads the external
archive `{vpk_name}_{index:03}.vpk` seeked to `entry_offset`. -/
theorem c1_v1_data_addressing (fs : List Nat → Option (List Nat)) (v : VPKVersion1)
    (ap vn fp : List Nat) (entry : VPKDirectoryEntry)
    (he : lookupKV v.tree.files fp = some entry)
    (hpl : entry.preload_length = 0) (hlen : 0 < entry.entry_length) :
    (entry.archive_index = 0xFF7F →
      v1ReadFile fs v ap vn fp =
        match fs (pathJoin ap (dirFileName vn)) with
        | none => none
        | some contents =>
          let buf := (readBytesN entry.entry_length
            (contents.drop (sizeOfVPKHeaderV1 + v.header.tree_size + entry.entry_offset))).1
          if crc32 buf = entry.crc then some buf else none) ∧
    (entry.archive_index ≠ 0xFF7F →
      v1ReadFile fs v ap vn fp =
        match fs (pathJoin ap (archiveFileName vn entry.archive_index)) with
        | none => none
        | some contents =>
          let buf := (readBytesN entry.entry_length (contents.drop entry.entry_offset)).1
          if crc32 buf = entry.crc then some buf else none) ∧
    (entry.archive_index = 0xFF7F → ∀ contents,
      fs (pathJoin ap (dirFileName vn)) = some contents →
      v1ExtractFile fs v ap vn fp =
        match v1CopyLoop contents (sizeOfVPKHeaderV1 + v.header.tree_size + entry.entry_offset)
            entry.entry_length [] with
        | (Except.error e, out) => (Except.error e, some ⟨out, entry.entry_length⟩)
        | (Except.ok _, out) =>
          if crc32 out = entry.crc then (Except.ok (), some ⟨out, entry.entry_length⟩)
          else (Except.error Err.badData, some ⟨out, entry.entry_length⟩)) ∧
    (entry.archive_index ≠ 0xFF7F → ∀ contents,
      fs (pathJoin ap (archiveFileName vn entry.archive_index)) = some contents →
      v1ExtractFile fs v ap vn fp =
        match v1CopyLoop contents entry.entry_offset entry.entry_length [] with
        | (Except.error e, out) => (Except.error e, some ⟨out, entry.entry_length⟩)
        | (Except.ok _, out) =>
          if crc32 out = entry.crc then (Except.ok (), some ⟨out, entry.entry_length⟩)
          else (Except.error Err.badData, some ⟨out, entry.entry_length⟩)) := by
  refine ⟨?_, ?_, ?_, ?_⟩
  · intro hidx
    unfold v1ReadFile
    rw [he]
    simp only [Option.bind_eq_bind, Option.some_bind]
    rw [if_neg (by omega)]
    simp only [Option.pure_def, Option.some_bind]
    rw [if_pos hlen, if_pos hidx]
    rcases hc : fs (pathJoin ap (dirFileName vn)) with - | contents
    · rfl
    · simp only [Option.some_bind, List.nil_append]
  · intro hidx
    unfold v1ReadFile
    rw [he]
    simp only [Option.bind_eq_bind, Option.some_bind]
    rw [if_neg (by omega)]
    simp only [Option.pure_def, Option.some_bind]
    rw [if_pos hlen, if_neg hidx]
    rcases hc : fs (pathJoin ap (archiveFileName vn entry.archive_index)) with - | contents
    · rfl
    · simp only [Option.some_bind, List.nil_append]
  · intro hidx contents hfs
    unfold v1ExtractFile
    rw [he]
    simp only []
    rw [if_neg (by omega)]
    unfold v1ExtractFileData
    rw [if_pos hlen, if_pos hidx, hfs]
    show (match v1CopyLoop contents
        (sizeOfVPKHeaderV1 + v.header.tree_size + entry.entry_offset) entry.entry_length [] with
      | (Except.error e, out) =>
        (Except.error e, some (OutFile.mk ([] ++ out) entry.entry_length))
      | (Except.ok (), out) =>
        if crc32 ([] ++ out) = entry.crc
        then (Except.ok (), some (OutFile.mk ([] ++ out) entry.entry_length))
        else (Except.error Err.badData, some (OutFile.mk ([] ++ out) entry.entry_length)))
      = (match v1CopyLoop contents
          (sizeOfVPKHeaderV1 + v.header.tree_size + entry.entry_offset)
          entry.entry_length [] with
        | (Except.error e, out) => (Except.error e, some ⟨out, entry.entry_length⟩)
        | (Except.ok _, out) =>
          if crc32 out = entry.crc then (Except.ok (), some ⟨out, entry.entry_length⟩)
          else (Except.error Err.badData, some ⟨out, entry.entry_length⟩))
    rcases v1CopyLoop contents
        (sizeOfVPKHeaderV1 + v.header.tree_size + entry.entry_offset)
        entry.entry_length [] with ⟨r, out⟩
    rcases r with e | ⟨⟩
    · simp
    · simp
  · intro hidx contents hfs
    unfold v1ExtractFile
    rw [he]
    simp only []
    rw [if_neg (by omega)]
    unfold v1ExtractFileData
    rw [if_pos hlen, if_neg hidx, hfs]
    show (match v1CopyLoop contents entry.entry_offset entry.entry_length [] with
      | (Except.error e, out) =>
        (Except.error e, some (OutFile.mk ([] ++ out) entry.entry_length))
      | (Except.ok (), out) =>
        if crc32 ([] ++ out) = entry.crc
        then (Except.ok (), some (OutFile.mk ([] ++ out) entry.entry_length))
        else (Except.error Err.badData, some (OutFile.mk ([] ++ out) entry.entry_length)))
      = (match v1CopyLoop contents entry.entry_offset entry.entry_length [] with
        | (Except.error e, out) => (Except.error e, some ⟨out, entry.entry_length⟩)
        | (Except.ok _, out) =>
          if crc32 out = entry.crc then (Except.ok (), some ⟨out, entry.entry_length⟩)
          else (Except.error Err.badData, some ⟨out, entry.entry_length⟩))
    rcases v1CopyLoop contents entry.entry_offset entry.entry_length [] with ⟨r, out⟩
    rcases r with e | ⟨⟩
    · simp
    · simp

/-- Witness for C1: a non-sentinel entry reads through the external archive
path (absent here, so the read fails). -/
theorem c1_v1_data_addressing_witness :
    v1ReadFile (fun _ => none)
      ⟨⟨VPK_SIGNATURE, VPK_VERSION_V1, 0⟩, ⟨[([102], ⟨0, 0, 0, 0, 1, 65535⟩)], []⟩⟩
      [] [] [102] = none := by
  rw [(c1_v1_data_addressing (fun _ => none)
    ⟨⟨VPK_SIGNATURE, VPK_VERSION_V1, 0⟩, ⟨[([102], ⟨0, 0, 0, 0, 1, 65535⟩)], []⟩⟩
    [] [] [102] ⟨0, 0, 0, 0, 1, 65535⟩ (by decide) (by decide) (by decide)).2.1 (by decide)]

/-- Counterexample to C1 as stated: an entry whose `archive_index` is the
spec's sentinel `0x7FFF`, whose data bytes sit in the directory file at
`header_size + tree_size + entry_offset` with a matching CRC, is **not**
read from there — the code compares against `0xFF7F`, treats `0x7FFF` as an
external archive number, and the read returns nothing; the same layout with
index `0xFF7F` returns those bytes. -/
theorem c1_sentinel_counterexample :
    crc32 [7] = 1281784366 ∧
    (readBytesN 1 ((List.replicate 12 0 ++ [7]).drop (sizeOfVPKHeaderV1 + 0 + 0))).1 = [7] ∧
    v1ReadFile
      (fun p => if p = pathJoin [97] (dirFileName [110])
        then some (List.replicate 12 0 ++ [7]) else none)
      ⟨⟨VPK_SIGNATURE, VPK_VERSION_V1, 0⟩,
        ⟨[([102], ⟨1281784366, 0, 0x7FFF, 0, 1, 0xFFFF⟩)], []⟩⟩
      [97] [110] [102] = none ∧
    v1ReadFile
      (fun p => if p = pathJoin [97] (dirFileName [110])
        then some (List.replicate 12 0 ++ [7]) else none)
      ⟨⟨VPK_SIGNATURE, VPK_VERSION_V1, 0⟩,
        ⟨[([102], ⟨1281784366, 0, 0xFF7F, 0, 1, 0xFFFF⟩)], []⟩⟩
      [97] [110] [102] = some [7] := by
  refine ⟨by decide, by decide, by decide, by decide⟩

/-- C4 (amended): during DirectoryTree parsing, a decoded entry whose
terminator differs from `0xFFFF` fails with the parse error, and an entry
record truncated by the end of the stream fails with the I/O error — but a
*string* truncated by the end of the stream is returned as-is without any
error (no NUL required), and *preload* bytes truncated by the end of the
stream are silently shortened, so those two truncated reads do not fail. -/
theorem c4_tree_parse_errors :
    (∀ (crc pl ai eo el tm : Nat) (rest : List Nat),
      crc < 4294967296 → pl < 65536 → ai < 65536 → eo < 4294967296 →
      el < 4294967296 → tm < 65536 → tm ≠ VPK_ENTRY_TERMINATOR →
      v1EntryFrom (natLE 4 crc ++ natLE 2 pl ++ natLE 2 ai ++ natLE 4 eo ++
        natLE 4 el ++ natLE 2 tm ++ rest) = .error .invalidEntryTerminator) ∧
    (∀ b : List Nat, b.length < 18 → v1EntryFrom b = .error .io) ∧
    (∀ s : List Nat, (0 : Nat) ∉ s → utf8Valid s = true → vpkReadString s = .ok (s, [])) ∧
    (∀ (n : Nat) (b : List Nat), b.length ≤ n → readBytesN n b = (b, [])) := by
  refine ⟨?_, ?_, ?_, ?_⟩
  · intro crc pl ai eo el tm rest h1 h2 h3 h4 h5 h6 h7
    have e1 : readU32? (natLE 4 crc ++ (natLE 2 pl ++ (natLE 2 ai ++ (natLE 4 eo ++
        (natLE 4 el ++ (natLE 2 tm ++ rest)))))) = some (crc, _) :=
      readUN_natLE 4 crc _ (by norm_num [h1])
    have e2 : readU16? (natLE 2 pl ++ (natLE 2 ai ++ (natLE 4 eo ++
        (natLE 4 el ++ (natLE 2 tm ++ rest))))) = some (pl, _) :=
      readUN_natLE 2 pl _ (by norm_num [h2])
    have e3 : readU16? (natLE 2 ai ++ (natLE 4 eo ++ (natLE 4 el ++
        (natLE 2 tm ++ rest)))) = some (ai, _) :=
      readUN_natLE 2 ai _ (by norm_num [h3])
    have e4 : readU32? (natLE 4 eo ++ (natLE 4 el ++ (natLE 2 tm ++ rest)))
        = some (eo, _) := readUN_natLE 4 eo _ (by norm_num [h4])
    have e5 : readU32? (natLE 4 el ++ (natLE 2 tm ++ rest)) = some (el, _) :=
      readUN_natLE 4 el _ (by norm_num [h5])
    have e6 : readU16? (natLE 2 tm ++ rest) = some (tm, rest) :=
      readUN_natLE 2 tm rest (by norm_num [h6])
    unfold v1EntryFrom
    simp only [List.append_assoc]
    rw [e1]
    simp only [liftRead, bind, Except.bind]
    rw [e2]
    simp only [liftRead, bind, Except.bind]
    rw [e3]
    simp only [liftRead, bind, Except.bind]
    rw [e4]
    simp only [liftRead, bind, Except.bind]
    rw [e5]
    simp only [liftRead, bind, Except.bind]
    rw [e6]
    simp only [liftRead, bind, Except.bind, if_pos h7]
  · intro b hb
    unfold v1EntryFrom
    rcases hr1 : readU32? b with - | ⟨crc, b1⟩ <;>
      simp only [liftRead, bind, Except.bind]
    obtain ⟨-, e1, l1⟩ := readUN_some hr1
    rcases hr2 : readU16? b1 with - | ⟨pl, b2⟩ <;>
      simp only [liftRead, bind, Except.bind]
    obtain ⟨-, e2, l2⟩ := readUN_some hr2
    rcases hr3 : readU16? b2 with - | ⟨ai, b3⟩ <;>
      simp only [liftRead, bind, Except.bind]
    obtain ⟨-, e3, l3⟩ := readUN_some hr3
    rcases hr4 : readU32? b3 with - | ⟨eo, b4⟩ <;>
      simp only [liftRead, bind, Except.bind]
    obtain ⟨-, e4, l4⟩ := readUN_some hr4
    rcases hr5 : readU32? b4 with - | ⟨el, b5⟩ <;>
      simp only [liftRead, bind, Except.bind]
    obtain ⟨-, e5, l5⟩ := readUN_some hr5
    rcases hr6 : readU16? b5 with - | ⟨tm, b6⟩ <;>
      simp only [liftRead, bind, Except.bind]
    obtain ⟨-, e6, l6⟩ := readUN_some hr6
    exfalso
    subst e1 e2 e3 e4 e5
    simp only [readU32?, readU16?, List.length_drop] at l1 l2 l3 l4 l5 l6
    omega
  · intro s h0 hv
    unfold vpkReadString
    rw [readStringBytes_eos s h0]
    simpa using hv
  · intro n b hb
    simp [readBytesN, List.take_of_length_le hb, List.drop_eq_nil_of_le hb]

/-- Witness for C4 at concrete inputs. -/
theorem c4_tree_parse_errors_witness :
    ([1, 2] : List Nat).length < 18 ∧ v1EntryFrom [1, 2] = .error .io :=
  ⟨by decide, c4_tree_parse_errors.2.1 [1, 2] (by decide)⟩

/-- Counterexample to C4 as stated: a directory stream that ends in the
middle of an entry's declared preload bytes (5 declared, 2 present) parses
without any error — the truncated preload read silently yields the short
byte string, which is stored in the tree. -/
theorem c4_truncated_counterexample :
    vpkTreeFrom v1Codec
      ([97, 0, 100, 0, 102, 0] ++ ([0, 0, 0, 0] ++ [5, 0] ++ [0, 0] ++ [0, 0, 0, 0] ++
        [0, 0, 0, 0] ++ [255, 255]) ++ [1, 2]) 0 100 =
      .ok ⟨[([100, 47, 102, 46, 97], ⟨0, 5, 0, 0, 0, 65535⟩)],
           [([100, 47, 102, 46, 97], [1, 2])]⟩ := by
  decide

/-- The scan index is the start plus the leading `0xCB` run of the suffix. -/
theorem firstNonCBAux_eq : ∀ (l : List Nat) (i : Nat), firstNonCBAux l i = i + leadCB l := by
  intro l
  induction l with
  | nil => intro i; simp [firstNonCBAux, leadCB]
  | cons b r ih =>
    intro i
    by_cases hcb : b = 0xCB
    · simp only [firstNonCBAux, leadCB, if_pos hcb, ih]
      omega
    · simp [firstNonCBAux, leadCB, hcb]

/-- C6 (amended): for a WAV reconstruction, the scan of the first fragment
first skips the fixed 44 bytes from the fragment start and only then skips
the `0xCB` marker run, so the fragment's effective length is reduced by
`44 + run`, not by the count of bytes skipped from the fragment start; as
long as the scan stays inside the data, the plain-file path and the
memory-mapped path agree on that reduction, while a scan running past the
end of the mapping makes the memory-mapped path panic instead. -/
theorem c6_wav_scan (file : List Nat) (p : Nat)
    (hin : p + 44 + leadCB (file.drop (p + 44)) < file.length) :
    (seekToWavData file p = 44 + leadCB (file.drop (p + 44)) ∧
      seekToWavDataMemMap file p = some (44 + leadCB (file.drop (p + 44)))) ∧
    (∀ (g : List Nat) (q : Nat), g.length ≤ q + 44 + leadCB (g.drop (q + 44)) →
      seekToWavDataMemMap g q = none) := by
  have hq : firstNonCB file (p + 44) = (p + 44) + leadCB (file.drop (p + 44)) := by
    rw [firstNonCB, firstNonCBAux_eq]
  refine ⟨⟨?_, ?_⟩, ?_⟩
  · simp only [seekToWavData]
    rw [hq, if_pos (by omega)]
    omega
  · simp only [seekToWavDataMemMap]
    rw [hq, if_pos (by omega)]
    congr 1
    omega
  · intro g q hout
    have hqg : firstNonCB g (q + 44) = (q + 44) + leadCB (g.drop (q + 44)) := by
      rw [firstNonCB, firstNonCBAux_eq]
    simp only [seekToWavDataMemMap]
    rw [hqg, if_neg (by omega)]

/-- Witness for C6 at a concrete file. -/
theorem c6_wav_scan_witness :
    0 + 44 + leadCB ((List.replicate 50 0).drop (0 + 44)) < (List.replicate 50 0).length ∧
    seekToWavData (List.replicate 50 (0 : Nat)) 0 =
      44 + leadCB ((List.replicate 50 (0 : Nat)).drop (0 + 44)) :=
  ⟨by decide, (c6_wav_scan (List.replicate 50 0) 0 (by decide)).1.1⟩

/-- Counterexample to C6 as stated: on a file whose first byte already
differs from `0xCB`, a scan from the fragment start would skip nothing,
yet the code reduces the fragment by 44 — the skip starts only after the
fixed 44-byte seek. -/
theorem c6_scan_counterexample :
    seekToWavData (List.replicate 50 0) 0 = 44 ∧
    specSeekToWavData (List.replicate 50 0) 0 = 0 := by
  exact ⟨by decide, by decide⟩

/-- C3 (amended): the CRC-32/ISO-HDLC gate governs V1 reconstruction — the
assembled bytes are returned (or the extraction succeeds) exactly when their
CRC equals the stored `crc`, and flipping one byte of the backing data flips
the gate — and the Respawn extractor checks the same gate for non-WAV
targets while skipping it entirely for `.wav` (case-insensitive) targets;
but the V2 reader and extractors are `todo!()` and panic on every input, so
no V2 reconstruction ever reaches a CRC check. -/
theorem c3_crc_gate :
    (∀ (fs : List Nat → Option (List Nat)) (v : VPKVersion1) (ap vn fp : List Nat)
       (entry : VPKDirectoryEntry) (contents : List Nat),
      lookupKV v.tree.files fp = some entry → entry.preload_length = 0 →
      0 < entry.entry_length → entry.archive_index ≠ 0xFF7F →
      fs (pathJoin ap (archiveFileName vn entry.archive_index)) = some contents →
      v1ReadFile fs v ap vn fp =
        (if crc32 ((readBytesN entry.entry_length (contents.drop entry.entry_offset)).1)
            = entry.crc
         then some ((readBytesN entry.entry_length (contents.drop entry.entry_offset)).1)
         else none)) ∧
    (∀ (fs : List Nat → Option (List Nat)) (v : VPKVersion1) (ap vn fp : List Nat)
       (entry : VPKDirectoryEntry) (pre : List Nat),
      lookupKV v.tree.files fp = some entry → entry.preload_length > 0 →
      lookupKV v.tree.preload fp = some pre → entry.entry_length = 0 →
      v1ExtractFile fs v ap vn fp =
        (if crc32 pre = entry.crc then (.ok (), some ⟨pre, entry.entry_length⟩)
         else (.error .badData, some ⟨pre, entry.entry_length⟩))) ∧
    (∀ (decompress : List Nat → Nat → List Nat) (fs : List Nat → Option (List Nat))
       (v : VPKRespawn) (ap vn fp : List Nat) (entry : VPKDirectoryEntryRespawn)
       (contents0 out : List Nat),
      lookupKV v.tree.files fp = some entry → entry.preload_length = 0 →
      entry.file_parts ≠ [] →
      fs (pathJoin ap (archiveFileName vn (entry.file_parts.headD .zero).archive_index))
        = some contents0 →
      (isWavPath fp = false →
        respawnExtractParts decompress fs ap vn false 0 entry.file_parts 0
          (entry.file_parts.headD .zero).archive_index contents0 0 [] = (.ok (), out) →
        respawnExtractFile decompress fs v ap vn fp =
          (if crc32 out ≠ entry.crc then (.error .badData, some ⟨out, 0⟩)
           else (.ok (), some ⟨out, 0⟩))) ∧
      (isWavPath fp = true →
        respawnExtractParts decompress fs ap vn true
          (respawnCamEntryFor v (entry.file_parts.headD .zero).archive_index
            entry).original_size entry.file_parts 0
          (entry.file_parts.headD .zero).archive_index contents0 0
          ([] ++ createWavHeader (respawnCamEntryFor v
            (entry.file_parts.headD .zero).archive_index entry)) = (.ok (), out) →
        respawnExtractFile decompress fs v ap vn fp = (.ok (), some ⟨out, 0⟩))) ∧
    (∀ (v2 : VPKVersion2) (a b c d : List Nat) (m : List (Nat × List Nat)),
      v2ReadFile v2 a b c = .panicked ∧ v2ExtractFile v2 a b c d = .panicked ∧
      v2ExtractFileMemMap v2 m a b c = .panicked) ∧
    (∀ (p s : List Nat) (b1 b2 : Nat), b1 < 256 → b2 < 256 → b1 ≠ b2 →
      crc32 (p ++ b1 :: s) ≠ crc32 (p ++ b2 :: s)) := by
  refine ⟨?_, ?_, ?_, fun _ _ _ _ _ _ => ⟨rfl, rfl, rfl⟩,
    fun p s b1 b2 h1 h2 h3 => crc32_single_byte_ne p s b1 b2 h1 h2 h3⟩
  · intro fs v ap vn fp entry contents he hpl hlen hidx hfs
    unfold v1ReadFile
    rw [he]
    simp only [Option.bind_eq_bind, Option.some_bind]
    rw [if_neg (by omega)]
    simp only [Option.pure_def, Option.some_bind]
    rw [if_pos hlen, if_neg hidx, hfs]
    simp only [Option.some_bind, List.nil_append]
  · intro fs v ap vn fp entry pre he h1 h2 h3
    unfold v1ExtractFile
    rw [he]
    simp only []
    rw [if_pos h1, h2]
    simp only []
    unfold v1ExtractFileData
    rw [if_neg (by omega)]
  · intro decompress fs v ap vn fp entry contents0 out he hpl hparts hfs
    have hafter : respawnExtractFile decompress fs v ap vn fp =
        respawnExtractAfterPre decompress fs v ap vn fp entry [] := by
      unfold respawnExtractFile
      rw [he]
      simp only []
      rw [if_neg (by omega)]
    constructor
    · intro hwav hloop
      rw [hafter]
      unfold respawnExtractAfterPre
      rw [if_neg hparts]
      show (match fs (pathJoin ap (archiveFileName vn
          (entry.file_parts.headD VPKFilePartEntryRespawn.zero).archive_index)) with
        | none => (Except.error Err.io, some (OutFile.mk [] 0))
        | some contents0 =>
          let wav := isWavPath fp
          let st :=
            if wav = true then
              let ce := respawnCamEntryFor v
                ((entry.file_parts.headD VPKFilePartEntryRespawn.zero).archive_index) entry
              (ce.original_size, [] ++ createWavHeader ce)
            else (0, [])
          match respawnExtractParts decompress fs ap vn wav st.1 entry.file_parts 0
            ((entry.file_parts.headD VPKFilePartEntryRespawn.zero).archive_index)
            contents0 0 st.2 with
          | (Except.error e, out) => (Except.error e, some (OutFile.mk out 0))
          | (Except.ok PUnit.unit, out) =>
            if crc32 out ≠ entry.crc ∧ ¬wav = true
            then (Except.error Err.badData, some (OutFile.mk out 0))
            else (Except.ok (), some (OutFile.mk out 0)))
        = (if crc32 out ≠ entry.crc then (Except.error Err.badData, some (OutFile.mk out 0))
           else (Except.ok (), some (OutFile.mk out 0)))
      rw [hfs]
      rw [hwav]
      show (match respawnExtractParts decompress fs ap vn false 0 entry.file_parts 0
          (entry.file_parts.headD VPKFilePartEntryRespawn.zero).archive_index contents0 0 [] with
        | (Except.error e, out) => (Except.error e, some (OutFile.mk out 0))
        | (Except.ok PUnit.unit, out) =>
          if crc32 out ≠ entry.crc ∧ ¬false = true
          then (Except.error Err.badData, some (OutFile.mk out 0))
          else (Except.ok (), some (OutFile.mk out 0)))
        = (if crc32 out ≠ entry.crc then (Except.error Err.badData, some (OutFile.mk out 0))
           else (Except.ok (), some (OutFile.mk out 0)))
      rw [hloop]
      show (if crc32 out ≠ entry.crc ∧ ¬false = true
          then (Except.error Err.badData, some (OutFile.mk out 0))
          else (Except.ok (), some (OutFile.mk out 0)))
        = (if crc32 out ≠ entry.crc then (Except.error Err.badData, some (OutFile.mk out 0))
           else (Except.ok (), some (OutFile.mk out 0)))
      by_cases hc : crc32 out ≠ entry.crc
      · rw [if_pos (show crc32 out ≠ entry.crc ∧ ¬false = true from ⟨hc, by simp⟩)]
        rw [if_pos hc]
      · rw [if_neg (show ¬(crc32 out ≠ entry.crc ∧ ¬false = true) from fun hand => hc hand.1)]
        rw [if_neg hc]
    · intro hwav hloop
      rw [hafter]
      unfold respawnExtractAfterPre
      rw [if_neg hparts]
      show (match fs (pathJoin ap (archiveFileName vn
          (entry.file_parts.headD VPKFilePartEntryRespawn.zero).archive_index)) with
        | none => (Except.error Err.io, some (OutFile.mk [] 0))
        | some contents0 =>
          let wav := isWavPath fp
          let st :=
            if wav = true then
              let ce := respawnCamEntryFor v
                ((entry.file_parts.headD VPKFilePartEntryRespawn.zero).archive_index) entry
              (ce.original_size, [] ++ createWavHeader ce)
            else (0, [])
          match respawnExtractParts decompress fs ap vn wav st.1 entry.file_parts 0
            ((entry.file_parts.headD VPKFilePartEntryRespawn.zero).archive_index)
            contents0 0 st.2 with
          | (Except.error e, out) => (Except.error e, some (OutFile.mk out 0))
          | (Except.ok PUnit.unit, out) =>
            if crc32 out ≠ entry.crc ∧ ¬wav = true
            then (Except.error Err.badData, some (OutFile.mk out 0))
            else (Except.ok (), some (OutFile.mk out 0)))
        = (Except.ok (), some (OutFile.mk out 0))
      rw [hfs]
      rw [hwav]
      show (match respawnExtractParts decompress fs ap vn true
          (respawnCamEntryFor v (entry.file_parts.headD VPKFilePartEntryRespawn.zero).archive_index
            entry).original_size entry.file_parts 0
          (entry.file_parts.headD VPKFilePartEntryRespawn.zero).archive_index contents0 0
          ([] ++ createWavHeader (respawnCamEntryFor v
            (entry.file_parts.headD VPKFilePartEntryRespawn.zero).archive_index entry)) with
        | (Except.error e, out) => (Except.error e, some (OutFile.mk out 0))
        | (Except.ok PUnit.unit, out) =>
          if crc32 out ≠ entry.crc ∧ ¬true = true
          then (Except.error Err.badData, some (OutFile.mk out 0))
          else (Except.ok (), some (OutFile.mk out 0)))
        = (Except.ok (), some (OutFile.mk out 0))
      rw [hloop]
      show (if crc32 out ≠ entry.crc ∧ ¬true = true
          then (Except.error Err.badData, some (OutFile.mk out 0))
          else (Except.ok (), some (OutFile.mk out 0)))
        = (Except.ok (), some (OutFile.mk out 0))
      rw [if_neg (show ¬(crc32 out ≠ entry.crc ∧ ¬true = true) from fun hand => hand.2 rfl)]

/-- Witness for C3: flipping one byte changes the CRC. -/
theorem c3_crc_gate_witness :
    (0 : Nat) < 256 ∧ (1 : Nat) < 256 ∧ (0 : Nat) ≠ 1 ∧
    crc32 ([] ++ 0 :: []) ≠ crc32 ([] ++ 1 :: []) :=
  ⟨by decide, by decide, by decide,
    c3_crc_gate.2.2.2.2 [] [] 0 1 (by decide) (by decide) (by decide)⟩

/-- Counterexample to C3 as stated: the V2 reader and extractor never fail
with a data-integrity error nor succeed — they panic (`todo!()`) on every
input, CRC match or not. -/
theorem c3_v2_panics_counterexample :
    v2ReadFile ⟨⟨VPK_SIGNATURE, VPK_VERSION_V2, 0, 0, 0, 48, 0⟩, ⟨[], []⟩, [], [],
      ⟨[], [], []⟩, none⟩ [] [] [] = .panicked ∧
    v2ExtractFile ⟨⟨VPK_SIGNATURE, VPK_VERSION_V2, 0, 0, 0, 48, 0⟩, ⟨[], []⟩, [], [],
      ⟨[], [], []⟩, none⟩ [] [] [] [] = .panicked :=
  ⟨rfl, rfl⟩

/-- C2 (amended): for the variants that support writing (V1, Respawn),
`write_dir` followed by reading the written file back reproduces the header
field-for-field and both tree maps lookup-for-lookup (the `HashMap`
iteration order of the writer is arbitrary, so equality of the association
structures holds at the level of lookups) — provided the model is
round-trip-safe: every key decomposes cleanly into directory, stem and
extension, keys are distinct, entries carry in-range fields (V1: terminator
`0xFFFF`; Respawn: no part indexed `0xFFFF`), preload data matches the
declared lengths, and the serialized tree fits `tree_size`.  Reading back a
written Respawn file starts with an empty CAM map. -/
theorem c2_write_read_roundtrip (v1 : VPKVersion1) (vr : VPKRespawn)
    (h1 : V1RoundSafe v1) (hr : RespawnRoundSafe vr) :
    (∃ out v', v1WriteDir v1 = .ok out ∧ v1FromFile out = .ok v' ∧
      v'.header = v1.header ∧
      (∀ k, lookupKV v'.tree.files k = lookupKV v1.tree.files k) ∧
      (∀ k, lookupKV v'.tree.preload k = lookupKV v1.tree.preload k)) ∧
    (∃ out v', respawnWriteDir vr = .ok out ∧ respawnFromFile out = .ok v' ∧
      v'.header = vr.header ∧
      (∀ k, lookupKV v'.tree.files k = lookupKV vr.tree.files k) ∧
      (∀ k, lookupKV v'.tree.preload k = lookupKV vr.tree.preload k) ∧
      v'.archive_cams = []) :=
  ⟨v1_write_read v1 h1, respawn_write_read vr hr⟩

/-- Witness for C2: the round trip at concrete one-file models. -/
theorem c2_write_read_roundtrip_witness :
    V1RoundSafe ⟨⟨VPK_SIGNATURE, VPK_VERSION_V1, 64⟩,
      ⟨[([100, 47, 102, 46, 97], ⟨5, 2, 7, 9, 0, 65535⟩)],
       [([100, 47, 102, 46, 97], [8, 8])]⟩⟩ ∧
    RespawnRoundSafe ⟨⟨VPK_SIGNATURE, VPK_VERSION_REVPK, 64, 0⟩, ⟨[], []⟩, []⟩ ∧
    (∃ out v', v1WriteDir ⟨⟨VPK_SIGNATURE, VPK_VERSION_V1, 64⟩,
        ⟨[([100, 47, 102, 46, 97], ⟨5, 2, 7, 9, 0, 65535⟩)],
         [([100, 47, 102, 46, 97], [8, 8])]⟩⟩ = .ok out ∧
      v1FromFile out = .ok v' ∧
      v'.header = VPKHeaderV1.mk VPK_SIGNATURE VPK_VERSION_V1 64 ∧
      (∀ k, lookupKV v'.tree.files k =
        lookupKV [([100, 47, 102, 46, 97], VPKDirectoryEntry.mk 5 2 7 9 0 65535)] k) ∧
      (∀ k, lookupKV v'.tree.preload k =
        lookupKV [([100, 47, 102, 46, 97], [8, 8])] k)) :=
  ⟨by decide, by decide,
    (c2_write_read_roundtrip
      ⟨⟨VPK_SIGNATURE, VPK_VERSION_V1, 64⟩,
        ⟨[([100, 47, 102, 46, 97], ⟨5, 2, 7, 9, 0, 65535⟩)],
         [([100, 47, 102, 46, 97], [8, 8])]⟩⟩
      ⟨⟨VPK_SIGNATURE, VPK_VERSION_REVPK, 64, 0⟩, ⟨[], []⟩, []⟩
      (by decide) (by decide)).1⟩

/-- Counterexample to C2 as stated: a V1 model obtained by successfully
reading a directory file whose single key holds a `/` inside the extension
part writes successfully, but reading the written file back yields an
*empty* tree — the writer decomposes the key through `Path` operations that
do not invert the parser's `dir/name.ext` composition, so structural
equality after one write/read cycle fails. -/
theorem c2_roundtrip_counterexample :
    v1FromFile (natLE 4 VPK_SIGNATURE ++ natLE 4 1 ++ natLE 4 28 ++
        ([97, 47, 98, 0, 100, 0, 102, 0] ++
          [0, 0, 0, 0, 0, 0, 0, 0, 0, 0, 0, 0, 0, 0, 0, 0, 255, 255] ++ [0, 0])) =
      .ok ⟨⟨VPK_SIGNATURE, 1, 28⟩,
        ⟨[([100, 47, 102, 46, 97, 47, 98], ⟨0, 0, 0, 0, 0, 65535⟩)], []⟩⟩ ∧
    v1WriteDir ⟨⟨VPK_SIGNATURE, 1, 28⟩,
        ⟨[([100, 47, 102, 46, 97, 47, 98], ⟨0, 0, 0, 0, 0, 65535⟩)], []⟩⟩ =
      .ok [52, 18, 170, 85, 1, 0, 0, 0, 28, 0, 0, 0, 0, 100, 47, 102, 46, 97, 0, 98, 0,
        0, 0, 0, 0, 0, 0, 0, 0, 0, 0, 0, 0, 0, 0, 0, 0, 255, 255, 0, 0] ∧
    v1FromFile [52, 18, 170, 85, 1, 0, 0, 0, 28, 0, 0, 0, 0, 100, 47, 102, 46, 97, 0,
        98, 0, 0, 0, 0, 0, 0, 0, 0, 0, 0, 0, 0, 0, 0, 0, 0, 0, 255, 255, 0, 0] =
      .ok ⟨⟨VPK_SIGNATURE, 1, 28⟩, ⟨[], []⟩⟩ ∧
    ([] : List (List Nat × VPKDirectoryEntry)) ≠
      [([100, 47, 102, 46, 97, 47, 98], ⟨0, 0, 0, 0, 0, 65535⟩)] := by
  refine ⟨by decide, by decide, by decide, by decide⟩

end VPK
